import Mathlib

set_option maxHeartbeats 1000000

/-!
Verification of the dynamic-object ("shype" / hidden-class) layer of the
cell-gc lisp runtime, shallowly embedded from `lisp/src/protobj.rs` and the
interned-string registry of `lisp/src/value.rs`.

Modelling choices:
* The GC heap is an explicit arena: `Heap` holds the list of shype nodes and
  the list of objects; a `ShypeRef`/`ObjectRef` is the node's index.  GC-ref
  equality (`PartialEq` on refs, `Arc::ptr_eq` on interned strings) is index
  equality.
* Interned-string property names in the shype layer are identities (`Nat`),
  since `protobj.rs` only ever compares them by identity.
* `assert!` failures are modelled as `none`; every fallible operation
  returns an `Option`.
* Iterator chases (`root_path_iter`, `children_iter`, the proto-chain
  iterator) are fueled; in well-formed heaps parent/sibling links strictly
  decrease, so fuel `i+1` is exact for a chase starting at index `i`.
-/

namespace Protobj

/-- Slot values.  `value.rs` stores the full lisp `Value<'h>` union; the
claims need only finitely many distinguishable values, the `Bool(false)`
absent sentinel of `get_property`, and `ImmString` (what
`own_property_names` returns).  Interned-string identity is a `Nat`. -/
inductive Value where
  | Nil : Value
  | Bool (b : Bool) : Value
  | Num (n : Nat) : Value
  | ImmString (name : Nat) : Value
deriving DecidableEq

/-- `ShypeVariant<'h>` from `protobj.rs`: `Root`, `SetPrototype(ObjectRef)`,
`BecomePrototype(ShypeRef)`, `AddProperty(InternedString, PropDescr)`.
`PropDescr` has the single constructor `Slot(u32)`, inlined here as the
`slot` field (slot numbers as `Nat`; the source asserts the slot count
stays below `u32::MAX`, which no claim exercises). -/
inductive ShypeVariant where
  | Root : ShypeVariant
  | SetPrototype (proto : Nat) : ShypeVariant
  | BecomePrototype (target : Nat) : ShypeVariant
  | AddProperty (name : Nat) (slot : Nat) : ShypeVariant
deriving DecidableEq

/-- `Shype<'h>`: optional parent / first-child / next-sibling links plus the
immutable variant. -/
structure Shype where
  parent : Option Nat
  first_child : Option Nat
  next_sibling : Option Nat
  variant : ShypeVariant
deriving DecidableEq

/-- `Object<'h>`: a shype reference plus the growable slot vector. -/
structure Object where
  shype : Nat
  prop_slots : List Value
deriving DecidableEq

/-- The managed heap: arena of shype nodes and arena of objects. -/
structure Heap where
  shypes : List Shype
  objects : List Object
deriving DecidableEq

/-- Default node returned for an out-of-range shype index (never reached on
well-formed heaps; all links and references stay in range). -/
def defaultShype : Shype := ⟨none, none, none, ShypeVariant.Root⟩

/-- Default object for an out-of-range object index. -/
def defaultObject : Object := ⟨0, []⟩

def getS (ss : List Shype) (i : Nat) : Shype := ss.getD i defaultShype

def getObject (h : Heap) (o : Nat) : Object := h.objects.getD o defaultObject

def setS (ss : List Shype) (i : Nat) (s : Shype) : List Shype := ss.set i s

def setObject (h : Heap) (o : Nat) (ob : Object) : Heap :=
  { h with objects := h.objects.set o ob }

/-- Generic fueled link chase; used for `ShypeParentIter` (parent links),
`ShypeNextSiblingIter` (sibling links) and `ObjectProtoIter` (prototype
links).  Each iterator yields the current element and then follows the
link. -/
def chainF (link : Nat → Option Nat) : Nat → Option Nat → List Nat
  | 0, _ => []
  | _ + 1, none => []
  | fuel + 1, some i => i :: chainF link fuel (link i)

def parentLink (ss : List Shype) (i : Nat) : Option Nat := (getS ss i).parent

def sibLink (ss : List Shype) (i : Nat) : Option Nat := (getS ss i).next_sibling

/-- `root_path_iter`: the node, its parent, grandparent, … up to the root.
In well-formed heaps parents strictly decrease, so fuel `i+1` is exact. -/
def root_path (ss : List Shype) (i : Nat) : List Nat :=
  chainF (parentLink ss) (i + 1) (some i)

/-- `children_iter`: the sibling chain starting at `first_child`. -/
def children (ss : List Shype) (i : Nat) : List Nat :=
  match (getS ss i).first_child with
  | none => []
  | some j => chainF (sibLink ss) (j + 1) (some j)

/-- `each_addprop` specialised to `select_named_addprop`: the first
`AddProperty` node in the scanned list whose name matches, with its slot. -/
def lookup_addprop (ss : List Shype) (l : List Nat) (name : Nat) :
    Option (Nat × Nat) :=
  l.findSome? fun a =>
    match (getS ss a).variant with
    | ShypeVariant.AddProperty n slot => if n = name then some (a, slot) else none
    | _ => none

/-- `lookup_root_path_addprop`. -/
def lookup_root_path_addprop (ss : List Shype) (i : Nat) (name : Nat) :
    Option (Nat × Nat) :=
  lookup_addprop ss (root_path ss i) name

/-- `lookup_child_addprop`. -/
def lookup_child_addprop (ss : List Shype) (i : Nat) (name : Nat) :
    Option (Nat × Nat) :=
  lookup_addprop ss (children ss i) name

/-- First `SetPrototype` node in the scanned list, with its prototype.
Both loops over `SetPrototype` in the source `break` at this node. -/
def firstSetProtoOn (ss : List Shype) (l : List Nat) : Option (Nat × Nat) :=
  l.findSome? fun a =>
    match (getS ss a).variant with
    | ShypeVariant.SetPrototype p => some (a, p)
    | _ => none

/-- First `BecomePrototype` node in the scanned list, with its target. -/
def firstBecomeOn (ss : List Shype) (l : List Nat) : Option (Nat × Nat) :=
  l.findSome? fun a =>
    match (getS ss a).variant with
    | ShypeVariant.BecomePrototype t => some (a, t)
    | _ => none

/-- `SpecificShypeView::get_prototype`: proto of the first `SetPrototype`
ancestor on the root path. -/
def shypeGetPrototype (ss : List Shype) (i : Nat) : Option Nat :=
  (firstSetProtoOn ss (root_path ss i)).map (·.2)

/-- `SpecificShypeView::own_property_names`: the name of every `AddProperty`
ancestor, leaf-to-root, as `Value::ImmString`s. -/
def own_property_names (ss : List Shype) (i : Nat) : List Value :=
  (root_path ss i).filterMap fun a =>
    match (getS ss a).variant with
    | ShypeVariant.AddProperty n _ => some (Value.ImmString n)
    | _ => none

/-- `SpecificShypeView::has_ancestor_shype`. -/
def has_ancestor_shype (ss : List Shype) (i : Nat) (sh : Nat) : Bool :=
  (root_path ss i).contains sh

/-- `SpecificShypeView::has_own_property`. -/
def has_own_property (ss : List Shype) (i : Nat) (name : Nat) : Bool :=
  (lookup_root_path_addprop ss i name).isSome

/-- `SpecificShypeView::get_own_property`. -/
def get_own_property (ss : List Shype) (i : Nat) (name : Nat) :
    Option (Nat × Nat) :=
  lookup_root_path_addprop ss i name

/-- Allocate a fresh unlinked shype node (`hs.alloc(Shype::new_*)`); its
index is the current arena length. -/
def alloc_shype (ss : List Shype) (v : ShypeVariant) : Nat × List Shype :=
  (ss.length, ss ++ [⟨none, none, none, v⟩])

/-- `SpecificShypeView::add_child`: asserts the child is unlinked, then sets
`child.parent`, `child.next_sibling := parent.first_child`,
`parent.first_child := child`. -/
def add_child (ss : List Shype) (parent child : Nat) : Option (List Shype) :=
  let c := getS ss child
  if c.parent.isSome then none
  else if c.next_sibling.isSome then none
  else
    let ss1 := setS ss child
      { c with parent := some parent, next_sibling := (getS ss parent).first_child }
    let p := getS ss1 parent
    some (setS ss1 parent { p with first_child := some child })

/-- Allocate a node with variant `v` and link it as a child of `p`. -/
def linkNew (ss : List Shype) (p : Nat) (v : ShypeVariant) :
    Option (Nat × List Shype) :=
  let (c, ss1) := alloc_shype ss v
  (add_child ss1 p c).map fun ss2 => (c, ss2)

/-- Creation tail of `SpecificShypeView::set_prototype`. -/
def shype_set_prototype_create (ss : List Shype) (node proto : Nat) :
    Option (Nat × Bool × List Shype) :=
  (linkNew ss node (ShypeVariant.SetPrototype proto)).map fun (c, ss2) =>
    (c, true, ss2)

/-- Child-probe of `SpecificShypeView::set_prototype`.  The source loop
`break`s at the first `SetPrototype` child: only that child is compared
against `proto`. -/
def shype_set_prototype_child (ss : List Shype) (node proto : Nat) :
    Option (Nat × Bool × List Shype) :=
  match firstSetProtoOn ss (children ss node) with
  | some (c, p) =>
      if p = proto then some (c, true, ss)
      else shype_set_prototype_create ss node proto
  | none => shype_set_prototype_create ss node proto

/-- `SpecificShypeView::set_prototype`: ancestor probe (breaking at the
first `SetPrototype` ancestor), then child probe, then creation. -/
def shype_set_prototype (ss : List Shype) (node proto : Nat) :
    Option (Nat × Bool × List Shype) :=
  match firstSetProtoOn ss (root_path ss node) with
  | some (a, p) =>
      if p = proto then some (a, false, ss)
      else shype_set_prototype_child ss node proto
  | none => shype_set_prototype_child ss node proto

/-- Creation tail of `SpecificShypeView::become_prototype_of`. -/
def shype_become_create (ss : List Shype) (node target : Nat) :
    Option (Nat × Bool × List Shype) :=
  (linkNew ss node (ShypeVariant.BecomePrototype target)).map fun (c, ss2) =>
    (c, true, ss2)

/-- Child-probe of `become_prototype_of` (`break`s at the first
`BecomePrototype` child). -/
def shype_become_child (ss : List Shype) (node target : Nat) :
    Option (Nat × Bool × List Shype) :=
  match firstBecomeOn ss (children ss node) with
  | some (c, t) =>
      if t = target then some (c, true, ss)
      else shype_become_create ss node target
  | none => shype_become_create ss node target

/-- `SpecificShypeView::become_prototype_of`: same tri-level search as
`set_prototype`, keyed by the target shype. -/
def shype_become_prototype_of (ss : List Shype) (node target : Nat) :
    Option (Nat × Bool × List Shype) :=
  match firstBecomeOn ss (root_path ss node) with
  | some (a, t) =>
      if t = target then some (a, false, ss)
      else shype_become_child ss node target
  | none => shype_become_child ss node target

/-- `ObjectRef::num_slots`. -/
def num_slots (h : Heap) (o : Nat) : Nat := (getObject h o).prop_slots.length

/-- `SpecificShypeView::set_property`: asserts the object currently has this
shype; root-path probe, child probe (asserting the recorded slot equals the
object's slot count), then creation of `AddProperty(name, num_slots)`. -/
def shype_set_property (h : Heap) (node obj name : Nat) :
    Option (Nat × Nat × Bool × List Shype) :=
  if (getObject h obj).shype ≠ node then none
  else
    match lookup_root_path_addprop h.shypes node name with
    | some (sh, slot) => some (sh, slot, false, h.shypes)
    | none =>
      match lookup_child_addprop h.shypes node name with
      | some (sh, slot) =>
          if slot = num_slots h obj then some (sh, slot, true, h.shypes) else none
      | none =>
          let slot := num_slots h obj
          (linkNew h.shypes node (ShypeVariant.AddProperty name slot)).map
            fun (c, ss2) => (c, slot, true, ss2)

/-- `ObjectRef::allocate`: asserts the shype is the `Root` variant; the new
object starts with an empty slot vector. -/
def objAllocate (h : Heap) (shype : Nat) : Option (Nat × Heap) :=
  if (getS h.shypes shype).variant = ShypeVariant.Root then
    some (h.objects.length, { h with objects := h.objects ++ [⟨shype, []⟩] })
  else none

/-- `SpecificObjectView::get_prototype`. -/
def objGetPrototype (h : Heap) (o : Nat) : Option Nat :=
  shypeGetPrototype h.shypes (getObject h o).shype

/-- `ObjectProtoIter`: the object, its prototype, that object's prototype, …
(fueled; performs no cycle detection, exactly like the source). -/
def protoChainF (h : Heap) (fuel : Nat) (o : Option Nat) : List Nat :=
  chainF (objGetPrototype h) fuel o

/-- `SpecificObjectView::has_own_property`. -/
def objHasOwnProperty (h : Heap) (o : Nat) (name : Nat) : Bool :=
  has_own_property h.shypes (getObject h o).shype name

/-- `SpecificObjectView::own_property_names`. -/
def objOwnPropertyNames (h : Heap) (o : Nat) : List Value :=
  own_property_names h.shypes (getObject h o).shype

/-- `SpecificObjectView::get_property`: walk the proto chain; at each object
look up the name on its shype, returning `get_slot(slot)` on a hit
(`prop_slots.get? slot`; the source's bounds assertion cannot fire on
well-formed heaps), and `Value::Bool(false)` when the chain ends.  `none`
means the fuel ran out before the traversal finished. -/
def obj_get_property (h : Heap) : Nat → Nat → Nat → Option Value
  | 0, _, _ => none
  | fuel + 1, o, name =>
    match get_own_property h.shypes (getObject h o).shype name with
    | some (_, slot) => (getObject h o).prop_slots.get? slot
    | none =>
      match objGetPrototype h o with
      | some p => obj_get_property h fuel p name
      | none => some (Value.Bool false)

/-- `SpecificObjectView::set_property`: shype lookup, then either overwrite
the existing slot or append a new slot and adopt the returned shype.  All
four source assertions are modelled. -/
def obj_set_property (h : Heap) (o : Nat) (name : Nat) (v : Value) :
    Option (Nat × Heap) :=
  match shype_set_property h (getObject h o).shype o name with
  | none => none
  | some (sh, slot, add, ss1) =>
    let h1 : Heap := { h with shypes := ss1 }
    if slot > num_slots h1 o then none
    else if add then
      if (getS ss1 sh).parent = some (getObject h1 o).shype ∧
          slot = num_slots h1 o then
        let ob := getObject h1 o
        let h2 := setObject h1 o { ob with prop_slots := ob.prop_slots ++ [v] }
        if num_slots h2 o - 1 = slot then
          some (sh, setObject h2 o { getObject h2 o with shype := sh })
        else none
      else none
    else
      if has_ancestor_shype ss1 (getObject h1 o).shype sh ∧
          slot < num_slots h1 o then
        let ob := getObject h1 o
        some (sh, setObject h1 o { ob with prop_slots := ob.prop_slots.set slot v })
      else none

/-- `SpecificObjectView::become_prototype_of`. -/
def obj_become_prototype_of (h : Heap) (o : Nat) (target : Nat) :
    Option (Nat × Heap) :=
  match shype_become_prototype_of h.shypes (getObject h o).shype target with
  | none => none
  | some (sh, set, ss1) =>
    let h1 : Heap := { h with shypes := ss1 }
    if set then
      if (getS ss1 sh).parent = some (getObject h1 o).shype then
        some (sh, setObject h1 o { getObject h1 o with shype := sh })
      else none
    else
      if has_ancestor_shype ss1 (getObject h1 o).shype sh then some (sh, h1)
      else none

/-- `SpecificObjectView::set_prototype`: shype-level `set_prototype` on the
object's shype; `become_prototype_of` on the prototype object with the
resulting target shype; adopt the `SetPrototype` node if `changed`. -/
def obj_set_prototype (h : Heap) (o : Nat) (proto : Nat) :
    Option (Nat × Heap) :=
  match shype_set_prototype h.shypes (getObject h o).shype proto with
  | none => none
  | some (sp, set_target, ss1) =>
    let h1 : Heap := { h with shypes := ss1 }
    let target := if set_target then sp else (getObject h1 o).shype
    match obj_become_prototype_of h1 proto target with
    | none => none
    | some (_, h2) =>
      if set_target then
        if sp = target then
          some (sp, setObject h2 o { getObject h2 o with shype := sp })
        else none
      else some (sp, h2)

/-- The public operations of §4.3 driving reachability: allocate at a root
shype, object-level `set_property`, `set_prototype`,
`become_prototype_of`. -/
inductive Op where
  | alloc (s : Nat) : Op
  | setProp (o name : Nat) (v : Value) : Op
  | setProto (o proto : Nat) : Op
  | becomeProto (o target : Nat) : Op
deriving DecidableEq

/-- Apply one public operation (operands must reference live heap values,
as Rust references do). -/
def applyOp (h : Heap) : Op → Option Heap
  | Op.alloc s =>
      if s < h.shypes.length then (objAllocate h s).map (·.2) else none
  | Op.setProp o name v =>
      if o < h.objects.length then (obj_set_property h o name v).map (·.2)
      else none
  | Op.setProto o proto =>
      if o < h.objects.length ∧ proto < h.objects.length then
        (obj_set_prototype h o proto).map (·.2)
      else none
  | Op.becomeProto o target =>
      if o < h.objects.length ∧ target < h.shypes.length then
        (obj_become_prototype_of h o target).map (·.2)
      else none

def runOps (h : Heap) : List Op → Option Heap
  | [] => some h
  | op :: ops =>
    match applyOp h op with
    | some h1 => runOps h1 ops
    | none => none

/-- The initial heap: one `Root` shype (created by `Shype::new_root`), no
objects. -/
def h0 : Heap := ⟨[defaultShype], []⟩

/-- A heap is reachable when some sequence of public operations produces it
from the initial heap. -/
def Reach (h : Heap) : Prop := ∃ ops, runOps h0 ops = some h

end Protobj

namespace Interned

/-!
The interned-string registry of `lisp/src/value.rs`.  An `InternedString`
is an `Arc<String>`; equality is `Arc::ptr_eq`.  Arcs are modelled by a
fresh-identity counter: the handle carries its text and its arc identity.
The global `STRINGS: Mutex<HashSet<InternedStringByValue>>` (content-keyed)
and `GENSYM_COUNT` live in `RState`.
-/

/-- An `InternedString` handle: the text plus the `Arc` identity. -/
structure IStr where
  content : String
  arc : Nat
deriving DecidableEq

/-- The process-wide registry state: the content-keyed entries of `STRINGS`
(each entry is the `Arc` registered for that content), the gensym counter,
and the supply of fresh arc identities. -/
structure RState where
  strings : List (String × Nat)
  gensym_count : Nat
  next_arc : Nat
deriving DecidableEq

/-- `guard.get(s)`: the arc registered for content `s`, if any. -/
def lookupStr (l : List (String × Nat)) (c : String) : Option Nat :=
  (l.find? fun e => e.1 = c).map (·.2)

/-- `InternedString::gensym`: a fresh handle with counter-tagged text, never
inserted into the registry. -/
def gensym (st : RState) : IStr × RState :=
  let n := st.gensym_count
  (⟨"#<gensym" ++ toString n ++ ">", st.next_arc⟩,
    { st with gensym_count := n + 1, next_arc := st.next_arc + 1 })

/-- `InternedString::get`: return the registered handle for that content,
inserting a fresh one if absent. -/
def get (st : RState) (c : String) : IStr × RState :=
  match lookupStr st.strings c with
  | some a => (⟨c, a⟩, st)
  | none =>
      (⟨c, st.next_arc⟩,
        { st with strings := st.strings ++ [(c, st.next_arc)],
                  next_arc := st.next_arc + 1 })

/-- `str::starts_with`, on the character data. -/
def starts_with (s p : String) : Bool := p.data.isPrefixOf s.data

/-- `InternedString::really_intern`: a no-op unless the text has the gensym
prefix; then either fold into an existing entry for the same content, or
insert a fresh copy of the content (a new `Arc`, deliberately not the
handle's own, so other references to this string do not become interned)
and return `self` unchanged. -/
def really_intern (st : RState) (h : IStr) : IStr × RState :=
  if ¬ starts_with h.content "#<gensym" then (h, st)
  else
    match lookupStr st.strings h.content with
    | some a => (⟨h.content, a⟩, st)
    | none =>
        (h, { st with strings := st.strings ++ [(h.content, st.next_arc)],
                      next_arc := st.next_arc + 1 })

/-- `InternedString::is_interned`: the registry's current entry for this
content is the very same `Arc` as the handle. -/
def is_interned (st : RState) (h : IStr) : Bool :=
  match lookupStr st.strings h.content with
  | none => false
  | some a => a = h.arc

/-- `InternedString::is_gensym`. -/
def is_gensym (st : RState) (h : IStr) : Bool := ¬ is_interned st h

/-- The registry before any operation. -/
def rs0 : RState := ⟨[], 0, 0⟩

end Interned

namespace Protobj

/-- A link map whose targets strictly decrease: parents and next-siblings
point at older (smaller-index) nodes in every reachable heap, which bounds
every chase. -/
def DecrLink (link : Nat → Option Nat) : Prop :=
  ∀ i j, link i = some j → j < i

/-- First-child links stay inside the arena. -/
def FcLt (ss : List Shype) : Prop :=
  ∀ i j, (getS ss i).first_child = some j → j < ss.length

/-- A variant is "not an AddProperty" when it matches no `AddProperty`. -/
def NotAp (v : ShypeVariant) : Prop := ∀ n s, v ≠ ShypeVariant.AddProperty n s

/-- A variant that matches no `SetPrototype`. -/
def NotSp (v : ShypeVariant) : Prop := ∀ p, v ≠ ShypeVariant.SetPrototype p

/-- A variant that matches no `BecomePrototype`. -/
def NotBp (v : ShypeVariant) : Prop := ∀ t, v ≠ ShypeVariant.BecomePrototype t

/-- The `(name, slot)` payloads of the `AddProperty` nodes in a scanned
list, in scan order. -/
def addpropsOf (ss : List Shype) (l : List Nat) : List (Nat × Nat) :=
  l.filterMap fun a =>
    match (getS ss a).variant with
    | ShypeVariant.AddProperty n s => some (n, s)
    | _ => none

/-- The `AddProperty` ancestors of a node, leaf-to-root. -/
def addpropsLR (ss : List Shype) (i : Nat) : List (Nat × Nat) :=
  addpropsOf ss (root_path ss i)

/-- Structural well-formedness of the shype arena, maintained by every
public operation: links decrease / stay in range, children point back at
their parent, only node 0 is the `Root` variant, the `AddProperty`
ancestors of any node record slots `0, 1, 2, …` from the root, and no name
repeats along a root path. -/
structure WfS (ss : List Shype) : Prop where
  parent_decr : DecrLink (parentLink ss)
  sib_decr : DecrLink (sibLink ss)
  fc_lt : FcLt ss
  child_parent : ∀ p, p < ss.length → ∀ c ∈ children ss p,
      (getS ss c).parent = some p
  root_only : ∀ i, i < ss.length →
      (getS ss i).variant = ShypeVariant.Root → i = 0
  zero_parent : (getS ss 0).parent = none
  slots_range : ∀ i, i < ss.length →
      (addpropsLR ss i).reverse.map Prod.snd =
        List.range (addpropsLR ss i).length
  names_nodup : ∀ i, i < ss.length →
      ((addpropsLR ss i).map Prod.fst).Nodup

/-- Heap well-formedness: the shype arena is well-formed, every object's
shype is live, and each object's slot count equals the number of
`AddProperty` ancestors of its shype (the §3 data-model invariant). -/
structure Wf (h : Heap) : Prop where
  wfs : WfS h.shypes
  shype_lt : ∀ o, o < h.objects.length →
      (getObject h o).shype < h.shypes.length
  count_eq : ∀ o, o < h.objects.length →
      (getObject h o).prop_slots.length =
        (addpropsLR h.shypes (getObject h o).shype).length

/-- An object's own properties as an association list, oldest first: the
`AddProperty` ancestors root-to-leaf, each paired with the object's value
in the recorded slot. -/
def ownAssoc (h : Heap) (o : Nat) : List (Nat × Value) :=
  (addpropsLR h.shypes (getObject h o).shype).reverse.map
    fun p => (p.1, (getObject h o).prop_slots.getD p.2 Value.Nil)

/-- Modelled from the spec (§3, §4.3): storing a property overwrites the
entry if the name is present and appends it otherwise, so each entry holds
the value most recently stored for its name. -/
def specSet (l : List (Nat × Value)) (n : Nat) (v : Value) :
    List (Nat × Value) :=
  if l.any fun p => p.1 = n then
    l.map fun p => if p.1 = n then (n, v) else p
  else l ++ [(n, v)]

/-- Modelled from the spec: the effect of one public operation on the
per-object property maps — allocation creates an empty map, `set_property`
stores into the target object's map, prototype operations leave every map
unchanged. -/
def specApply (s : List (List (Nat × Value))) : Op → List (List (Nat × Value))
  | Op.alloc _ => s ++ [[]]
  | Op.setProp o n v => s.set o (specSet (s.getD o []) n v)
  | Op.setProto _ _ => s
  | Op.becomeProto _ _ => s

/-- Modelled from the spec: the property maps after a sequence of public
operations. -/
def specRun (ops : List Op) : List (List (Nat × Value)) :=
  ops.foldl specApply []

/-- A lockstep call: one `set_property` (same name, possibly different
values) or one `set_prototype` (same prototype object) applied to both
objects. -/
inductive Call where
  | prop (name : Nat) (v1 v2 : Value) : Call
  | proto (p : Nat) : Call
deriving DecidableEq

def callOp1 (o1 : Nat) : Call → Op
  | Call.prop n v1 _ => Op.setProp o1 n v1
  | Call.proto p => Op.setProto o1 p

def callOp2 (o2 : Nat) : Call → Op
  | Call.prop n _ v2 => Op.setProp o2 n v2
  | Call.proto p => Op.setProto o2 p

/-- Apply an identical ordered sequence of calls to two objects in
lockstep: each call goes to `o1` and then immediately to `o2`, with no
other operation interleaved. -/
def runLock (h : Heap) (o1 o2 : Nat) : List Call → Option Heap
  | [] => some h
  | c :: cs =>
    match applyOp h (callOp1 o1 c) with
    | none => none
    | some h1 =>
      match applyOp h1 (callOp2 o2 c) with
      | none => none
      | some h2 => runLock h2 o1 o2 cs

/-- The target-erased signature of a call directed at one object. -/
inductive CallSig where
  | prop (name : Nat) (v : Value) : CallSig
  | proto (p : Nat) : CallSig
deriving DecidableEq

/-- The sequence of `set_property`/`set_prototype` calls an operation list
applies to object `o`, with the target erased. -/
def callsOf (o : Nat) (ops : List Op) : List CallSig :=
  ops.filterMap fun op =>
    match op with
    | Op.setProp o' n v => if o' = o then some (CallSig.prop n v) else none
    | Op.setProto o' p => if o' = o then some (CallSig.proto p) else none
    | _ => none

/-- The first object on a proto-chain list that owns the property — the
spec's description (§4.3) of where `get_property` reads from. -/
def firstOwnerOn (h : Heap) (l : List Nat) (name : Nat) : Option Nat :=
  l.find? fun o => objHasOwnProperty h o name

/-- The value an object's own property holds (shype lookup, then the
recorded slot). -/
def ownValue (h : Heap) (o : Nat) (name : Nat) : Option Value :=
  (get_own_property h.shypes (getObject h o).shype name).bind
    fun t => (getObject h o).prop_slots.get? t.2

/-- What one object-level mutation that may extend the shype arena and
reassign object `o`'s shype preserves: well-formedness, every old node's
variant / root path / `AddProperty` ancestors, every object's slots, every
other object wholesale, and `o`'s own `AddProperty` ancestors and
prototype. -/
structure ProtoEvo (h : Heap) (o : Nat) (h' : Heap) : Prop where
  wf' : Wf h'
  obj_len : h'.objects.length = h.objects.length
  slen_le : h.shypes.length ≤ h'.shypes.length
  variants : ∀ k, k < h.shypes.length →
      (getS h'.shypes k).variant = (getS h.shypes k).variant
  roots : ∀ k, k < h.shypes.length →
      root_path h'.shypes k = root_path h.shypes k
  addprops_all : ∀ k, k < h.shypes.length →
      addpropsLR h'.shypes k = addpropsLR h.shypes k
  slots_all : ∀ o', o' < h.objects.length →
      (getObject h' o').prop_slots = (getObject h o').prop_slots
  others : ∀ o', o' < h.objects.length → o' ≠ o →
      getObject h' o' = getObject h o'
  addprops_o : addpropsLR h'.shypes (getObject h' o).shype =
      addpropsLR h.shypes (getObject h o).shype
  getproto_o : shypeGetPrototype h'.shypes (getObject h' o).shype =
      shypeGetPrototype h.shypes (getObject h o).shype

/-- The lockstep induction invariant: both objects are live, share their
shype, and have the same slot count. -/
structure LockInv (h : Heap) (o1 o2 : Nat) : Prop where
  wf : Wf h
  ho1 : o1 < h.objects.length
  ho2 : o2 < h.objects.length
  hsh : (getObject h o1).shype = (getObject h o2).shype
  hcnt : (getObject h o1).prop_slots.length = (getObject h o2).prop_slots.length

/-! Concrete operation lists and the heaps they produce, used as instances
in the claims.  Objects are numbered in allocation order. -/

/-- Five objects at the root; objects 2 and 4 both receive exactly the call
sequence `set_prototype(object 0)`, while object 3's interleaved
`set_prototype(object 1)` changes the shype tree between them. -/
def opsC1cx : List Op := [Op.alloc 0, Op.alloc 0, Op.alloc 0, Op.alloc 0,
  Op.alloc 0, Op.setProto 2 0, Op.setProto 3 1, Op.setProto 4 0]

def hC1cx : Heap := (runOps h0 opsC1cx).getD h0

/-- Two freshly allocated objects at the root. -/
def opsPair : List Op := [Op.alloc 0, Op.alloc 0]

def hPair : Heap := (runOps h0 opsPair).getD h0

/-- Root node 0 ends with a `SetPrototype(object 0)` child created first
and a `SetPrototype(object 1)` child created later (hence earlier in the
sibling list). -/
def opsC2 : List Op := [Op.alloc 0, Op.alloc 0, Op.alloc 0, Op.alloc 0,
  Op.setProto 2 0, Op.setProto 3 1]

def hC2 : Heap := (runOps h0 opsC2).getD h0

/-- One object given property 5, then property 6, then property 5 again
with a new value. -/
def opsC3 : List Op := [Op.alloc 0, Op.setProp 0 5 (Value.Num 1),
  Op.setProp 0 6 (Value.Num 2), Op.setProp 0 5 (Value.Num 3)]

def hC3 : Heap := (runOps h0 opsC3).getD h0

/-- Object 0 owns property 5; object 1 has no own properties and has
object 0 as its prototype. -/
def opsC5 : List Op := [Op.alloc 0, Op.alloc 0, Op.setProp 0 5 (Value.Num 7),
  Op.setProto 1 0]

def hC5 : Heap := (runOps h0 opsC5).getD h0

/-- One object owning property 5. -/
def opsC6 : List Op := [Op.alloc 0, Op.setProp 0 5 (Value.Num 1)]

def hC6 : Heap := (runOps h0 opsC6).getD h0

/-- Object 0 owns property 5; object 1 is fresh. -/
def opsC8 : List Op := [Op.alloc 0, Op.alloc 0, Op.setProp 0 5 (Value.Num 7)]

def hC8 : Heap := (runOps h0 opsC8).getD h0

/-- The heap after `set_prototype(object 1, object 0)` on `hC8`. -/
def hC8' : Heap := ((obj_set_prototype hC8 1 0).getD (0, h0)).2

/-- The result of the shype-level `set_prototype(root, object 0)` probe on
`hC2` (node id, changed flag, updated arena). -/
def C2out : Nat × Bool × List Shype :=
  (shype_set_prototype hC2.shypes 0 0).getD (0, false, [])

/-- The heap produced by re-setting property 5 on `hC6`'s object. -/
def hC6' : Heap := ((obj_set_property hC6 0 5 (Value.Num 2)).getD (0, h0)).2

/-- Object 0 receives property 0 ("x") then 1 ("y"); object 1 receives
them in the opposite order. -/
def opsC7 : List Op := [Op.alloc 0, Op.alloc 0,
  Op.setProp 0 0 (Value.Num 1), Op.setProp 0 1 (Value.Num 2),
  Op.setProp 1 1 (Value.Num 3), Op.setProp 1 0 (Value.Num 4)]

def hC7 : Heap := (runOps h0 opsC7).getD h0

/-- The first three operations of `opsC7` only. -/
def opsC7a : List Op := [Op.alloc 0, Op.alloc 0, Op.setProp 0 0 (Value.Num 1)]

def hC7a : Heap := (runOps h0 opsC7a).getD h0

/-- The heap after additionally setting property 1 on object 0. -/
def hC7b : Heap := ((obj_set_property hC7a 0 1 (Value.Num 2)).getD (0, h0)).2

/-- Three objects at the root, for the lockstep witness: objects 0 and 1
are driven in lockstep, object 2 serves as the shared prototype. -/
def opsTriple : List Op := [Op.alloc 0, Op.alloc 0, Op.alloc 0]

def hTriple : Heap := (runOps h0 opsTriple).getD h0

/-- The lockstep call sequence of the witness: a property, a prototype,
another property, with differing values for the two objects. -/
def csC1 : List Call := [Call.prop 5 (Value.Num 1) (Value.Num 2),
  Call.proto 2, Call.prop 6 (Value.Num 3) (Value.Num 4)]

def hC1lock : Heap := (runLock hTriple 0 1 csC1).getD h0

/-- Two objects made each other's prototype: a cyclic proto chain. -/
def opsC9 : List Op := [Op.alloc 0, Op.alloc 0, Op.setProto 0 1,
  Op.setProto 1 0]

def hC9 : Heap := (runOps h0 opsC9).getD h0

end Protobj


namespace Protobj

/-! ### Basic facts about fueled link chases -/

theorem chainF_none (link : Nat → Option Nat) (f : Nat) :
    chainF link f none = [] := by
  cases f <;> rfl

theorem chainF_cons (link : Nat → Option Nat) (f i : Nat) :
    chainF link (f + 1) (some i) = i :: chainF link f (link i) := rfl

theorem chainF_fuel_eq (link : Nat → Option Nat) (hd : DecrLink link) :
    ∀ i f g, i < f → i < g → chainF link f (some i) = chainF link g (some i) := by
  intro i
  induction i using Nat.strong_induction_on with
  | _ i ih =>
    intro f g hf hg
    obtain ⟨f', rfl⟩ : ∃ f', f = f' + 1 := ⟨f - 1, by omega⟩
    obtain ⟨g', rfl⟩ : ∃ g', g = g' + 1 := ⟨g - 1, by omega⟩
    rw [chainF_cons, chainF_cons]
    cases hl : link i with
    | none => rw [chainF_none, chainF_none]
    | some j =>
      have hj := hd i j hl
      rw [ih j hj f' g' (by omega) (by omega)]

theorem chainF_mem_le (link : Nat → Option Nat) (hd : DecrLink link) :
    ∀ f i a, a ∈ chainF link f (some i) → a ≤ i := by
  intro f
  induction f with
  | zero => intro i a ha; simp [chainF] at ha
  | succ f ih =>
    intro i a ha
    rw [chainF_cons] at ha
    rcases List.mem_cons.mp ha with rfl | ha
    · exact le_refl a
    · cases hl : link i with
      | none => rw [hl, chainF_none] at ha; simp at ha
      | some j =>
        rw [hl] at ha
        exact le_trans (ih j a ha) (le_of_lt (hd i j hl))

theorem chainF_congr (link link' : Nat → Option Nat) (hd : DecrLink link')
    (f : Nat) : ∀ i, (∀ k, k ≤ i → link k = link' k) →
    chainF link f (some i) = chainF link' f (some i) := by
  induction f with
  | zero => intro i _; rfl
  | succ f ih =>
    intro i hag
    rw [chainF_cons, chainF_cons, hag i le_rfl]
    cases hl : link' i with
    | none => rw [chainF_none, chainF_none]
    | some j =>
      exact congrArg _ (ih j fun k hk => hag k (le_trans hk (le_of_lt (hd i j hl))))

/-! ### Arena access -/

theorem length_setS (ss : List Shype) (i : Nat) (s : Shype) :
    (setS ss i s).length = ss.length := List.length_set ss i s

theorem getS_set_self (ss : List Shype) (i : Nat) (s : Shype)
    (h : i < ss.length) : getS (setS ss i s) i = s := by
  unfold getS setS
  rw [List.getD_eq_getElem?_getD, List.getElem?_set_eq_of_lt s h]; rfl

theorem getS_set_ne (ss : List Shype) (i j : Nat) (s : Shype)
    (h : i ≠ j) : getS (setS ss i s) j = getS ss j := by
  unfold getS setS
  rw [List.getD_eq_getElem?_getD, List.getElem?_set_ne h,
    ← List.getD_eq_getElem?_getD]

theorem getS_append_lt (ss ts : List Shype) (i : Nat) (h : i < ss.length) :
    getS (ss ++ ts) i = getS ss i := by
  unfold getS
  rw [List.getD_eq_getElem?_getD, List.getElem?_append_left h,
    ← List.getD_eq_getElem?_getD]

theorem getS_append_len (ss : List Shype) (x : Shype) :
    getS (ss ++ [x]) ss.length = x := by
  unfold getS
  rw [List.getD_eq_getElem?_getD]
  simp

theorem getS_oob (ss : List Shype) (i : Nat) (h : ss.length ≤ i) :
    getS ss i = defaultShype := by
  unfold getS
  rw [List.getD_eq_getElem?_getD, List.getElem?_eq_none h]; rfl

theorem getObject_set_self (h : Heap) (o : Nat) (ob : Object)
    (ho : o < h.objects.length) : getObject (setObject h o ob) o = ob := by
  unfold getObject setObject
  rw [List.getD_eq_getElem?_getD]
  simp only [List.getElem?_set_eq_of_lt ob ho]; rfl

theorem getObject_set_ne (h : Heap) (o o' : Nat) (ob : Object)
    (hne : o ≠ o') : getObject (setObject h o ob) o' = getObject h o' := by
  unfold getObject setObject
  rw [List.getD_eq_getElem?_getD, List.getElem?_set_ne hne,
    ← List.getD_eq_getElem?_getD]

theorem getObject_append_lt (h : Heap) (obs : List Object) (o : Nat)
    (ho : o < h.objects.length) :
    getObject { h with objects := h.objects ++ obs } o = getObject h o := by
  unfold getObject
  rw [List.getD_eq_getElem?_getD, List.getElem?_append_left ho,
    ← List.getD_eq_getElem?_getD]

theorem getObject_shypes (h : Heap) (ss : List Shype) (o : Nat) :
    getObject { h with shypes := ss } o = getObject h o := rfl

theorem length_setObject (h : Heap) (o : Nat) (ob : Object) :
    (setObject h o ob).objects.length = h.objects.length :=
  List.length_set h.objects o ob

theorem shypes_setObject (h : Heap) (o : Nat) (ob : Object) :
    (setObject h o ob).shypes = h.shypes := rfl

end Protobj

namespace Protobj

/-! ### Characterisation of allocating-and-linking a fresh child -/

theorem linkNew_eq (ss : List Shype) (p : Nat) (v : ShypeVariant)
    (hp : p < ss.length) :
    linkNew ss p v = some (ss.length,
      setS (setS (ss ++ [⟨none, none, none, v⟩]) ss.length
          ⟨some p, none, (getS ss p).first_child, v⟩) p
        { getS ss p with first_child := some ss.length }) := by
  have hpn : p ≠ ss.length := Nat.ne_of_lt hp
  simp only [linkNew, alloc_shype, add_child]
  rw [getS_append_len]
  simp only [Option.isSome_none, Bool.false_eq_true, if_false, Option.map_some']
  rw [getS_append_lt ss _ p hp]
  rw [getS_set_ne _ _ _ _ (Ne.symm hpn), getS_append_lt ss _ p hp]

theorem linkNew_isSome (ss : List Shype) (p : Nat) (v : ShypeVariant)
    (hp : p < ss.length) : (linkNew ss p v).isSome := by
  rw [linkNew_eq ss p v hp]; rfl

section LinkNewFacts

variable {ss : List Shype} {p : Nat} {v : ShypeVariant} {c : Nat}
  {ss' : List Shype}

theorem linkNew_c (hp : p < ss.length)
    (hl : linkNew ss p v = some (c, ss')) : c = ss.length := by
  rw [linkNew_eq ss p v hp] at hl
  simp only [Option.some.injEq, Prod.mk.injEq] at hl
  exact hl.1.symm

theorem linkNew_ss' (hp : p < ss.length)
    (hl : linkNew ss p v = some (c, ss')) :
    ss' = setS (setS (ss ++ [⟨none, none, none, v⟩]) ss.length
        ⟨some p, none, (getS ss p).first_child, v⟩) p
      { getS ss p with first_child := some ss.length } := by
  rw [linkNew_eq ss p v hp] at hl
  simp only [Option.some.injEq, Prod.mk.injEq] at hl
  exact hl.2.symm

theorem linkNew_length (hp : p < ss.length)
    (hl : linkNew ss p v = some (c, ss')) :
    ss'.length = ss.length + 1 := by
  rw [linkNew_ss' hp hl, length_setS, length_setS, List.length_append]
  rfl

theorem linkNew_getS_old (hp : p < ss.length)
    (hl : linkNew ss p v = some (c, ss'))
    (k : Nat) (hk : k < ss.length) (hkp : k ≠ p) :
    getS ss' k = getS ss k := by
  rw [linkNew_ss' hp hl]
  rw [getS_set_ne _ _ _ _ (Ne.symm hkp),
    getS_set_ne _ _ _ _ (Nat.ne_of_gt hk), getS_append_lt ss _ k hk]

theorem linkNew_getS_p (hp : p < ss.length)
    (hl : linkNew ss p v = some (c, ss')) :
    getS ss' p = { getS ss p with first_child := some ss.length } := by
  rw [linkNew_ss' hp hl]
  rw [getS_set_self]
  rw [length_setS, List.length_append]
  exact Nat.lt_succ_of_lt hp

theorem linkNew_getS_new (hp : p < ss.length)
    (hl : linkNew ss p v = some (c, ss')) :
    getS ss' ss.length = ⟨some p, none, (getS ss p).first_child, v⟩ := by
  rw [linkNew_ss' hp hl]
  rw [getS_set_ne _ _ _ _ (Nat.ne_of_lt hp), getS_set_self]
  rw [List.length_append]
  exact Nat.lt_succ_self _

theorem linkNew_getS_oob (hp : p < ss.length)
    (hl : linkNew ss p v = some (c, ss'))
    (k : Nat) (hk : ss.length + 1 ≤ k) : getS ss' k = defaultShype := by
  apply getS_oob
  rw [linkNew_length hp hl]
  exact hk

end LinkNewFacts

end Protobj

namespace Protobj

section LinkNewLinks

variable {ss : List Shype} {p : Nat} {v : ShypeVariant} {c : Nat}
  {ss' : List Shype}

theorem linkNew_parentLink (hp : p < ss.length)
    (hl : linkNew ss p v = some (c, ss')) (k : Nat) :
    parentLink ss' k = if k = ss.length then some p else parentLink ss k := by
  by_cases hk : k = ss.length
  · subst hk
    rw [if_pos rfl]
    unfold parentLink
    rw [linkNew_getS_new hp hl]
  · rw [if_neg hk]
    unfold parentLink
    rcases Nat.lt_or_ge k ss.length with hlt | hge
    · by_cases hkp : k = p
      · subst hkp; rw [linkNew_getS_p hp hl]
      · rw [linkNew_getS_old hp hl k hlt hkp]
    · have hge' : ss.length + 1 ≤ k := by omega
      rw [linkNew_getS_oob hp hl k hge', getS_oob ss k hge]

theorem linkNew_sibLink (hp : p < ss.length)
    (hl : linkNew ss p v = some (c, ss')) (k : Nat) :
    sibLink ss' k = if k = ss.length then (getS ss p).first_child
      else sibLink ss k := by
  by_cases hk : k = ss.length
  · subst hk
    rw [if_pos rfl]
    unfold sibLink
    rw [linkNew_getS_new hp hl]
  · rw [if_neg hk]
    unfold sibLink
    rcases Nat.lt_or_ge k ss.length with hlt | hge
    · by_cases hkp : k = p
      · subst hkp; rw [linkNew_getS_p hp hl]
      · rw [linkNew_getS_old hp hl k hlt hkp]
    · have hge' : ss.length + 1 ≤ k := by omega
      rw [linkNew_getS_oob hp hl k hge', getS_oob ss k hge]

theorem linkNew_variant (hp : p < ss.length)
    (hl : linkNew ss p v = some (c, ss')) (k : Nat) :
    (getS ss' k).variant = if k = ss.length then v
      else (getS ss k).variant := by
  by_cases hk : k = ss.length
  · subst hk
    rw [if_pos rfl, linkNew_getS_new hp hl]
  · rw [if_neg hk]
    rcases Nat.lt_or_ge k ss.length with hlt | hge
    · by_cases hkp : k = p
      · subst hkp; rw [linkNew_getS_p hp hl]
      · rw [linkNew_getS_old hp hl k hlt hkp]
    · have hge' : ss.length + 1 ≤ k := by omega
      rw [linkNew_getS_oob hp hl k hge', getS_oob ss k hge]

theorem linkNew_fc (hp : p < ss.length)
    (hl : linkNew ss p v = some (c, ss')) (k : Nat) :
    (getS ss' k).first_child = if k = p then some ss.length
      else if k = ss.length then none else (getS ss k).first_child := by
  by_cases hkp : k = p
  · subst hkp
    rw [if_pos rfl, linkNew_getS_p hp hl]
  · rw [if_neg hkp]
    by_cases hk : k = ss.length
    · subst hk
      rw [if_pos rfl, linkNew_getS_new hp hl]
    · rw [if_neg hk]
      rcases Nat.lt_or_ge k ss.length with hlt | hge
      · rw [linkNew_getS_old hp hl k hlt hkp]
      · have hge' : ss.length + 1 ≤ k := by omega
        rw [linkNew_getS_oob hp hl k hge', getS_oob ss k hge]

theorem linkNew_parent_decr (hp : p < ss.length)
    (hl : linkNew ss p v = some (c, ss'))
    (hd : DecrLink (parentLink ss)) : DecrLink (parentLink ss') := by
  intro i j hij
  rw [linkNew_parentLink hp hl i] at hij
  by_cases hi : i = ss.length
  · rw [if_pos hi] at hij
    cases hij
    omega
  · rw [if_neg hi] at hij
    exact hd i j hij

theorem linkNew_sib_decr (hp : p < ss.length)
    (hl : linkNew ss p v = some (c, ss'))
    (hd : DecrLink (sibLink ss)) (hfc : FcLt ss) :
    DecrLink (sibLink ss') := by
  intro i j hij
  rw [linkNew_sibLink hp hl i] at hij
  by_cases hi : i = ss.length
  · rw [if_pos hi] at hij
    have := hfc p j hij
    omega
  · rw [if_neg hi] at hij
    exact hd i j hij

theorem linkNew_fc_lt (hp : p < ss.length)
    (hl : linkNew ss p v = some (c, ss')) (hfc : FcLt ss) : FcLt ss' := by
  intro i j hij
  rw [linkNew_fc hp hl i] at hij
  rw [linkNew_length hp hl]
  by_cases hip : i = p
  · rw [if_pos hip] at hij
    cases hij
    omega
  · rw [if_neg hip] at hij
    by_cases hi : i = ss.length
    · rw [if_pos hi] at hij; cases hij
    · rw [if_neg hi] at hij
      have := hfc i j hij
      omega

theorem linkNew_root_path_old (hp : p < ss.length)
    (hl : linkNew ss p v = some (c, ss'))
    (hd : DecrLink (parentLink ss)) (k : Nat) (hk : k < ss.length) :
    root_path ss' k = root_path ss k := by
  unfold root_path
  apply chainF_congr _ _ hd
  intro m hm
  rw [linkNew_parentLink hp hl m, if_neg (by omega)]

theorem linkNew_root_path_new (hp : p < ss.length)
    (hl : linkNew ss p v = some (c, ss'))
    (hd : DecrLink (parentLink ss)) :
    root_path ss' ss.length = ss.length :: root_path ss p := by
  have hd' : DecrLink (parentLink ss') := linkNew_parent_decr hp hl hd
  unfold root_path
  rw [chainF_cons, linkNew_parentLink hp hl ss.length, if_pos rfl]
  rw [chainF_fuel_eq _ hd' p ss.length (p + 1) hp (Nat.lt_succ_self p)]
  congr 1
  apply chainF_congr _ _ hd
  intro m hm
  rw [linkNew_parentLink hp hl m, if_neg (by omega)]

theorem linkNew_children_old (hp : p < ss.length)
    (hl : linkNew ss p v = some (c, ss'))
    (hsd : DecrLink (sibLink ss)) (hfc : FcLt ss)
    (k : Nat) (hk : k < ss.length) (hkp : k ≠ p) :
    children ss' k = children ss k := by
  unfold children
  rw [linkNew_fc hp hl k, if_neg hkp, if_neg (by omega)]
  cases hfck : (getS ss k).first_child with
  | none => rfl
  | some j =>
    have hj : j < ss.length := hfc k j hfck
    apply chainF_congr _ _ hsd
    intro m hm
    have hmj : m ≤ j := hm
    rw [linkNew_sibLink hp hl m, if_neg (by omega)]

theorem linkNew_children_p (hp : p < ss.length)
    (hl : linkNew ss p v = some (c, ss'))
    (hsd : DecrLink (sibLink ss)) (hfc : FcLt ss) :
    children ss' p = ss.length :: children ss p := by
  have hsd' : DecrLink (sibLink ss') := linkNew_sib_decr hp hl hsd hfc
  have hmain : children ss' p =
      chainF (sibLink ss') (ss.length + 1) (some ss.length) := by
    unfold children
    rw [linkNew_fc hp hl p, if_pos rfl]
  rw [hmain, chainF_cons, linkNew_sibLink hp hl ss.length, if_pos rfl]
  unfold children
  cases hfck : (getS ss p).first_child with
  | none => rw [chainF_none]
  | some j =>
    have hj : j < ss.length := hfc p j hfck
    rw [chainF_fuel_eq _ hsd' j ss.length (j + 1) hj (Nat.lt_succ_self j)]
    congr 1
    show chainF (sibLink ss') (j + 1) (some j) = chainF (sibLink ss) (j + 1) (some j)
    apply chainF_congr _ _ hsd
    intro m hm
    rw [linkNew_sibLink hp hl m, if_neg (by omega)]

theorem linkNew_children_new (hp : p < ss.length)
    (hl : linkNew ss p v = some (c, ss')) :
    children ss' ss.length = [] := by
  unfold children
  rw [linkNew_fc hp hl ss.length, if_neg (by omega), if_pos rfl]

end LinkNewLinks

end Protobj


namespace Protobj

/-! ### Scanner lemmas -/

theorem findSome?_congr {α β : Type} (f g : α → Option β) (l : List α)
    (h : ∀ a ∈ l, f a = g a) : l.findSome? f = l.findSome? g := by
  induction l with
  | nil => rfl
  | cons a l ih =>
    rw [List.findSome?_cons, List.findSome?_cons,
      h a (List.mem_cons_self a l), ih fun b hb => h b (List.mem_cons_of_mem a hb)]

theorem lookup_addprop_nil (ss : List Shype) (name : Nat) :
    lookup_addprop ss [] name = none := rfl

theorem lookup_addprop_cons_ap (ss : List Shype) (a : Nat) (l : List Nat)
    (name n s : Nat)
    (hv : (getS ss a).variant = ShypeVariant.AddProperty n s) :
    lookup_addprop ss (a :: l) name =
      if n = name then some (a, s) else lookup_addprop ss l name := by
  unfold lookup_addprop
  rw [List.findSome?_cons, hv]
  by_cases hn : n = name
  · simp [hn]
  · simp [hn]

theorem lookup_addprop_cons_skip (ss : List Shype) (a : Nat) (l : List Nat)
    (name : Nat) (hv : NotAp (getS ss a).variant) :
    lookup_addprop ss (a :: l) name = lookup_addprop ss l name := by
  unfold lookup_addprop
  rw [List.findSome?_cons]
  cases hveq : (getS ss a).variant with
  | AddProperty n s => exact absurd hveq (hv n s)
  | Root => rfl
  | SetPrototype p => rfl
  | BecomePrototype t => rfl

theorem firstSetProtoOn_nil (ss : List Shype) :
    firstSetProtoOn ss [] = none := rfl

theorem firstSetProtoOn_cons_sp (ss : List Shype) (a : Nat) (l : List Nat)
    (p : Nat) (hv : (getS ss a).variant = ShypeVariant.SetPrototype p) :
    firstSetProtoOn ss (a :: l) = some (a, p) := by
  unfold firstSetProtoOn
  rw [List.findSome?_cons, hv]

theorem firstSetProtoOn_cons_skip (ss : List Shype) (a : Nat) (l : List Nat)
    (hv : NotSp (getS ss a).variant) :
    firstSetProtoOn ss (a :: l) = firstSetProtoOn ss l := by
  unfold firstSetProtoOn
  rw [List.findSome?_cons]
  cases hveq : (getS ss a).variant with
  | SetPrototype p => exact absurd hveq (hv p)
  | Root => rfl
  | AddProperty n s => rfl
  | BecomePrototype t => rfl

theorem firstBecomeOn_nil (ss : List Shype) :
    firstBecomeOn ss [] = none := rfl

theorem firstBecomeOn_cons_bp (ss : List Shype) (a : Nat) (l : List Nat)
    (t : Nat) (hv : (getS ss a).variant = ShypeVariant.BecomePrototype t) :
    firstBecomeOn ss (a :: l) = some (a, t) := by
  unfold firstBecomeOn
  rw [List.findSome?_cons, hv]

theorem firstBecomeOn_cons_skip (ss : List Shype) (a : Nat) (l : List Nat)
    (hv : NotBp (getS ss a).variant) :
    firstBecomeOn ss (a :: l) = firstBecomeOn ss l := by
  unfold firstBecomeOn
  rw [List.findSome?_cons]
  cases hveq : (getS ss a).variant with
  | BecomePrototype t => exact absurd hveq (hv t)
  | Root => rfl
  | AddProperty n s => rfl
  | SetPrototype p => rfl

theorem addpropsOf_nil (ss : List Shype) : addpropsOf ss [] = [] := rfl

theorem addpropsOf_cons_ap (ss : List Shype) (a : Nat) (l : List Nat)
    (n s : Nat) (hv : (getS ss a).variant = ShypeVariant.AddProperty n s) :
    addpropsOf ss (a :: l) = (n, s) :: addpropsOf ss l := by
  unfold addpropsOf
  rw [List.filterMap_cons, hv]

theorem addpropsOf_cons_skip (ss : List Shype) (a : Nat) (l : List Nat)
    (hv : NotAp (getS ss a).variant) :
    addpropsOf ss (a :: l) = addpropsOf ss l := by
  unfold addpropsOf
  rw [List.filterMap_cons]
  cases hveq : (getS ss a).variant with
  | AddProperty n s => exact absurd hveq (hv n s)
  | Root => rfl
  | SetPrototype p => rfl
  | BecomePrototype t => rfl

theorem lookup_addprop_congr (ss ss' : List Shype) (l : List Nat) (name : Nat)
    (h : ∀ a ∈ l, (getS ss' a).variant = (getS ss a).variant) :
    lookup_addprop ss' l name = lookup_addprop ss l name := by
  unfold lookup_addprop
  exact findSome?_congr _ _ l fun a ha => by rw [h a ha]

theorem firstSetProtoOn_congr (ss ss' : List Shype) (l : List Nat)
    (h : ∀ a ∈ l, (getS ss' a).variant = (getS ss a).variant) :
    firstSetProtoOn ss' l = firstSetProtoOn ss l := by
  unfold firstSetProtoOn
  exact findSome?_congr _ _ l fun a ha => by rw [h a ha]

theorem firstBecomeOn_congr (ss ss' : List Shype) (l : List Nat)
    (h : ∀ a ∈ l, (getS ss' a).variant = (getS ss a).variant) :
    firstBecomeOn ss' l = firstBecomeOn ss l := by
  unfold firstBecomeOn
  exact findSome?_congr _ _ l fun a ha => by rw [h a ha]

theorem addpropsOf_congr (ss ss' : List Shype) (l : List Nat)
    (h : ∀ a ∈ l, (getS ss' a).variant = (getS ss a).variant) :
    addpropsOf ss' l = addpropsOf ss l := by
  unfold addpropsOf
  apply List.filterMap_congr
  intro a ha
  rw [h a ha]

theorem own_names_eq_addprops (ss : List Shype) (l : List Nat) :
    (l.filterMap fun a =>
      match (getS ss a).variant with
      | ShypeVariant.AddProperty n _ => some (Value.ImmString n)
      | _ => none) = (addpropsOf ss l).map fun p => Value.ImmString p.1 := by
  unfold addpropsOf
  rw [List.map_filterMap]
  apply List.filterMap_congr
  intro a ha
  cases (getS ss a).variant <;> rfl

theorem own_property_names_eq (ss : List Shype) (i : Nat) :
    own_property_names ss i =
      (addpropsLR ss i).map fun p => Value.ImmString p.1 :=
  own_names_eq_addprops ss (root_path ss i)

end Protobj

namespace Protobj

theorem notAp_root : NotAp ShypeVariant.Root := fun _ _ h => by cases h

theorem notAp_sp (p : Nat) : NotAp (ShypeVariant.SetPrototype p) :=
  fun _ _ h => by cases h

theorem notAp_bp (t : Nat) : NotAp (ShypeVariant.BecomePrototype t) :=
  fun _ _ h => by cases h

theorem notSp_root : NotSp ShypeVariant.Root := fun _ h => by cases h

theorem notSp_ap (n s : Nat) : NotSp (ShypeVariant.AddProperty n s) :=
  fun _ h => by cases h

theorem notSp_bp (t : Nat) : NotSp (ShypeVariant.BecomePrototype t) :=
  fun _ h => by cases h

theorem notBp_root : NotBp ShypeVariant.Root := fun _ h => by cases h

theorem notBp_ap (n s : Nat) : NotBp (ShypeVariant.AddProperty n s) :=
  fun _ h => by cases h

theorem notBp_sp (p : Nat) : NotBp (ShypeVariant.SetPrototype p) :=
  fun _ h => by cases h

theorem lookup_addprop_some_mem (ss : List Shype) (name : Nat) :
    ∀ (l : List Nat) (sh slot : Nat),
    lookup_addprop ss l name = some (sh, slot) →
    sh ∈ l ∧ (getS ss sh).variant = ShypeVariant.AddProperty name slot := by
  intro l
  induction l with
  | nil =>
    intro sh slot h
    exact absurd h (by rw [lookup_addprop_nil]; exact Option.noConfusion)
  | cons a l ih =>
    intro sh slot h
    cases hv : (getS ss a).variant with
    | AddProperty n s =>
      rw [lookup_addprop_cons_ap ss a l name n s hv] at h
      by_cases hn : n = name
      · rw [if_pos hn] at h
        simp only [Option.some.injEq, Prod.mk.injEq] at h
        obtain ⟨rfl, rfl⟩ := h
        exact ⟨List.mem_cons_self _ _, by rw [hv, hn]⟩
      · rw [if_neg hn] at h
        obtain ⟨hm, hvv⟩ := ih sh slot h
        exact ⟨List.mem_cons_of_mem a hm, hvv⟩
    | Root =>
      rw [lookup_addprop_cons_skip ss a l name (by rw [hv]; exact notAp_root)] at h
      obtain ⟨hm, hvv⟩ := ih sh slot h
      exact ⟨List.mem_cons_of_mem a hm, hvv⟩
    | SetPrototype p =>
      rw [lookup_addprop_cons_skip ss a l name (by rw [hv]; exact notAp_sp p)] at h
      obtain ⟨hm, hvv⟩ := ih sh slot h
      exact ⟨List.mem_cons_of_mem a hm, hvv⟩
    | BecomePrototype t =>
      rw [lookup_addprop_cons_skip ss a l name (by rw [hv]; exact notAp_bp t)] at h
      obtain ⟨hm, hvv⟩ := ih sh slot h
      exact ⟨List.mem_cons_of_mem a hm, hvv⟩

theorem lookup_addprop_some_pair (ss : List Shype) (l : List Nat) (name : Nat)
    (sh slot : Nat) (h : lookup_addprop ss l name = some (sh, slot)) :
    (name, slot) ∈ addpropsOf ss l := by
  obtain ⟨hm, hv⟩ := lookup_addprop_some_mem ss name l sh slot h
  unfold addpropsOf
  exact List.mem_filterMap.mpr ⟨sh, hm, by rw [hv]⟩

theorem lookup_addprop_eq_none_iff (ss : List Shype) (name : Nat) :
    ∀ l : List Nat, lookup_addprop ss l name = none ↔
      name ∉ (addpropsOf ss l).map Prod.fst := by
  intro l
  induction l with
  | nil => simp [lookup_addprop_nil, addpropsOf_nil]
  | cons a l ih =>
    cases hv : (getS ss a).variant with
    | AddProperty n s =>
      rw [lookup_addprop_cons_ap ss a l name n s hv, addpropsOf_cons_ap ss a l n s hv]
      by_cases hn : n = name
      · subst hn
        simp
      · rw [if_neg hn, List.map_cons]
        simp only [List.mem_cons]
        rw [ih]
        constructor
        · intro hni hmem
          rcases hmem with h1 | h2
          · exact hn h1.symm
          · exact hni h2
        · intro hni hm
          exact hni (Or.inr hm)
    | Root =>
      rw [lookup_addprop_cons_skip ss a l name (by rw [hv]; exact notAp_root),
        addpropsOf_cons_skip ss a l (by rw [hv]; exact notAp_root)]
      exact ih
    | SetPrototype p =>
      rw [lookup_addprop_cons_skip ss a l name (by rw [hv]; exact notAp_sp p),
        addpropsOf_cons_skip ss a l (by rw [hv]; exact notAp_sp p)]
      exact ih
    | BecomePrototype t =>
      rw [lookup_addprop_cons_skip ss a l name (by rw [hv]; exact notAp_bp t),
        addpropsOf_cons_skip ss a l (by rw [hv]; exact notAp_bp t)]
      exact ih

theorem firstSetProtoOn_some_mem (ss : List Shype) :
    ∀ (l : List Nat) (a p : Nat), firstSetProtoOn ss l = some (a, p) →
    a ∈ l ∧ (getS ss a).variant = ShypeVariant.SetPrototype p := by
  intro l
  induction l with
  | nil =>
    intro a p h
    exact absurd h (by rw [firstSetProtoOn_nil]; exact Option.noConfusion)
  | cons b l ih =>
    intro a p h
    cases hv : (getS ss b).variant with
    | SetPrototype q =>
      rw [firstSetProtoOn_cons_sp ss b l q hv] at h
      simp only [Option.some.injEq, Prod.mk.injEq] at h
      obtain ⟨rfl, rfl⟩ := h
      exact ⟨List.mem_cons_self _ _, hv⟩
    | Root =>
      rw [firstSetProtoOn_cons_skip ss b l (by rw [hv]; exact notSp_root)] at h
      obtain ⟨hm, hvv⟩ := ih a p h
      exact ⟨List.mem_cons_of_mem b hm, hvv⟩
    | AddProperty n s =>
      rw [firstSetProtoOn_cons_skip ss b l (by rw [hv]; exact notSp_ap n s)] at h
      obtain ⟨hm, hvv⟩ := ih a p h
      exact ⟨List.mem_cons_of_mem b hm, hvv⟩
    | BecomePrototype t =>
      rw [firstSetProtoOn_cons_skip ss b l (by rw [hv]; exact notSp_bp t)] at h
      obtain ⟨hm, hvv⟩ := ih a p h
      exact ⟨List.mem_cons_of_mem b hm, hvv⟩

theorem firstBecomeOn_some_mem (ss : List Shype) :
    ∀ (l : List Nat) (a t : Nat), firstBecomeOn ss l = some (a, t) →
    a ∈ l ∧ (getS ss a).variant = ShypeVariant.BecomePrototype t := by
  intro l
  induction l with
  | nil =>
    intro a t h
    exact absurd h (by rw [firstBecomeOn_nil]; exact Option.noConfusion)
  | cons b l ih =>
    intro a t h
    cases hv : (getS ss b).variant with
    | BecomePrototype u =>
      rw [firstBecomeOn_cons_bp ss b l u hv] at h
      simp only [Option.some.injEq, Prod.mk.injEq] at h
      obtain ⟨rfl, rfl⟩ := h
      exact ⟨List.mem_cons_self _ _, hv⟩
    | Root =>
      rw [firstBecomeOn_cons_skip ss b l (by rw [hv]; exact notBp_root)] at h
      obtain ⟨hm, hvv⟩ := ih a t h
      exact ⟨List.mem_cons_of_mem b hm, hvv⟩
    | AddProperty n s =>
      rw [firstBecomeOn_cons_skip ss b l (by rw [hv]; exact notBp_ap n s)] at h
      obtain ⟨hm, hvv⟩ := ih a t h
      exact ⟨List.mem_cons_of_mem b hm, hvv⟩
    | SetPrototype p =>
      rw [firstBecomeOn_cons_skip ss b l (by rw [hv]; exact notBp_sp p)] at h
      obtain ⟨hm, hvv⟩ := ih a t h
      exact ⟨List.mem_cons_of_mem b hm, hvv⟩

end Protobj

namespace Protobj

/-! ### Root-path and children unfoldings, well-formedness consequences -/

theorem root_path_cons (ss : List Shype) (i : Nat) :
    root_path ss i = i :: chainF (parentLink ss) i (parentLink ss i) := rfl

theorem root_path_root (ss : List Shype) (i : Nat)
    (h : parentLink ss i = none) : root_path ss i = [i] := by
  rw [root_path_cons, h, chainF_none]

theorem root_path_step (ss : List Shype) (i p : Nat)
    (hd : DecrLink (parentLink ss)) (h : parentLink ss i = some p) :
    root_path ss i = i :: root_path ss p := by
  have hp : p < i := hd i p h
  rw [root_path_cons, h]
  unfold root_path
  rw [chainF_fuel_eq _ hd p i (p + 1) hp (Nat.lt_succ_self p)]

theorem root_path_mem_le (ss : List Shype) (i a : Nat)
    (hd : DecrLink (parentLink ss)) (ha : a ∈ root_path ss i) : a ≤ i :=
  chainF_mem_le _ hd (i + 1) i a ha

theorem root_path_self_mem (ss : List Shype) (i : Nat) :
    i ∈ root_path ss i := by
  rw [root_path_cons]
  exact List.mem_cons_self _ _

theorem children_none (ss : List Shype) (p : Nat)
    (h : (getS ss p).first_child = none) : children ss p = [] := by
  unfold children
  rw [h]

theorem children_some (ss : List Shype) (p j : Nat)
    (h : (getS ss p).first_child = some j) :
    children ss p = chainF (sibLink ss) (j + 1) (some j) := by
  unfold children
  rw [h]

theorem children_mem_lt (ss : List Shype) (p c : Nat)
    (hsd : DecrLink (sibLink ss)) (hfc : FcLt ss)
    (hc : c ∈ children ss p) : c < ss.length := by
  cases hfck : (getS ss p).first_child with
  | none => rw [children_none ss p hfck] at hc; cases hc
  | some j =>
    rw [children_some ss p j hfck] at hc
    have := chainF_mem_le _ hsd (j + 1) j c hc
    have := hfc p j hfck
    omega

theorem addpropsLR_root (ss : List Shype) (i : Nat)
    (h : parentLink ss i = none) (hv : NotAp (getS ss i).variant) :
    addpropsLR ss i = [] := by
  unfold addpropsLR
  rw [root_path_root ss i h, addpropsOf_cons_skip ss i [] hv, addpropsOf_nil]

theorem addpropsLR_step_ap (ss : List Shype) (i p n s : Nat)
    (hd : DecrLink (parentLink ss)) (h : parentLink ss i = some p)
    (hv : (getS ss i).variant = ShypeVariant.AddProperty n s) :
    addpropsLR ss i = (n, s) :: addpropsLR ss p := by
  unfold addpropsLR
  rw [root_path_step ss i p hd h, addpropsOf_cons_ap ss i _ n s hv]

theorem addpropsLR_step_skip (ss : List Shype) (i p : Nat)
    (hd : DecrLink (parentLink ss)) (h : parentLink ss i = some p)
    (hv : NotAp (getS ss i).variant) :
    addpropsLR ss i = addpropsLR ss p := by
  unfold addpropsLR
  rw [root_path_step ss i p hd h, addpropsOf_cons_skip ss i _ hv]

/-- Any slot recorded among a node's `AddProperty` ancestors is below the
ancestor count (from the `slots_range` invariant). -/
theorem mem_slot_lt (ss : List Shype) (i : Nat) (wf : WfS ss)
    (hi : i < ss.length) (n s : Nat) (hmem : (n, s) ∈ addpropsLR ss i) :
    s < (addpropsLR ss i).length := by
  have hrange := wf.slots_range i hi
  have hmem' : (n, s) ∈ (addpropsLR ss i).reverse := List.mem_reverse.mpr hmem
  have hs : s ∈ ((addpropsLR ss i).reverse.map Prod.snd) :=
    List.mem_map_of_mem Prod.snd hmem'
  rw [hrange] at hs
  exact List.mem_range.mp hs

/-- The head slot of a node whose `AddProperty` list extends its parent's
equals the parent's ancestor count. -/
theorem head_slot_eq (ss : List Shype) (c : Nat) (wf : WfS ss)
    (hc : c < ss.length) (n s : Nat) (A : List (Nat × Nat))
    (heq : addpropsLR ss c = (n, s) :: A) : s = A.length := by
  have hrange := wf.slots_range c hc
  rw [heq] at hrange
  rw [List.reverse_cons, List.map_append, List.length_cons, List.range_succ] at hrange
  have hlen : ((A.reverse.map Prod.snd)).length = (List.range A.length).length := by
    rw [List.length_map, List.length_reverse, List.length_range]
  obtain ⟨-, h2⟩ := List.append_inj hrange hlen
  simpa using h2

/-- The element of the reversed ancestor list at index `s` is the `(n, s)`
entry itself: ancestors record their position from the root. -/
theorem reverse_get_slot (ss : List Shype) (i : Nat) (wf : WfS ss)
    (hi : i < ss.length) (n s : Nat) (hmem : (n, s) ∈ addpropsLR ss i) :
    ((addpropsLR ss i).reverse).get? s = some (n, s) := by
  have hrange := wf.slots_range i hi
  have hmem' : (n, s) ∈ (addpropsLR ss i).reverse := List.mem_reverse.mpr hmem
  obtain ⟨k, hk⟩ := List.get?_of_mem hmem'
  have hsnd : (((addpropsLR ss i).reverse).map Prod.snd).get? k = some s := by
    rw [List.get?_map, hk]; rfl
  rw [hrange] at hsnd
  obtain ⟨hklt, -⟩ := List.get?_eq_some.mp hsnd
  have hklen : k < (addpropsLR ss i).length := by simpa using hklt
  rw [List.get?_range hklen] at hsnd
  have hks : k = s := by simpa using hsnd
  subst hks
  exact hk

end Protobj

namespace Protobj

/-! ### Well-formedness of the initial heap -/

theorem getS_h0 (i : Nat) : getS h0.shypes i = defaultShype := by
  cases i with
  | zero => rfl
  | succ k =>
    apply getS_oob
    show 1 ≤ k + 1
    omega

theorem wfS_h0 : WfS h0.shypes := by
  refine ⟨?_, ?_, ?_, ?_, ?_, ?_, ?_, ?_⟩
  · intro i j hij
    rw [parentLink, getS_h0] at hij
    cases hij
  · intro i j hij
    rw [sibLink, getS_h0] at hij
    cases hij
  · intro i j hij
    rw [getS_h0] at hij
    cases hij
  · intro p hp c hc
    rw [children_none h0.shypes p (by rw [getS_h0]; rfl)] at hc
    cases hc
  · intro i hi _
    exact Nat.lt_one_iff.mp (by simpa [h0] using hi)
  · rw [getS_h0]; rfl
  · intro i hi
    have hi1 : i = 0 := Nat.lt_one_iff.mp (by simpa [h0] using hi)
    subst hi1
    rw [addpropsLR_root h0.shypes 0 (by rw [parentLink, getS_h0]; rfl)
      (by rw [getS_h0]; exact notAp_root)]
    rfl
  · intro i hi
    have hi1 : i = 0 := Nat.lt_one_iff.mp (by simpa [h0] using hi)
    subst hi1
    rw [addpropsLR_root h0.shypes 0 (by rw [parentLink, getS_h0]; rfl)
      (by rw [getS_h0]; exact notAp_root)]
    exact List.nodup_nil

theorem wf_h0 : Wf h0 := by
  refine ⟨wfS_h0, ?_, ?_⟩
  · intro o ho
    cases ho
  · intro o ho
    cases ho

end Protobj

namespace Protobj

/-! ### Branch characterisations of `set_property` -/

theorem heap_eta (h : Heap) : ({ h with shypes := h.shypes } : Heap) = h := rfl

theorem shype_set_property_found (h : Heap) (o name sh slot : Nat)
    (hfound : lookup_root_path_addprop h.shypes (getObject h o).shype name =
      some (sh, slot)) :
    shype_set_property h (getObject h o).shype o name =
      some (sh, slot, false, h.shypes) := by
  unfold shype_set_property
  rw [if_neg (fun hcon => hcon rfl), hfound]

theorem shype_set_property_reuse (h : Heap) (o name sh slot : Nat)
    (hnone : lookup_root_path_addprop h.shypes (getObject h o).shype name = none)
    (hchild : lookup_child_addprop h.shypes (getObject h o).shype name =
      some (sh, slot))
    (hslot : slot = num_slots h o) :
    shype_set_property h (getObject h o).shype o name =
      some (sh, slot, true, h.shypes) := by
  unfold shype_set_property
  rw [if_neg (fun hcon => hcon rfl), hnone, hchild]
  show (if slot = num_slots h o then some (sh, slot, true, h.shypes) else none) =
    some (sh, slot, true, h.shypes)
  rw [if_pos hslot]

theorem shype_set_property_create (h : Heap) (o name : Nat)
    (hnone : lookup_root_path_addprop h.shypes (getObject h o).shype name = none)
    (hchild : lookup_child_addprop h.shypes (getObject h o).shype name = none)
    (hS : (getObject h o).shype < h.shypes.length) :
    shype_set_property h (getObject h o).shype o name =
      some (h.shypes.length, num_slots h o, true,
        setS (setS (h.shypes ++ [⟨none, none, none,
            ShypeVariant.AddProperty name (num_slots h o)⟩]) h.shypes.length
          ⟨some (getObject h o).shype, none,
            (getS h.shypes (getObject h o).shype).first_child,
            ShypeVariant.AddProperty name (num_slots h o)⟩)
          (getObject h o).shype
          { getS h.shypes (getObject h o).shype with
              first_child := some h.shypes.length }) := by
  unfold shype_set_property
  rw [if_neg (fun hcon => hcon rfl), hnone, hchild]
  show (linkNew h.shypes (getObject h o).shype
      (ShypeVariant.AddProperty name (num_slots h o))).map
      (fun x => (x.1, num_slots h o, true, x.2)) = _
  rw [linkNew_eq h.shypes (getObject h o).shype _ hS]
  rfl

end Protobj

namespace Protobj

theorem setObject_setObject (h : Heap) (o : Nat) (ob1 ob2 : Object) :
    setObject (setObject h o ob1) o ob2 = setObject h o ob2 := by
  unfold setObject
  simp [List.set_set]

theorem num_slots_eq (h : Heap) (o : Nat) :
    num_slots h o = (getObject h o).prop_slots.length := rfl

theorem obj_set_property_found (h : Heap) (o name : Nat) (v : Value)
    (sh slot : Nat) (wf : Wf h) (ho : o < h.objects.length)
    (hfound : lookup_root_path_addprop h.shypes (getObject h o).shype name =
      some (sh, slot)) :
    obj_set_property h o name v = some (sh,
      setObject h o { getObject h o with
        prop_slots := (getObject h o).prop_slots.set slot v }) := by
  have hS := wf.shype_lt o ho
  have hpair := lookup_addprop_some_pair h.shypes _ name sh slot hfound
  have hmem := (lookup_addprop_some_mem h.shypes name _ sh slot hfound).1
  have hslotlt : slot < (getObject h o).prop_slots.length := by
    rw [wf.count_eq o ho]
    exact mem_slot_lt h.shypes _ wf.wfs hS name slot hpair
  unfold obj_set_property
  rw [shype_set_property_found h o name sh slot hfound]
  show (if slot > num_slots h o then none
    else if has_ancestor_shype h.shypes (getObject h o).shype sh = true ∧
        slot < num_slots h o then
      some (sh, setObject h o { getObject h o with
        prop_slots := (getObject h o).prop_slots.set slot v })
    else none) = some (sh, setObject h o { getObject h o with
      prop_slots := (getObject h o).prop_slots.set slot v })
  rw [if_neg (by rw [num_slots_eq]; omega),
    if_pos ⟨List.elem_eq_true_of_mem hmem, by rw [num_slots_eq]; omega⟩]

theorem num_slots_setObject (h : Heap) (o : Nat) (ob : Object)
    (ho : o < h.objects.length) :
    num_slots (setObject h o ob) o = ob.prop_slots.length := by
  rw [num_slots_eq, getObject_set_self h o ob ho]

theorem obj_set_property_reuse (h : Heap) (o name : Nat) (v : Value)
    (sh slot : Nat) (wf : Wf h) (ho : o < h.objects.length)
    (hnone : lookup_root_path_addprop h.shypes (getObject h o).shype name = none)
    (hchild : lookup_child_addprop h.shypes (getObject h o).shype name =
      some (sh, slot)) :
    obj_set_property h o name v =
      some (sh, setObject h o ⟨sh, (getObject h o).prop_slots ++ [v]⟩) ∧
    slot = (getObject h o).prop_slots.length ∧
    sh ∈ children h.shypes (getObject h o).shype ∧
    (getS h.shypes sh).variant = ShypeVariant.AddProperty name slot ∧
    sh < h.shypes.length := by
  have hS := wf.shype_lt o ho
  obtain ⟨hmem, hvar⟩ := lookup_addprop_some_mem h.shypes name _ sh slot hchild
  have hshlt : sh < h.shypes.length :=
    children_mem_lt h.shypes _ sh wf.wfs.sib_decr wf.wfs.fc_lt hmem
  have hparent : (getS h.shypes sh).parent = some (getObject h o).shype :=
    wf.wfs.child_parent _ hS sh hmem
  have haddc : addpropsLR h.shypes sh =
      (name, slot) :: addpropsLR h.shypes (getObject h o).shype :=
    addpropsLR_step_ap h.shypes sh _ name slot wf.wfs.parent_decr hparent hvar
  have hslot : slot = (addpropsLR h.shypes (getObject h o).shype).length :=
    head_slot_eq h.shypes sh wf.wfs hshlt name slot _ haddc
  have hslot' : slot = (getObject h o).prop_slots.length := by
    rw [wf.count_eq o ho]
    exact hslot
  have hnum : slot = num_slots h o := by rw [num_slots_eq]; exact hslot'
  refine ⟨?_, hslot', hmem, hvar, hshlt⟩
  unfold obj_set_property
  rw [shype_set_property_reuse h o name sh slot hnone hchild hnum]
  show (if slot > num_slots h o then none
    else if ((getS h.shypes sh).parent = some (getObject h o).shype ∧
        slot = num_slots h o) then
      (if num_slots (setObject h o { getObject h o with
          prop_slots := (getObject h o).prop_slots ++ [v] }) o - 1 = slot then
        some (sh, setObject (setObject h o { getObject h o with
            prop_slots := (getObject h o).prop_slots ++ [v] }) o
          { getObject (setObject h o { getObject h o with
              prop_slots := (getObject h o).prop_slots ++ [v] }) o with
            shype := sh })
      else none)
    else none) = some (sh, setObject h o ⟨sh, (getObject h o).prop_slots ++ [v]⟩)
  rw [if_neg (by omega), if_pos ⟨hparent, hnum⟩]
  rw [num_slots_setObject h o _ ho]
  rw [if_pos (by simp; omega)]
  rw [getObject_set_self h o _ ho, setObject_setObject]

theorem obj_set_property_create (h : Heap) (o name : Nat) (v : Value)
    (wf : Wf h) (ho : o < h.objects.length)
    (hnone : lookup_root_path_addprop h.shypes (getObject h o).shype name = none)
    (hchild : lookup_child_addprop h.shypes (getObject h o).shype name = none) :
    ∃ ss2, linkNew h.shypes (getObject h o).shype
        (ShypeVariant.AddProperty name (num_slots h o)) =
        some (h.shypes.length, ss2) ∧
      obj_set_property h o name v = some (h.shypes.length,
        setObject { h with shypes := ss2 } o
          ⟨h.shypes.length, (getObject h o).prop_slots ++ [v]⟩) := by
  have hS := wf.shype_lt o ho
  obtain ⟨cs2, hlink0⟩ : ∃ cs2, linkNew h.shypes (getObject h o).shype
      (ShypeVariant.AddProperty name (num_slots h o)) = some cs2 :=
    Option.isSome_iff_exists.mp (linkNew_isSome _ _ _ hS)
  obtain ⟨c, ss2⟩ := cs2
  have hc : c = h.shypes.length := linkNew_c hS hlink0
  subst hc
  refine ⟨ss2, hlink0, ?_⟩
  have hparent2 : (getS ss2 h.shypes.length).parent =
      some (getObject h o).shype := by
    rw [linkNew_getS_new hS hlink0]
  have hsp : shype_set_property h (getObject h o).shype o name =
      some (h.shypes.length, num_slots h o, true, ss2) := by
    unfold shype_set_property
    rw [if_neg (fun hcon => hcon rfl), hnone, hchild]
    show (linkNew h.shypes (getObject h o).shype
        (ShypeVariant.AddProperty name (num_slots h o))).map
        (fun x => (x.1, num_slots h o, true, x.2)) = _
    rw [hlink0]
    rfl
  unfold obj_set_property
  rw [hsp]
  show (if num_slots h o > num_slots h o then none
    else if ((getS ss2 h.shypes.length).parent =
        some (getObject h o).shype ∧ num_slots h o = num_slots h o) then
      (if num_slots (setObject { h with shypes := ss2 } o
          { getObject h o with
            prop_slots := (getObject h o).prop_slots ++ [v] }) o - 1 =
          num_slots h o then
        some (h.shypes.length,
          setObject (setObject { h with shypes := ss2 } o
              { getObject h o with
                prop_slots := (getObject h o).prop_slots ++ [v] }) o
            { getObject (setObject { h with shypes := ss2 } o
                { getObject h o with
                  prop_slots := (getObject h o).prop_slots ++ [v] }) o with
              shype := h.shypes.length })
      else none)
    else none) = some (h.shypes.length,
      setObject { h with shypes := ss2 } o
        ⟨h.shypes.length, (getObject h o).prop_slots ++ [v]⟩)
  rw [if_neg (by omega), if_pos ⟨hparent2, rfl⟩]
  rw [num_slots_setObject { h with shypes := ss2 } o _ ho]
  rw [if_pos (by rw [num_slots_eq]; simp)]
  rw [getObject_set_self { h with shypes := ss2 } o _ ho, setObject_setObject]

end Protobj

namespace Protobj

/-! ### `AddProperty`-ancestor stability under linking -/

section LinkNewAddprops

variable {ss : List Shype} {p : Nat} {v : ShypeVariant} {c : Nat}
  {ss' : List Shype}

theorem linkNew_addpropsLR_old (hp : p < ss.length)
    (hl : linkNew ss p v = some (c, ss'))
    (hd : DecrLink (parentLink ss)) (k : Nat) (hk : k < ss.length) :
    addpropsLR ss' k = addpropsLR ss k := by
  unfold addpropsLR
  rw [linkNew_root_path_old hp hl hd k hk]
  apply addpropsOf_congr
  intro a ha
  have hale : a ≤ k := root_path_mem_le ss k a hd ha
  rw [linkNew_variant hp hl a, if_neg (by omega)]

theorem linkNew_addpropsLR_new (hp : p < ss.length)
    (hl : linkNew ss p v = some (c, ss'))
    (hd : DecrLink (parentLink ss)) :
    addpropsLR ss' ss.length =
      (match v with
        | ShypeVariant.AddProperty n s => [(n, s)]
        | _ => []) ++ addpropsLR ss p := by
  unfold addpropsLR
  rw [linkNew_root_path_new hp hl hd]
  have hrest : addpropsOf ss' (root_path ss p) = addpropsOf ss (root_path ss p) := by
    apply addpropsOf_congr
    intro a ha
    have hale : a ≤ p := root_path_mem_le ss p a hd ha
    rw [linkNew_variant hp hl a, if_neg (by omega)]
  have hvnew : (getS ss' ss.length).variant = v := by
    rw [linkNew_getS_new hp hl]
  cases v with
  | AddProperty n s =>
    rw [addpropsOf_cons_ap ss' _ _ n s hvnew, hrest]
    rfl
  | Root =>
    rw [addpropsOf_cons_skip ss' _ _ (by rw [hvnew]; exact notAp_root), hrest]
    rfl
  | SetPrototype q =>
    rw [addpropsOf_cons_skip ss' _ _ (by rw [hvnew]; exact notAp_sp q), hrest]
    rfl
  | BecomePrototype t =>
    rw [addpropsOf_cons_skip ss' _ _ (by rw [hvnew]; exact notAp_bp t), hrest]
    rfl

theorem wfS_linkNew (wf : WfS ss) (hp : p < ss.length)
    (hl : linkNew ss p v = some (c, ss'))
    (hnr : v ≠ ShypeVariant.Root)
    (hv : NotAp v ∨ ∃ n, v = ShypeVariant.AddProperty n
        ((addpropsLR ss p).length) ∧
        n ∉ (addpropsLR ss p).map Prod.fst) :
    WfS ss' := by
  have hd := wf.parent_decr
  have happrops_old := fun k hk => linkNew_addpropsLR_old hp hl hd k hk
  have happrops_new := linkNew_addpropsLR_new hp hl hd
  refine ⟨linkNew_parent_decr hp hl hd,
    linkNew_sib_decr hp hl wf.sib_decr wf.fc_lt,
    linkNew_fc_lt hp hl wf.fc_lt, ?_, ?_, ?_, ?_, ?_⟩
  · -- child_parent
    intro q hq cc hcc
    rw [linkNew_length hp hl] at hq
    by_cases hqp : q = p
    · rw [hqp] at hcc ⊢
      rw [linkNew_children_p hp hl wf.sib_decr wf.fc_lt] at hcc
      rcases List.mem_cons.mp hcc with rfl | hcc
      · rw [linkNew_getS_new hp hl]
      · have hcclt : cc < ss.length :=
          children_mem_lt ss p cc wf.sib_decr wf.fc_lt hcc
        have hold := wf.child_parent p hp cc hcc
        have hccp : p < cc := hd cc p hold
        rw [linkNew_getS_old hp hl cc hcclt (by omega)]
        exact hold
    · by_cases hqn : q = ss.length
      · subst hqn
        rw [linkNew_children_new hp hl] at hcc
        cases hcc
      · have hqlt : q < ss.length := by omega
        rw [linkNew_children_old hp hl wf.sib_decr wf.fc_lt q hqlt hqp] at hcc
        have hcclt : cc < ss.length :=
          children_mem_lt ss q cc wf.sib_decr wf.fc_lt hcc
        have hold := wf.child_parent q hqlt cc hcc
        have hccq : q < cc := hd cc q hold
        by_cases hccp : cc = p
        · subst hccp
          rw [linkNew_getS_p hp hl]
          exact hold
        · rw [linkNew_getS_old hp hl cc hcclt hccp]
          exact hold
  · -- root_only
    intro i hi hroot
    rw [linkNew_length hp hl] at hi
    rw [linkNew_variant hp hl i] at hroot
    by_cases hin : i = ss.length
    · rw [if_pos hin] at hroot
      exact absurd hroot.symm (Ne.symm hnr)
    · rw [if_neg hin] at hroot
      exact wf.root_only i (by omega) hroot
  · -- zero_parent
    have h0lt : (0 : Nat) < ss.length := by omega
    show (getS ss' 0).parent = none
    have := linkNew_parentLink hp hl 0
    rw [if_neg (by omega)] at this
    rw [show (getS ss' 0).parent = parentLink ss' 0 from rfl, this]
    exact wf.zero_parent
  · -- slots_range
    intro i hi
    rw [linkNew_length hp hl] at hi
    by_cases hin : i = ss.length
    · subst hin
      rw [happrops_new]
      rcases hv with hna | ⟨n, rfl, hnotin⟩
      · cases v with
        | AddProperty n s => exact absurd rfl (hna n s)
        | Root => exact absurd rfl hnr
        | SetPrototype q =>
          show ((addpropsLR ss p).reverse.map Prod.snd) = _
          exact wf.slots_range p hp
        | BecomePrototype t =>
          show ((addpropsLR ss p).reverse.map Prod.snd) = _
          exact wf.slots_range p hp
      · show ((((n, (addpropsLR ss p).length) :: addpropsLR ss p)).reverse.map
          Prod.snd) = List.range
            (((n, (addpropsLR ss p).length) :: addpropsLR ss p)).length
        rw [List.reverse_cons, List.map_append, wf.slots_range p hp,
          List.length_cons, List.range_succ]
        rfl
    · rw [happrops_old i (by omega)]
      exact wf.slots_range i (by omega)
  · -- names_nodup
    intro i hi
    rw [linkNew_length hp hl] at hi
    by_cases hin : i = ss.length
    · subst hin
      rw [happrops_new]
      rcases hv with hna | ⟨n, rfl, hnotin⟩
      · cases v with
        | AddProperty n s => exact absurd rfl (hna n s)
        | Root => exact absurd rfl hnr
        | SetPrototype q =>
          show ((addpropsLR ss p).map Prod.fst).Nodup
          exact wf.names_nodup p hp
        | BecomePrototype t =>
          show ((addpropsLR ss p).map Prod.fst).Nodup
          exact wf.names_nodup p hp
      · show ((((n, (addpropsLR ss p).length) :: addpropsLR ss p)).map
          Prod.fst).Nodup
        rw [List.map_cons]
        exact List.nodup_cons.mpr ⟨hnotin, wf.names_nodup p hp⟩
    · rw [happrops_old i (by omega)]
      exact wf.names_nodup i (by omega)

end LinkNewAddprops

end Protobj

namespace Protobj

/-! ### Heap-level well-formedness preservation -/

theorem wf_setObject (h : Heap) (o : Nat) (ob : Object) (wf : Wf h)
    (ho : o < h.objects.length) (h1 : ob.shype < h.shypes.length)
    (h2 : ob.prop_slots.length = (addpropsLR h.shypes ob.shype).length) :
    Wf (setObject h o ob) := by
  refine ⟨wf.wfs, ?_, ?_⟩
  · intro o' ho'
    rw [length_setObject] at ho'
    by_cases hoo : o = o'
    · subst hoo
      rw [getObject_set_self h o ob ho]
      exact h1
    · rw [getObject_set_ne h o o' ob hoo]
      exact wf.shype_lt o' ho'
  · intro o' ho'
    rw [length_setObject] at ho'
    by_cases hoo : o = o'
    · subst hoo
      rw [getObject_set_self h o ob ho]
      exact h2
    · rw [getObject_set_ne h o o' ob hoo]
      exact wf.count_eq o' ho'

theorem wf_linkNew_heap (h : Heap) (p : Nat) (v : ShypeVariant) (c : Nat)
    (ss' : List Shype) (wf : Wf h) (hp : p < h.shypes.length)
    (hl : linkNew h.shypes p v = some (c, ss'))
    (hwfs : WfS ss') : Wf { h with shypes := ss' } := by
  refine ⟨hwfs, ?_, ?_⟩
  · intro o' ho'
    show (getObject h o').shype < ss'.length
    have := wf.shype_lt o' ho'
    rw [linkNew_length hp hl]
    omega
  · intro o' ho'
    show (getObject h o').prop_slots.length =
      (addpropsLR ss' (getObject h o').shype).length
    rw [linkNew_addpropsLR_old hp hl wf.wfs.parent_decr _ (wf.shype_lt o' ho')]
    exact wf.count_eq o' ho'

theorem wf_obj_set_property (h : Heap) (o name : Nat) (v : Value) (sh : Nat)
    (h' : Heap) (wf : Wf h) (ho : o < h.objects.length)
    (hset : obj_set_property h o name v = some (sh, h')) : Wf h' := by
  have hS := wf.shype_lt o ho
  cases hfound : lookup_root_path_addprop h.shypes (getObject h o).shype name with
  | some pr =>
    obtain ⟨s0, sl0⟩ := pr
    have heq := obj_set_property_found h o name v s0 sl0 wf ho hfound
    rw [heq] at hset
    simp only [Option.some.injEq, Prod.mk.injEq] at hset
    obtain ⟨rfl, rfl⟩ := hset
    apply wf_setObject h o _ wf ho
    · exact hS
    · show ((getObject h o).prop_slots.set sl0 v).length = _
      rw [List.length_set]
      exact wf.count_eq o ho
  | none =>
    cases hchild : lookup_child_addprop h.shypes (getObject h o).shype name with
    | some pr =>
      obtain ⟨s0, sl0⟩ := pr
      obtain ⟨heq, hslot, hmem, hvar, hshlt⟩ :=
        obj_set_property_reuse h o name v s0 sl0 wf ho hfound hchild
      rw [heq] at hset
      simp only [Option.some.injEq, Prod.mk.injEq] at hset
      obtain ⟨rfl, rfl⟩ := hset
      have hparent : (getS h.shypes s0).parent = some (getObject h o).shype :=
        wf.wfs.child_parent _ hS s0 hmem
      have haddc : addpropsLR h.shypes s0 =
          (name, sl0) :: addpropsLR h.shypes (getObject h o).shype :=
        addpropsLR_step_ap h.shypes s0 _ name sl0 wf.wfs.parent_decr hparent hvar
      apply wf_setObject h o _ wf ho
      · exact hshlt
      · show ((getObject h o).prop_slots ++ [v]).length = _
        rw [List.length_append, haddc, List.length_cons, wf.count_eq o ho]
        rfl
    | none =>
      obtain ⟨ss2, hlink, heq⟩ :=
        obj_set_property_create h o name v wf ho hfound hchild
      rw [heq] at hset
      simp only [Option.some.injEq, Prod.mk.injEq] at hset
      obtain ⟨rfl, rfl⟩ := hset
      have hnotin : name ∉ (addpropsLR h.shypes (getObject h o).shype).map
          Prod.fst :=
        (lookup_addprop_eq_none_iff h.shypes name _).mp hfound
      have hcnt : num_slots h o =
          (addpropsLR h.shypes (getObject h o).shype).length := by
        rw [num_slots_eq]
        exact wf.count_eq o ho
      have hwfs2 : WfS ss2 := by
        apply wfS_linkNew wf.wfs hS hlink
        · intro hcon
          cases hcon
        · right
          exact ⟨name, by rw [hcnt], hnotin⟩
      have hwf2 : Wf { h with shypes := ss2 } :=
        wf_linkNew_heap h _ _ _ ss2 wf hS hlink hwfs2
      apply wf_setObject { h with shypes := ss2 } o _ hwf2 ho
      · show h.shypes.length < ss2.length
      
        rw [linkNew_length hS hlink]
        omega
      · show ((getObject h o).prop_slots ++ [v]).length =
          (addpropsLR ss2 h.shypes.length).length
        rw [linkNew_addpropsLR_new hS hlink wf.wfs.parent_decr]
        show ((getObject h o).prop_slots ++ [v]).length =
          ([(name, num_slots h o)] ++
            addpropsLR h.shypes (getObject h o).shype).length
        simp only [List.length_append, List.length_cons, List.length_nil]
        rw [wf.count_eq o ho]
        omega

end Protobj

namespace Protobj

/-! ### Branch characterisations of `become_prototype_of` -/

theorem shype_become_found (ss : List Shype) (node target a : Nat)
    (han : firstBecomeOn ss (root_path ss node) = some (a, target)) :
    shype_become_prototype_of ss node target = some (a, false, ss) := by
  unfold shype_become_prototype_of
  rw [han]
  show (if target = target then some (a, false, ss) else
    shype_become_child ss node target) = some (a, false, ss)
  rw [if_pos rfl]

theorem shype_become_to_child (ss : List Shype) (node target : Nat)
    (hmiss : ∀ a, firstBecomeOn ss (root_path ss node) ≠ some (a, target)) :
    shype_become_prototype_of ss node target =
      shype_become_child ss node target := by
  unfold shype_become_prototype_of
  cases han : firstBecomeOn ss (root_path ss node) with
  | none => rfl
  | some pr =>
    obtain ⟨a, t⟩ := pr
    have ht : t ≠ target := fun hcon => hmiss a (by rw [han, hcon])
    show (if t = target then some (a, false, ss) else
      shype_become_child ss node target) = shype_become_child ss node target
    rw [if_neg ht]

theorem shype_become_child_reuse (ss : List Shype) (node target c : Nat)
    (hch : firstBecomeOn ss (children ss node) = some (c, target)) :
    shype_become_child ss node target = some (c, true, ss) := by
  unfold shype_become_child
  rw [hch]
  show (if target = target then some (c, true, ss) else
    shype_become_create ss node target) = some (c, true, ss)
  rw [if_pos rfl]

theorem shype_become_child_to_create (ss : List Shype) (node target : Nat)
    (hmiss : ∀ c, firstBecomeOn ss (children ss node) ≠ some (c, target)) :
    shype_become_child ss node target =
      shype_become_create ss node target := by
  unfold shype_become_child
  cases hch : firstBecomeOn ss (children ss node) with
  | none => rfl
  | some pr =>
    obtain ⟨c, t⟩ := pr
    have ht : t ≠ target := fun hcon => hmiss c (by rw [hch, hcon])
    show (if t = target then some (c, true, ss) else
      shype_become_create ss node target) = shype_become_create ss node target
    rw [if_neg ht]

theorem shype_become_create_eq (ss : List Shype) (node target : Nat)
    (hn : node < ss.length) :
    ∃ ss2, linkNew ss node (ShypeVariant.BecomePrototype target) =
        some (ss.length, ss2) ∧
      shype_become_create ss node target = some (ss.length, true, ss2) := by
  obtain ⟨cs2, hlink0⟩ : ∃ cs2, linkNew ss node
      (ShypeVariant.BecomePrototype target) = some cs2 :=
    Option.isSome_iff_exists.mp (linkNew_isSome _ _ _ hn)
  obtain ⟨c, ss2⟩ := cs2
  have hc : c = ss.length := linkNew_c hn hlink0
  subst hc
  refine ⟨ss2, hlink0, ?_⟩
  unfold shype_become_create
  rw [hlink0]
  rfl

/-! ### The shype-level `set_prototype` branches (same tri-level shape) -/

theorem shype_set_prototype_found (ss : List Shype) (node proto a : Nat)
    (han : firstSetProtoOn ss (root_path ss node) = some (a, proto)) :
    shype_set_prototype ss node proto = some (a, false, ss) := by
  unfold shype_set_prototype
  rw [han]
  show (if proto = proto then some (a, false, ss) else
    shype_set_prototype_child ss node proto) = some (a, false, ss)
  rw [if_pos rfl]

theorem shype_set_prototype_to_child (ss : List Shype) (node proto : Nat)
    (hmiss : ∀ a, firstSetProtoOn ss (root_path ss node) ≠ some (a, proto)) :
    shype_set_prototype ss node proto =
      shype_set_prototype_child ss node proto := by
  unfold shype_set_prototype
  cases han : firstSetProtoOn ss (root_path ss node) with
  | none => rfl
  | some pr =>
    obtain ⟨a, p⟩ := pr
    have hp : p ≠ proto := fun hcon => hmiss a (by rw [han, hcon])
    show (if p = proto then some (a, false, ss) else
      shype_set_prototype_child ss node proto) =
      shype_set_prototype_child ss node proto
    rw [if_neg hp]

theorem shype_set_prototype_child_reuse (ss : List Shype) (node proto c : Nat)
    (hch : firstSetProtoOn ss (children ss node) = some (c, proto)) :
    shype_set_prototype_child ss node proto = some (c, true, ss) := by
  unfold shype_set_prototype_child
  rw [hch]
  show (if proto = proto then some (c, true, ss) else
    shype_set_prototype_create ss node proto) = some (c, true, ss)
  rw [if_pos rfl]

theorem shype_set_prototype_child_to_create (ss : List Shype) (node proto : Nat)
    (hmiss : ∀ c, firstSetProtoOn ss (children ss node) ≠ some (c, proto)) :
    shype_set_prototype_child ss node proto =
      shype_set_prototype_create ss node proto := by
  unfold shype_set_prototype_child
  cases hch : firstSetProtoOn ss (children ss node) with
  | none => rfl
  | some pr =>
    obtain ⟨c, p⟩ := pr
    have hp : p ≠ proto := fun hcon => hmiss c (by rw [hch, hcon])
    show (if p = proto then some (c, true, ss) else
      shype_set_prototype_create ss node proto) =
      shype_set_prototype_create ss node proto
    rw [if_neg hp]

theorem shype_set_prototype_create_eq (ss : List Shype) (node proto : Nat)
    (hn : node < ss.length) :
    ∃ ss2, linkNew ss node (ShypeVariant.SetPrototype proto) =
        some (ss.length, ss2) ∧
      shype_set_prototype_create ss node proto =
        some (ss.length, true, ss2) := by
  obtain ⟨cs2, hlink0⟩ : ∃ cs2, linkNew ss node
      (ShypeVariant.SetPrototype proto) = some cs2 :=
    Option.isSome_iff_exists.mp (linkNew_isSome _ _ _ hn)
  obtain ⟨c, ss2⟩ := cs2
  have hc : c = ss.length := linkNew_c hn hlink0
  subst hc
  refine ⟨ss2, hlink0, ?_⟩
  unfold shype_set_prototype_create
  rw [hlink0]
  rfl

end Protobj

namespace Protobj

theorem protoEvo_refl (h : Heap) (o : Nat) (wf : Wf h) : ProtoEvo h o h :=
  ⟨wf, rfl, le_refl _, fun _ _ => rfl, fun _ _ => rfl, fun _ _ => rfl,
    fun _ _ => rfl, fun _ _ _ => rfl, rfl, rfl⟩

theorem has_ancestor_of_mem (ss : List Shype) (i sh : Nat)
    (hm : sh ∈ root_path ss i) : has_ancestor_shype ss i sh = true :=
  List.elem_eq_true_of_mem hm

theorem linkNew_addpropsLR_new_skip {ss : List Shype} {p : Nat}
    {v : ShypeVariant} {c : Nat} {ss' : List Shype}
    (hp : p < ss.length) (hl : linkNew ss p v = some (c, ss'))
    (hd : DecrLink (parentLink ss)) (hv : NotAp v) :
    addpropsLR ss' ss.length = addpropsLR ss p := by
  rw [linkNew_addpropsLR_new hp hl hd]
  cases v with
  | AddProperty n s => exact absurd rfl (hv n s)
  | Root => rfl
  | SetPrototype q => rfl
  | BecomePrototype t => rfl

theorem obj_become_spec (h : Heap) (o target : Nat) (wf : Wf h)
    (ho : o < h.objects.length) :
    ∃ sh h', obj_become_prototype_of h o target = some (sh, h') ∧
      ProtoEvo h o h' ∧
      firstBecomeOn h'.shypes (root_path h'.shypes (getObject h' o).shype) =
        some (sh, target) ∧
      (∀ k, k < h.shypes.length →
        children h'.shypes k = children h.shypes k ∨
        ∃ b t, h.shypes.length ≤ b ∧
          (getS h'.shypes b).variant = ShypeVariant.BecomePrototype t ∧
          children h'.shypes k = b :: children h.shypes k) := by
  have hS := wf.shype_lt o ho
  by_cases hanc : ∃ a, firstBecomeOn h.shypes
      (root_path h.shypes (getObject h o).shype) = some (a, target)
  · -- the nearest BecomePrototype ancestor matches: no mutation at all
    obtain ⟨a, han⟩ := hanc
    have hsb := shype_become_found h.shypes _ target a han
    have hmem := (firstBecomeOn_some_mem h.shypes _ a target han).1
    refine ⟨a, h, ?_, protoEvo_refl h o wf, han, fun k hk => Or.inl rfl⟩
    unfold obj_become_prototype_of
    rw [hsb]
    show (if has_ancestor_shype h.shypes (getObject h o).shype a = true then
      some (a, ({ h with shypes := h.shypes } : Heap)) else none) = some (a, h)
    rw [if_pos (has_ancestor_of_mem h.shypes _ a hmem)]
  · have hmiss : ∀ a, firstBecomeOn h.shypes
        (root_path h.shypes (getObject h o).shype) ≠ some (a, target) :=
      fun a hcon => hanc ⟨a, hcon⟩
    by_cases hchild : ∃ c, firstBecomeOn h.shypes
        (children h.shypes (getObject h o).shype) = some (c, target)
    · -- reuse the first BecomePrototype child
      obtain ⟨c, hch⟩ := hchild
      have hsb : shype_become_prototype_of h.shypes (getObject h o).shype
          target = some (c, true, h.shypes) := by
        rw [shype_become_to_child h.shypes _ target hmiss]
        exact shype_become_child_reuse h.shypes _ target c hch
      obtain ⟨hmemc, hvarc⟩ := firstBecomeOn_some_mem h.shypes _ c target hch
      have hclt : c < h.shypes.length :=
        children_mem_lt h.shypes _ c wf.wfs.sib_decr wf.wfs.fc_lt hmemc
      have hparc : (getS h.shypes c).parent = some (getObject h o).shype :=
        wf.wfs.child_parent _ hS c hmemc
      have haddc : addpropsLR h.shypes c =
          addpropsLR h.shypes (getObject h o).shype :=
        addpropsLR_step_skip h.shypes c _ wf.wfs.parent_decr hparc
          (by rw [hvarc]; exact notAp_bp target)
      have hrpc : root_path h.shypes c =
          c :: root_path h.shypes (getObject h o).shype :=
        root_path_step h.shypes c _ wf.wfs.parent_decr hparc
      refine ⟨c, setObject h o { getObject h o with shype := c },
        ?_, ?_, ?_, fun k hk => Or.inl rfl⟩
      · unfold obj_become_prototype_of
        rw [hsb]
        show (if (getS h.shypes c).parent = some (getObject h o).shype then
          some (c, setObject ({ h with shypes := h.shypes } : Heap) o
            { getObject h o with shype := c }) else none) = _
        rw [if_pos hparc]
      · refine ⟨?_, length_setObject h o _, le_refl _,
          fun _ _ => rfl, fun _ _ => rfl, fun _ _ => rfl, ?_, ?_, ?_, ?_⟩
        · apply wf_setObject h o _ wf ho hclt
          show (getObject h o).prop_slots.length = _
          rw [haddc]
          exact wf.count_eq o ho
        · intro o' ho'
          by_cases hoo : o = o'
          · subst hoo
            rw [getObject_set_self h o _ ho]
          · rw [getObject_set_ne h o o' _ hoo]
        · intro o' ho' hne
          rw [getObject_set_ne h o o' _ (fun hcon => hne hcon.symm)]
        · show addpropsLR h.shypes
            (getObject (setObject h o { getObject h o with shype := c }) o).shype = _
          rw [getObject_set_self h o _ ho]
          exact haddc
        · show shypeGetPrototype h.shypes
            (getObject (setObject h o { getObject h o with shype := c }) o).shype = _
          rw [getObject_set_self h o _ ho]
          unfold shypeGetPrototype
          rw [hrpc, firstSetProtoOn_cons_skip h.shypes c _
            (by rw [hvarc]; exact notSp_bp target)]
      · show firstBecomeOn h.shypes (root_path h.shypes
            (getObject (setObject h o { getObject h o with shype := c })
              o).shype) = some (c, target)
        rw [getObject_set_self h o _ ho, hrpc,
          firstBecomeOn_cons_bp h.shypes c _ target hvarc]
    · -- create and link a fresh BecomePrototype child
      have hmissc : ∀ c, firstBecomeOn h.shypes
          (children h.shypes (getObject h o).shype) ≠ some (c, target) :=
        fun c hcon => hchild ⟨c, hcon⟩
      obtain ⟨ss2, hlink, hcr⟩ :=
        shype_become_create_eq h.shypes (getObject h o).shype target hS
      have hsb : shype_become_prototype_of h.shypes (getObject h o).shype
          target = some (h.shypes.length, true, ss2) := by
        rw [shype_become_to_child h.shypes _ target hmiss,
          shype_become_child_to_create h.shypes _ target hmissc]
        exact hcr
      have hparn : (getS ss2 h.shypes.length).parent =
          some (getObject h o).shype := by
        rw [linkNew_getS_new hS hlink]
      have hvarn : (getS ss2 h.shypes.length).variant =
          ShypeVariant.BecomePrototype target := by
        rw [linkNew_getS_new hS hlink]
      have haddn : addpropsLR ss2 h.shypes.length =
          addpropsLR h.shypes (getObject h o).shype :=
        linkNew_addpropsLR_new_skip hS hlink wf.wfs.parent_decr (notAp_bp target)
      have hwfs2 : WfS ss2 :=
        wfS_linkNew wf.wfs hS hlink (fun hcon => by cases hcon)
          (Or.inl (notAp_bp target))
      have hwf2 : Wf { h with shypes := ss2 } :=
        wf_linkNew_heap h _ _ _ ss2 wf hS hlink hwfs2
      refine ⟨h.shypes.length,
        setObject { h with shypes := ss2 } o
          { getObject h o with shype := h.shypes.length }, ?_, ?_, ?_, ?_⟩
      · unfold obj_become_prototype_of
        rw [hsb]
        show (if (getS ss2 h.shypes.length).parent =
            some (getObject h o).shype then
          some (h.shypes.length, setObject ({ h with shypes := ss2 } : Heap) o
            { getObject h o with shype := h.shypes.length }) else none) = _
        rw [if_pos hparn]
      · refine ⟨?_, ?_, ?_, ?_, ?_, ?_, ?_, ?_, ?_, ?_⟩
        · apply wf_setObject { h with shypes := ss2 } o _ hwf2 ho
          · show h.shypes.length < ss2.length
            rw [linkNew_length hS hlink]
            omega
          · show (getObject h o).prop_slots.length =
              (addpropsLR ss2 h.shypes.length).length
            rw [haddn]
            exact wf.count_eq o ho
        · show (setObject { h with shypes := ss2 } o _).objects.length = _
          rw [length_setObject]
        · show h.shypes.length ≤ ss2.length
          rw [linkNew_length hS hlink]
          omega
        · intro k hk
          show (getS ss2 k).variant = _
          rw [linkNew_variant hS hlink k, if_neg (by omega)]
        · intro k hk
          show root_path ss2 k = _
          exact linkNew_root_path_old hS hlink wf.wfs.parent_decr k hk
        · intro k hk
          show addpropsLR ss2 k = _
          exact linkNew_addpropsLR_old hS hlink wf.wfs.parent_decr k hk
        · intro o' ho'
          by_cases hoo : o = o'
          · subst hoo
            rw [getObject_set_self { h with shypes := ss2 } o _ ho]
          · rw [getObject_set_ne { h with shypes := ss2 } o o' _ hoo]
            rfl
        · intro o' ho' hne
          rw [getObject_set_ne { h with shypes := ss2 } o o' _
            (fun hcon => hne hcon.symm)]
          rfl
        · show addpropsLR ss2 (getObject (setObject { h with shypes := ss2 } o
            { getObject h o with shype := h.shypes.length }) o).shype = _
          rw [getObject_set_self { h with shypes := ss2 } o _ ho]
          exact haddn
        · show shypeGetPrototype ss2
            (getObject (setObject { h with shypes := ss2 } o
              { getObject h o with shype := h.shypes.length }) o).shype = _
          rw [getObject_set_self { h with shypes := ss2 } o _ ho]
          unfold shypeGetPrototype
          rw [linkNew_root_path_new hS hlink wf.wfs.parent_decr,
            firstSetProtoOn_cons_skip ss2 h.shypes.length _
              (by rw [hvarn]; exact notSp_bp target),
            firstSetProtoOn_congr h.shypes ss2 _
              (fun a ha => by
                have hale : a ≤ (getObject h o).shype :=
                  root_path_mem_le h.shypes _ a wf.wfs.parent_decr ha
                have halt : (getObject h o).shype < h.shypes.length := hS
                rw [linkNew_variant hS hlink a, if_neg (by omega)])]
      · show firstBecomeOn ss2 (root_path ss2
            (getObject (setObject { h with shypes := ss2 } o
              { getObject h o with shype := h.shypes.length }) o).shype) =
            some (h.shypes.length, target)
        rw [getObject_set_self { h with shypes := ss2 } o _ ho,
          linkNew_root_path_new hS hlink wf.wfs.parent_decr,
          firstBecomeOn_cons_bp ss2 h.shypes.length _ target hvarn]
      · intro k hk
        by_cases hkp : k = (getObject h o).shype
        · subst hkp
          right
          refine ⟨h.shypes.length, target, le_refl _, hvarn, ?_⟩
          show children ss2 (getObject h o).shype = _
          exact linkNew_children_p hS hlink wf.wfs.sib_decr wf.wfs.fc_lt
        · left
          show children ss2 k = children h.shypes k
          exact linkNew_children_old hS hlink wf.wfs.sib_decr wf.wfs.fc_lt
            k hk hkp

end Protobj

namespace Protobj

theorem linkNew_getproto_old {ss : List Shype} {p : Nat} {v : ShypeVariant}
    {c : Nat} {ss' : List Shype} (hp : p < ss.length)
    (hl : linkNew ss p v = some (c, ss')) (hd : DecrLink (parentLink ss))
    (k : Nat) (hk : k < ss.length) :
    shypeGetPrototype ss' k = shypeGetPrototype ss k := by
  unfold shypeGetPrototype
  rw [linkNew_root_path_old hp hl hd k hk,
    firstSetProtoOn_congr ss ss' _ (fun a ha => by
      have hale : a ≤ k := root_path_mem_le ss k a hd ha
      rw [linkNew_variant hp hl a, if_neg (by omega)])]

theorem obj_set_prototype_spec (h : Heap) (o proto : Nat) (wf : Wf h)
    (ho : o < h.objects.length) (hproto : proto < h.objects.length) :
    ∃ sp h', obj_set_prototype h o proto = some (sp, h') ∧ Wf h' ∧
      h'.objects.length = h.objects.length ∧
      (∀ o', o' < h.objects.length →
        (getObject h' o').prop_slots = (getObject h o').prop_slots) ∧
      (∀ o', o' < h.objects.length →
        addpropsLR h'.shypes (getObject h' o').shype =
          addpropsLR h.shypes (getObject h o').shype) ∧
      (o ≠ proto → shypeGetPrototype h'.shypes (getObject h' proto).shype =
        shypeGetPrototype h.shypes (getObject h proto).shype) := by
  have hS := wf.shype_lt o ho
  by_cases hanc : ∃ a, firstSetProtoOn h.shypes
      (root_path h.shypes (getObject h o).shype) = some (a, proto)
  · -- nearest SetPrototype ancestor already records proto: changed = false
    obtain ⟨a, han⟩ := hanc
    have hsp := shype_set_prototype_found h.shypes _ proto a han
    obtain ⟨shb, h2, hbec, hevo, -, -⟩ :=
      obj_become_spec h proto (getObject h o).shype wf hproto
    refine ⟨a, h2, ?_, hevo.wf', hevo.obj_len, hevo.slots_all, ?_, ?_⟩
    · unfold obj_set_prototype
      rw [hsp]
      simp [hbec]
    · intro o' ho'
      by_cases hop : o' = proto
      · subst hop
        exact hevo.addprops_o
      · rw [hevo.others o' ho' hop]
        exact hevo.addprops_all _ (wf.shype_lt o' ho')
    · intro hne
      exact hevo.getproto_o
  · have hmiss : ∀ a, firstSetProtoOn h.shypes
        (root_path h.shypes (getObject h o).shype) ≠ some (a, proto) :=
      fun a hcon => hanc ⟨a, hcon⟩
    by_cases hchild : ∃ c, firstSetProtoOn h.shypes
        (children h.shypes (getObject h o).shype) = some (c, proto)
    · -- reuse the first SetPrototype child
      obtain ⟨sp, hch⟩ := hchild
      have hsp : shype_set_prototype h.shypes (getObject h o).shype proto =
          some (sp, true, h.shypes) := by
        rw [shype_set_prototype_to_child h.shypes _ proto hmiss]
        exact shype_set_prototype_child_reuse h.shypes _ proto sp hch
      obtain ⟨hmemc, hvarc⟩ := firstSetProtoOn_some_mem h.shypes _ sp proto hch
      have hsplt : sp < h.shypes.length :=
        children_mem_lt h.shypes _ sp wf.wfs.sib_decr wf.wfs.fc_lt hmemc
      have hpars : (getS h.shypes sp).parent = some (getObject h o).shype :=
        wf.wfs.child_parent _ hS sp hmemc
      have hadds : addpropsLR h.shypes sp =
          addpropsLR h.shypes (getObject h o).shype :=
        addpropsLR_step_skip h.shypes sp _ wf.wfs.parent_decr hpars
          (by rw [hvarc]; exact notAp_sp proto)
      obtain ⟨shb, h2, hbec, hevo, -, -⟩ := obj_become_spec h proto sp wf hproto
      have ho2 : o < h2.objects.length := by
        rw [hevo.obj_len]
        exact ho
      refine ⟨sp, setObject h2 o { getObject h2 o with shype := sp },
        ?_, ?_, ?_, ?_, ?_, ?_⟩
      · unfold obj_set_prototype
        rw [hsp]
        simp only [hbec, if_pos]
      · apply wf_setObject h2 o _ hevo.wf' ho2
        · show sp < h2.shypes.length
          have := hevo.slen_le
          omega
        · show (getObject h2 o).prop_slots.length =
            (addpropsLR h2.shypes sp).length
          rw [hevo.slots_all o ho, hevo.addprops_all sp hsplt, hadds]
          exact wf.count_eq o ho
      · rw [length_setObject]
        exact hevo.obj_len
      · intro o' ho'
        by_cases hoo : o = o'
        · subst hoo
          rw [getObject_set_self h2 o _ ho2]
          exact hevo.slots_all o ho
        · rw [getObject_set_ne h2 o o' _ hoo]
          exact hevo.slots_all o' ho'
      · intro o' ho'
        by_cases hoo : o = o'
        · subst hoo
          rw [getObject_set_self h2 o _ ho2]
          show addpropsLR h2.shypes sp = _
          rw [hevo.addprops_all sp hsplt, hadds]
        · rw [getObject_set_ne h2 o o' _ hoo]
          by_cases hop : o' = proto
          · subst hop
            exact hevo.addprops_o
          · rw [hevo.others o' ho' hop]
            exact hevo.addprops_all _ (wf.shype_lt o' ho')
      · intro hne
        rw [getObject_set_ne h2 o proto _ hne]
        exact hevo.getproto_o
    · -- create and link a fresh SetPrototype child
      have hmissc : ∀ c, firstSetProtoOn h.shypes
          (children h.shypes (getObject h o).shype) ≠ some (c, proto) :=
        fun c hcon => hchild ⟨c, hcon⟩
      obtain ⟨ss2, hlink, hcr⟩ :=
        shype_set_prototype_create_eq h.shypes (getObject h o).shype proto hS
      have hsp : shype_set_prototype h.shypes (getObject h o).shype proto =
          some (h.shypes.length, true, ss2) := by
        rw [shype_set_prototype_to_child h.shypes _ proto hmiss,
          shype_set_prototype_child_to_create h.shypes _ proto hmissc]
        exact hcr
      have hadds : addpropsLR ss2 h.shypes.length =
          addpropsLR h.shypes (getObject h o).shype :=
        linkNew_addpropsLR_new_skip hS hlink wf.wfs.parent_decr (notAp_sp proto)
      have hwfs2 : WfS ss2 :=
        wfS_linkNew wf.wfs hS hlink (fun hcon => by cases hcon)
          (Or.inl (notAp_sp proto))
      have hwf1 : Wf { h with shypes := ss2 } :=
        wf_linkNew_heap h _ _ _ ss2 wf hS hlink hwfs2
      obtain ⟨shb, h2, hbec, hevo, -, -⟩ :=
        obj_become_spec { h with shypes := ss2 } proto h.shypes.length hwf1
          hproto
      have hlen1 : ({ h with shypes := ss2 } : Heap).shypes.length =
          h.shypes.length + 1 := linkNew_length hS hlink
      have ho2 : o < h2.objects.length := by
        rw [hevo.obj_len]
        exact ho
      refine ⟨h.shypes.length,
        setObject h2 o { getObject h2 o with shype := h.shypes.length },
        ?_, ?_, ?_, ?_, ?_, ?_⟩
      · unfold obj_set_prototype
        rw [hsp]
        simp only [hbec, if_pos]
      · apply wf_setObject h2 o _ hevo.wf' ho2
        · show h.shypes.length < h2.shypes.length
          have h1 := hevo.slen_le
          rw [hlen1] at h1
          omega
        · show (getObject h2 o).prop_slots.length =
            (addpropsLR h2.shypes h.shypes.length).length
          rw [hevo.slots_all o ho, hevo.addprops_all h.shypes.length
            (by rw [hlen1]; omega)]
          show (getObject h o).prop_slots.length = (addpropsLR ss2 _).length
          rw [hadds]
          exact wf.count_eq o ho
      · rw [length_setObject, hevo.obj_len]
      · intro o' ho'
        by_cases hoo : o = o'
        · subst hoo
          rw [getObject_set_self h2 o _ ho2]
          exact hevo.slots_all o ho
        · rw [getObject_set_ne h2 o o' _ hoo]
          exact hevo.slots_all o' ho'
      · intro o' ho'
        by_cases hoo : o = o'
        · subst hoo
          rw [getObject_set_self h2 o _ ho2]
          show addpropsLR h2.shypes h.shypes.length = _
          rw [hevo.addprops_all h.shypes.length (by rw [hlen1]; omega)]
          show addpropsLR ss2 h.shypes.length = _
          exact hadds
        · rw [getObject_set_ne h2 o o' _ hoo]
          by_cases hop : o' = proto
          · rw [hop]
            show addpropsLR h2.shypes (getObject h2 proto).shype =
              addpropsLR h.shypes (getObject h proto).shype
            rw [hevo.addprops_o]
            show addpropsLR ss2 (getObject h proto).shype = _
            exact linkNew_addpropsLR_old hS hlink wf.wfs.parent_decr _
              (wf.shype_lt proto hproto)
          · rw [hevo.others o' ho' hop]
            show addpropsLR h2.shypes (getObject h o').shype = _
            rw [hevo.addprops_all _ (by
              rw [hlen1]
              have := wf.shype_lt o' ho'
              omega)]
            show addpropsLR ss2 (getObject h o').shype = _
            exact linkNew_addpropsLR_old hS hlink wf.wfs.parent_decr _
              (wf.shype_lt o' ho')
      · intro hne
        rw [getObject_set_ne h2 o proto _ hne]
        show shypeGetPrototype h2.shypes (getObject h2 proto).shype = _
        rw [hevo.getproto_o]
        show shypeGetPrototype ss2 (getObject h proto).shype = _
        exact linkNew_getproto_old hS hlink wf.wfs.parent_decr _
          (wf.shype_lt proto hproto)

end Protobj

namespace Protobj

/-! ### Allocation and the public-operation step -/

theorem getObject_append_len (h : Heap) (ob : Object) :
    getObject { h with objects := h.objects ++ [ob] } h.objects.length = ob := by
  unfold getObject
  rw [List.getD_eq_getElem?_getD]
  simp

theorem objAllocate_eq (h : Heap) (s : Nat)
    (hroot : (getS h.shypes s).variant = ShypeVariant.Root) :
    objAllocate h s = some (h.objects.length,
      { h with objects := h.objects ++ [⟨s, []⟩] }) := by
  unfold objAllocate
  rw [if_pos hroot]

theorem wf_objAllocate (h : Heap) (s : Nat) (wf : Wf h)
    (hs : s < h.shypes.length)
    (hroot : (getS h.shypes s).variant = ShypeVariant.Root) :
    Wf { h with objects := h.objects ++ [⟨s, []⟩] } := by
  have hs0 : s = 0 := wf.wfs.root_only s hs hroot
  subst hs0
  refine ⟨wf.wfs, ?_, ?_⟩
  · intro o' ho'
    show (getObject { h with objects := h.objects ++ [⟨0, []⟩] } o').shype <
      h.shypes.length
    rw [List.length_append, List.length_cons, List.length_nil] at ho'
    by_cases hlt : o' < h.objects.length
    · rw [show getObject { h with objects := h.objects ++ [⟨0, []⟩] } o' =
        getObject h o' from getObject_append_lt h _ o' hlt]
      exact wf.shype_lt o' hlt
    · have : o' = h.objects.length := by omega
      subst this
      rw [getObject_append_len h ⟨0, []⟩]
      exact hs
  · intro o' ho'
    show (getObject { h with objects := h.objects ++ [⟨0, []⟩] } o').prop_slots.length =
      (addpropsLR h.shypes
        (getObject { h with objects := h.objects ++ [⟨0, []⟩] } o').shype).length
    rw [List.length_append, List.length_cons, List.length_nil] at ho'
    by_cases hlt : o' < h.objects.length
    · rw [show getObject { h with objects := h.objects ++ [⟨0, []⟩] } o' =
        getObject h o' from getObject_append_lt h _ o' hlt]
      exact wf.count_eq o' hlt
    · have : o' = h.objects.length := by omega
      subst this
      rw [getObject_append_len h ⟨0, []⟩]
      rw [addpropsLR_root h.shypes 0 wf.wfs.zero_parent
        (by rw [hroot]; exact notAp_root)]
      rfl

theorem wf_applyOp (h h' : Heap) (op : Op) (wf : Wf h)
    (hstep : applyOp h op = some h') : Wf h' := by
  cases op with
  | alloc s =>
    simp only [applyOp] at hstep
    by_cases hs : s < h.shypes.length
    · rw [if_pos hs] at hstep
      by_cases hroot : (getS h.shypes s).variant = ShypeVariant.Root
      · rw [objAllocate_eq h s hroot] at hstep
        simp only [Option.map_some', Option.some.injEq] at hstep
        rw [← hstep]
        exact wf_objAllocate h s wf hs hroot
      · unfold objAllocate at hstep
        rw [if_neg hroot] at hstep
        cases hstep
    · rw [if_neg hs] at hstep
      cases hstep
  | setProp o name v =>
    simp only [applyOp] at hstep
    by_cases ho : o < h.objects.length
    · rw [if_pos ho] at hstep
      cases hres : obj_set_property h o name v with
      | none => rw [hres] at hstep; cases hstep
      | some pr =>
        obtain ⟨sh, hh⟩ := pr
        rw [hres] at hstep
        simp only [Option.map_some', Option.some.injEq] at hstep
        rw [← hstep]
        exact wf_obj_set_property h o name v sh hh wf ho hres
    · rw [if_neg ho] at hstep
      cases hstep
  | setProto o proto =>
    simp only [applyOp] at hstep
    by_cases hop : o < h.objects.length ∧ proto < h.objects.length
    · rw [if_pos hop] at hstep
      obtain ⟨sp, hh, hres, hwf', _⟩ :=
        obj_set_prototype_spec h o proto wf hop.1 hop.2
      rw [hres] at hstep
      simp only [Option.map_some', Option.some.injEq] at hstep
      rw [← hstep]
      exact hwf'
    · rw [if_neg hop] at hstep
      cases hstep
  | becomeProto o target =>
    simp only [applyOp] at hstep
    by_cases hot : o < h.objects.length ∧ target < h.shypes.length
    · rw [if_pos hot] at hstep
      obtain ⟨sh, hh, hres, hevo, -, -⟩ := obj_become_spec h o target wf hot.1
      rw [hres] at hstep
      simp only [Option.map_some', Option.some.injEq] at hstep
      rw [← hstep]
      exact hevo.wf'
    · rw [if_neg hot] at hstep
      cases hstep

theorem runOps_wf : ∀ (ops : List Op) (h h' : Heap), Wf h →
    runOps h ops = some h' → Wf h' := by
  intro ops
  induction ops with
  | nil =>
    intro h h' wf hrun
    unfold runOps at hrun
    simp only [Option.some.injEq] at hrun
    rw [← hrun]
    exact wf
  | cons op ops ih =>
    intro h h' wf hrun
    unfold runOps at hrun
    cases hstep : applyOp h op with
    | none => rw [hstep] at hrun; cases hrun
    | some h1 =>
      rw [hstep] at hrun
      exact ih h1 h' (wf_applyOp h h1 op wf hstep) hrun

/-- Every reachable heap is well-formed (the §3 structural invariants hold
after any sequence of public operations). -/
theorem reach_wf (h : Heap) (hr : Reach h) : Wf h := by
  obtain ⟨ops, hrun⟩ := hr
  exact runOps_wf ops h0 h wf_h0 hrun

end Protobj

namespace Protobj

/-! ### Generic list helpers for the property-map correspondence -/

theorem getD_append_lt {α : Type} (l t : List α) (d : α) (i : Nat)
    (h : i < l.length) : (l ++ t).getD i d = l.getD i d := by
  rw [List.getD_eq_getElem?_getD, List.getElem?_append_left h,
    ← List.getD_eq_getElem?_getD]

theorem getD_append_len {α : Type} (l : List α) (x : α) (d : α) :
    (l ++ [x]).getD l.length d = x := by
  rw [List.getD_eq_getElem?_getD]
  simp

theorem getD_set_self {α : Type} (l : List α) (i : Nat) (a d : α)
    (h : i < l.length) : (l.set i a).getD i d = a := by
  rw [List.getD_eq_getElem?_getD, List.getElem?_set_eq_of_lt a h]
  rfl

theorem getD_set_ne {α : Type} (l : List α) (i j : Nat) (a d : α)
    (h : i ≠ j) : (l.set i a).getD j d = l.getD j d := by
  rw [List.getD_eq_getElem?_getD, List.getElem?_set_ne h,
    ← List.getD_eq_getElem?_getD]

theorem nodup_keys_eq {β : Type} : ∀ (l : List (Nat × β)),
    (l.map Prod.fst).Nodup → ∀ (n : Nat) (a b : β),
    (n, a) ∈ l → (n, b) ∈ l → a = b := by
  intro l
  induction l with
  | nil =>
    intro _ n a b ha _
    cases ha
  | cons q l ih =>
    intro hnd n a b ha hb
    rw [List.map_cons, List.nodup_cons] at hnd
    rcases List.mem_cons.mp ha with rfl | ha' <;>
      rcases List.mem_cons.mp hb with h2 | hb'
    · exact congrArg Prod.snd h2.symm
    · exact absurd (List.mem_map_of_mem Prod.fst hb') hnd.1
    · rw [← h2] at hnd
      exact absurd (List.mem_map_of_mem Prod.fst ha') hnd.1
    · exact ih hnd.2 n a b ha' hb'

theorem ownAssoc_names (h : Heap) (o : Nat) :
    (ownAssoc h o).map Prod.fst =
      ((addpropsLR h.shypes (getObject h o).shype).reverse).map Prod.fst := by
  unfold ownAssoc
  rw [List.map_map]
  rfl

theorem ownAssoc_any_iff (h : Heap) (o n : Nat) :
    ((ownAssoc h o).any fun p => p.1 = n) = true ↔
      n ∈ (addpropsLR h.shypes (getObject h o).shype).map Prod.fst := by
  rw [List.any_eq_true]
  constructor
  · rintro ⟨p, hp, hpn⟩
    have : p.1 = n := by simpa using hpn
    unfold ownAssoc at hp
    obtain ⟨q, hq, hqp⟩ := List.mem_map.mp hp
    have : q.1 = n := by
      rw [← this, ← hqp]
    rw [← this]
    exact List.mem_map_of_mem Prod.fst (List.mem_reverse.mp hq)
  · intro hn
    obtain ⟨q, hq, hqn⟩ := List.mem_map.mp hn
    refine ⟨(q.1, (getObject h o).prop_slots.getD q.2 Value.Nil), ?_, by simpa using hqn⟩
    unfold ownAssoc
    exact List.mem_map.mpr ⟨q, List.mem_reverse.mpr hq, rfl⟩

end Protobj

namespace Protobj

/-! ### How `ownAssoc` evolves under `set_property` -/

theorem ownAssoc_set_found (h : Heap) (o name : Nat) (v : Value)
    (sh slot : Nat) (wf : Wf h) (ho : o < h.objects.length)
    (hfound : lookup_root_path_addprop h.shypes (getObject h o).shype name =
      some (sh, slot)) :
    ownAssoc (setObject h o { getObject h o with
      prop_slots := (getObject h o).prop_slots.set slot v }) o =
    specSet (ownAssoc h o) name v := by
  have hS := wf.shype_lt o ho
  have hpair := lookup_addprop_some_pair h.shypes _ name sh slot hfound
  have hnd := wf.wfs.names_nodup _ hS
  have hslotlt : slot < (getObject h o).prop_slots.length := by
    rw [wf.count_eq o ho]
    exact mem_slot_lt h.shypes _ wf.wfs hS name slot hpair
  have hlhs : ownAssoc (setObject h o { getObject h o with
      prop_slots := (getObject h o).prop_slots.set slot v }) o =
      (addpropsLR h.shypes (getObject h o).shype).reverse.map
        (fun p => (p.1, ((getObject h o).prop_slots.set slot v).getD p.2
          Value.Nil)) := by
    unfold ownAssoc
    rw [shypes_setObject, getObject_set_self h o _ ho]
  rw [hlhs]
  unfold specSet
  rw [if_pos ((ownAssoc_any_iff h o name).mpr
    (List.mem_map_of_mem Prod.fst hpair))]
  unfold ownAssoc
  rw [List.map_map]
  apply List.map_congr_left
  intro q hq
  have hqA := List.mem_reverse.mp hq
  show (q.1, ((getObject h o).prop_slots.set slot v).getD q.2 Value.Nil) =
    if q.1 = name then (name, v) else
      (q.1, (getObject h o).prop_slots.getD q.2 Value.Nil)
  by_cases hq1 : q.1 = name
  · rw [if_pos hq1]
    have hq2 : q.2 = slot := by
      apply nodup_keys_eq _ hnd name q.2 slot
      · rw [← hq1]
        exact hqA
      · exact hpair
    rw [hq1, hq2, getD_set_self _ slot v Value.Nil hslotlt]
  · rw [if_neg hq1]
    have hq2 : q.2 ≠ slot := by
      intro hcon
      have hga := reverse_get_slot h.shypes _ wf.wfs hS q.1 q.2 hqA
      have hgb := reverse_get_slot h.shypes _ wf.wfs hS name slot hpair
      rw [hcon] at hga
      rw [hga] at hgb
      exact hq1 (by simpa using congrArg (fun x => Option.map Prod.fst x) hgb)
    rw [getD_set_ne _ slot q.2 v Value.Nil (fun hcon => hq2 hcon.symm)]

theorem assoc_extend (A : List (Nat × Nat)) (slots : List Value)
    (name : Nat) (v : Value) (hlen : slots.length = A.length)
    (hbound : ∀ p ∈ A, p.2 < A.length) :
    (((name, slots.length) :: A)).reverse.map
        (fun p => (p.1, (slots ++ [v]).getD p.2 Value.Nil)) =
      (A.reverse.map (fun p => (p.1, slots.getD p.2 Value.Nil))) ++
        [(name, v)] := by
  rw [List.reverse_cons, List.map_append]
  congr 1
  · apply List.map_congr_left
    intro q hq
    have hqA := List.mem_reverse.mp hq
    have hqb : q.2 < slots.length := by
      rw [hlen]
      exact hbound q hqA
    rw [getD_append_lt slots [v] Value.Nil q.2 hqb]
  · show [(name, (slots ++ [v]).getD slots.length Value.Nil)] = [(name, v)]
    rw [getD_append_len slots v Value.Nil]

theorem specSet_append (l : List (Nat × Value)) (name : Nat) (v : Value)
    (hno : ¬ (l.any fun p => p.1 = name) = true) :
    specSet l name v = l ++ [(name, v)] := by
  unfold specSet
  rw [if_neg hno]

end Protobj

namespace Protobj

theorem linkNew_addpropsLR_new_ap {ss : List Shype} {p n s c : Nat}
    {ss' : List Shype} (hp : p < ss.length)
    (hl : linkNew ss p (ShypeVariant.AddProperty n s) = some (c, ss'))
    (hd : DecrLink (parentLink ss)) :
    addpropsLR ss' ss.length = (n, s) :: addpropsLR ss p := by
  rw [linkNew_addpropsLR_new hp hl hd]
  rfl

theorem ownAssoc_setObject_ne (h : Heap) (o o' : Nat) (ob : Object)
    (hne : o ≠ o') : ownAssoc (setObject h o ob) o' = ownAssoc h o' := by
  unfold ownAssoc
  rw [shypes_setObject, getObject_set_ne h o o' ob hne]

theorem corr_applyOp (h h' : Heap) (s : List (List (Nat × Value))) (op : Op)
    (wf : Wf h) (hlen : h.objects.length = s.length)
    (hcorr : ∀ o, o < h.objects.length → ownAssoc h o = s.getD o [])
    (hstep : applyOp h op = some h') :
    h'.objects.length = (specApply s op).length ∧
    ∀ o, o < h'.objects.length →
      ownAssoc h' o = (specApply s op).getD o [] := by
  cases op with
  | alloc sh0 =>
    simp only [applyOp] at hstep
    by_cases hs : sh0 < h.shypes.length
    · rw [if_pos hs] at hstep
      by_cases hroot : (getS h.shypes sh0).variant = ShypeVariant.Root
      · rw [objAllocate_eq h sh0 hroot] at hstep
        simp only [Option.map_some', Option.some.injEq] at hstep
        have hs0 : sh0 = 0 := wf.wfs.root_only sh0 hs hroot
        subst hs0
        rw [← hstep]
        constructor
        · show (h.objects ++ [(⟨0, []⟩ : Object)]).length = (s ++ [[]]).length
          rw [List.length_append, List.length_append, hlen]
          rfl
        · intro o ho
          show ownAssoc { h with objects := h.objects ++ [(⟨0, []⟩ : Object)] } o =
            (s ++ [[]]).getD o []
          have holen : o < h.objects.length + 1 := by
            have hlen2 : ({ h with objects :=
                h.objects ++ [(⟨0, []⟩ : Object)] } :
              Heap).objects.length = h.objects.length + 1 := by
              show (h.objects ++ [(⟨0, []⟩ : Object)]).length = _
              rw [List.length_append]
              rfl
            rw [hlen2] at ho
            exact ho
          by_cases hlt : o < h.objects.length
          · have heq : ownAssoc { h with objects := h.objects ++ [⟨0, []⟩] } o =
                ownAssoc h o := by
              unfold ownAssoc
              rw [getObject_append_lt h _ o hlt]
            rw [heq, hcorr o hlt, getD_append_lt s [[]] [] o (by omega)]
          · have hoeq : o = h.objects.length := by omega
            subst hoeq
            have heq : ownAssoc { h with objects := h.objects ++ [⟨0, []⟩] }
                h.objects.length = [] := by
              unfold ownAssoc
              rw [getObject_append_len h ⟨0, []⟩]
              show (addpropsLR h.shypes 0).reverse.map _ = []
              rw [addpropsLR_root h.shypes 0 wf.wfs.zero_parent
                (by rw [hroot]; exact notAp_root)]
              rfl
            rw [heq, hlen, getD_append_len s [] []]
      · unfold objAllocate at hstep
        rw [if_neg hroot] at hstep
        cases hstep
    · rw [if_neg hs] at hstep
      cases hstep
  | setProp o name v =>
    simp only [applyOp] at hstep
    by_cases ho : o < h.objects.length
    · rw [if_pos ho] at hstep
      have hS := wf.shype_lt o ho
      have hos : o < s.length := by omega
      cases hfound : lookup_root_path_addprop h.shypes
          (getObject h o).shype name with
      | some pr =>
        obtain ⟨s0, sl0⟩ := pr
        rw [obj_set_property_found h o name v s0 sl0 wf ho hfound] at hstep
        simp only [Option.map_some', Option.some.injEq] at hstep
        rw [← hstep]
        constructor
        · show (setObject h o _).objects.length = (s.set o _).length
          rw [length_setObject, List.length_set, hlen]
        · intro o' ho'
          rw [length_setObject] at ho'
          show ownAssoc (setObject h o _) o' = (s.set o _).getD o' []
          by_cases hoo : o = o'
          · subst hoo
            rw [ownAssoc_set_found h o name v s0 sl0 wf ho hfound,
              hcorr o ho, getD_set_self s o _ [] hos]
          · rw [ownAssoc_setObject_ne h o o' _ hoo,
              getD_set_ne s o o' _ [] hoo]
            exact hcorr o' ho'
      | none =>
        have hnotin : name ∉ (addpropsLR h.shypes (getObject h o).shype).map
            Prod.fst :=
          (lookup_addprop_eq_none_iff h.shypes name _).mp hfound
        cases hchild : lookup_child_addprop h.shypes
            (getObject h o).shype name with
        | some pr =>
          obtain ⟨s0, sl0⟩ := pr
          obtain ⟨heq, hslot, hmem, hvar, hshlt⟩ :=
            obj_set_property_reuse h o name v s0 sl0 wf ho hfound hchild
          rw [heq] at hstep
          simp only [Option.map_some', Option.some.injEq] at hstep
          rw [← hstep]
          have hparent : (getS h.shypes s0).parent =
              some (getObject h o).shype :=
            wf.wfs.child_parent _ hS s0 hmem
          have haddc : addpropsLR h.shypes s0 =
              (name, sl0) :: addpropsLR h.shypes (getObject h o).shype :=
            addpropsLR_step_ap h.shypes s0 _ name sl0 wf.wfs.parent_decr
              hparent hvar
          constructor
          · show (setObject h o _).objects.length = (s.set o _).length
            rw [length_setObject, List.length_set, hlen]
          · intro o' ho'
            rw [length_setObject] at ho'
            by_cases hoo : o = o'
            · subst hoo
              have hlhs : ownAssoc (setObject h o
                  ⟨s0, (getObject h o).prop_slots ++ [v]⟩) o =
                  ownAssoc h o ++ [(name, v)] := by
                unfold ownAssoc
                rw [shypes_setObject, getObject_set_self h o _ ho]
                show (addpropsLR h.shypes s0).reverse.map _ = _
                rw [haddc, hslot]
                exact assoc_extend _ _ name v (wf.count_eq o ho)
                  (fun p hp => mem_slot_lt h.shypes _ wf.wfs hS p.1 p.2 hp)
              show ownAssoc (setObject h o
                  ⟨s0, (getObject h o).prop_slots ++ [v]⟩) o =
                (s.set o (specSet (s.getD o []) name v)).getD o []
              rw [hlhs, getD_set_self s o _ [] hos,
                specSet_append _ name v (fun hcon => hnotin (by
                  rw [← hcorr o ho] at hcon
                  exact (ownAssoc_any_iff h o name).mp hcon)),
                hcorr o ho]
            · show ownAssoc (setObject h o
                  ⟨s0, (getObject h o).prop_slots ++ [v]⟩) o' =
                (s.set o (specSet (s.getD o []) name v)).getD o' []
              rw [ownAssoc_setObject_ne h o o' _ hoo,
                getD_set_ne s o o' _ [] hoo]
              exact hcorr o' ho'
        | none =>
          obtain ⟨ss2, hlink, heq⟩ :=
            obj_set_property_create h o name v wf ho hfound hchild
          rw [heq] at hstep
          simp only [Option.map_some', Option.some.injEq] at hstep
          rw [← hstep]
          constructor
          · show (setObject _ o _).objects.length = (s.set o _).length
            rw [length_setObject]
            show (h.objects).length = _
            rw [List.length_set, hlen]
          · intro o' ho'
            rw [length_setObject] at ho'
            by_cases hoo : o = o'
            · subst hoo
              have hlhs : ownAssoc (setObject { h with shypes := ss2 } o
                  ⟨h.shypes.length, (getObject h o).prop_slots ++ [v]⟩) o =
                  ownAssoc h o ++ [(name, v)] := by
                unfold ownAssoc
                rw [shypes_setObject,
                  getObject_set_self { h with shypes := ss2 } o _ ho]
                show (addpropsLR ss2 h.shypes.length).reverse.map _ = _
                rw [linkNew_addpropsLR_new_ap hS hlink wf.wfs.parent_decr,
                  num_slots_eq]
                exact assoc_extend _ _ name v (wf.count_eq o ho)
                  (fun p hp => mem_slot_lt h.shypes _ wf.wfs hS p.1 p.2 hp)
              show ownAssoc (setObject { h with shypes := ss2 } o
                  ⟨h.shypes.length, (getObject h o).prop_slots ++ [v]⟩) o =
                (s.set o (specSet (s.getD o []) name v)).getD o []
              rw [hlhs, getD_set_self s o _ [] hos,
                specSet_append _ name v (fun hcon => hnotin (by
                  rw [← hcorr o ho] at hcon
                  exact (ownAssoc_any_iff h o name).mp hcon)),
                hcorr o ho]
            · show ownAssoc (setObject { h with shypes := ss2 } o
                  ⟨h.shypes.length, (getObject h o).prop_slots ++ [v]⟩) o' =
                (s.set o (specSet (s.getD o []) name v)).getD o' []
              rw [ownAssoc_setObject_ne { h with shypes := ss2 } o o' _ hoo]
              have : ownAssoc { h with shypes := ss2 } o' = ownAssoc h o' := by
                unfold ownAssoc
                show (addpropsLR ss2 _).reverse.map _ = _
                rw [show getObject { h with shypes := ss2 } o' = getObject h o'
                  from rfl]
                rw [linkNew_addpropsLR_old hS hlink wf.wfs.parent_decr _
                  (wf.shype_lt o' ho')]
              rw [this, getD_set_ne s o o' _ [] hoo]
              exact hcorr o' ho'
    · rw [if_neg ho] at hstep
      cases hstep
  | setProto o proto =>
    simp only [applyOp] at hstep
    by_cases hop : o < h.objects.length ∧ proto < h.objects.length
    · rw [if_pos hop] at hstep
      obtain ⟨sp, hh, hres, hwf', hlen', hslots, haddprops, -⟩ :=
        obj_set_prototype_spec h o proto wf hop.1 hop.2
      rw [hres] at hstep
      simp only [Option.map_some', Option.some.injEq] at hstep
      rw [← hstep]
      refine ⟨by rw [hlen']; exact hlen, ?_⟩
      intro o' ho'
      rw [hlen'] at ho'
      have : ownAssoc hh o' = ownAssoc h o' := by
        unfold ownAssoc
        rw [haddprops o' ho', hslots o' ho']
      rw [this]
      exact hcorr o' ho'
    · rw [if_neg hop] at hstep
      cases hstep
  | becomeProto o target =>
    simp only [applyOp] at hstep
    by_cases hot : o < h.objects.length ∧ target < h.shypes.length
    · rw [if_pos hot] at hstep
      obtain ⟨sh, hh, hres, hevo, -, -⟩ := obj_become_spec h o target wf hot.1
      rw [hres] at hstep
      simp only [Option.map_some', Option.some.injEq] at hstep
      rw [← hstep]
      refine ⟨by rw [hevo.obj_len]; exact hlen, ?_⟩
      intro o' ho'
      rw [hevo.obj_len] at ho'
      have : ownAssoc hh o' = ownAssoc h o' := by
        by_cases hoo : o' = o
        · subst hoo
          unfold ownAssoc
          rw [hevo.addprops_o, hevo.slots_all o' ho']
        · unfold ownAssoc
          rw [hevo.others o' ho' hoo]
          rw [hevo.addprops_all _ (wf.shype_lt o' ho')]
      rw [this]
      exact hcorr o' ho'
    · rw [if_neg hot] at hstep
      cases hstep

end Protobj

namespace Protobj

theorem runOps_corr : ∀ (ops : List Op) (h : Heap)
    (s : List (List (Nat × Value))) (h' : Heap),
    Wf h → h.objects.length = s.length →
    (∀ o, o < h.objects.length → ownAssoc h o = s.getD o []) →
    runOps h ops = some h' →
    h'.objects.length = (ops.foldl specApply s).length ∧
    ∀ o, o < h'.objects.length →
      ownAssoc h' o = (ops.foldl specApply s).getD o [] := by
  intro ops
  induction ops with
  | nil =>
    intro h s h' wf hl hc hrun
    unfold runOps at hrun
    simp only [Option.some.injEq] at hrun
    rw [← hrun]
    exact ⟨hl, hc⟩
  | cons op ops ih =>
    intro h s h' wf hl hc hrun
    unfold runOps at hrun
    cases hstep : applyOp h op with
    | none =>
      rw [hstep] at hrun
      cases hrun
    | some h1 =>
      rw [hstep] at hrun
      obtain ⟨hl1, hc1⟩ := corr_applyOp h h1 s op wf hl hc hstep
      exact ih h1 (specApply s op) h' (wf_applyOp h h1 op wf hstep) hl1 hc1 hrun

theorem reach_corr (ops : List Op) (h : Heap)
    (hrun : runOps h0 ops = some h) :
    h.objects.length = (specRun ops).length ∧
    ∀ o, o < h.objects.length → ownAssoc h o = (specRun ops).getD o [] :=
  runOps_corr ops h0 [] h wf_h0 rfl
    (fun o ho => absurd ho (Nat.not_lt_zero o)) hrun

end Protobj

namespace Protobj

/-! ### Claim C5: `get_property` resolves along the proto chain -/

theorem obj_get_property_zero (h : Heap) (o name : Nat) :
    obj_get_property h 0 o name = none := rfl

theorem obj_get_property_succ (h : Heap) (fuel o name : Nat) :
    obj_get_property h (fuel + 1) o name =
      match get_own_property h.shypes (getObject h o).shype name with
      | some (_, slot) => (getObject h o).prop_slots.get? slot
      | none =>
        match objGetPrototype h o with
        | some p => obj_get_property h fuel p name
        | none => some (Value.Bool false) := by
  rw [obj_get_property]

theorem protoChain_cons (h : Heap) (fuel o : Nat) :
    protoChainF h (fuel + 1) (some o) =
      o :: protoChainF h fuel (objGetPrototype h o) := rfl

/-- C5: `get_property(object, name)` returns the value of `name` from the
first object along the proto chain (the object itself, then its prototype,
and so on) that has `name` as an own property, and returns the
`Bool(false)` absent sentinel — not an error — when no object on the chain
has it.  `fuel` bounds the traversal; the hypothesis says the chain is
fully explored within `fuel` (it ends at an object without a prototype),
which rules out only the cyclic chains of C9. -/
theorem C5_get_property_first_owner (h : Heap) (fuel : Nat) (o name : Nat)
    (hterm : protoChainF h (fuel + 1) (some o) =
      protoChainF h fuel (some o)) :
    obj_get_property h fuel o name =
      match firstOwnerOn h (protoChainF h fuel (some o)) name with
      | some owner => ownValue h owner name
      | none => some (Value.Bool false) := by
  revert hterm
  induction fuel generalizing o with
  | zero =>
    intro hterm
    exact absurd hterm (by simp [protoChainF, chainF])
  | succ fuel ih =>
    intro hterm
    rw [obj_get_property_succ]
    cases hown : get_own_property h.shypes (getObject h o).shype name with
    | some pr =>
      obtain ⟨shx, slot⟩ := pr
      have hhas : objHasOwnProperty h o name = true := by
        unfold objHasOwnProperty has_own_property
        rw [show lookup_root_path_addprop h.shypes (getObject h o).shype name =
          some (shx, slot) from hown]
        rfl
      have hfo : firstOwnerOn h (protoChainF h (fuel + 1) (some o)) name =
          some o := by
        rw [protoChain_cons]
        exact List.find?_cons_of_pos _ hhas
      rw [hfo]
      show (getObject h o).prop_slots.get? slot = ownValue h o name
      unfold ownValue
      rw [show get_own_property h.shypes (getObject h o).shype name =
        some (shx, slot) from hown]
      rfl
    | none =>
      have hhas : objHasOwnProperty h o name = false := by
        unfold objHasOwnProperty has_own_property
        rw [show lookup_root_path_addprop h.shypes (getObject h o).shype name =
          none from hown]
        rfl
      have hnpos : ¬ (objHasOwnProperty h o name = true) := by
        rw [hhas]
        intro hcon
        cases hcon
      cases hproto : objGetPrototype h o with
      | some p =>
        have hterm' : protoChainF h (fuel + 1) (some p) =
            protoChainF h fuel (some p) := by
          rw [protoChain_cons, protoChain_cons, hproto] at hterm
          injection hterm
        have hrec := ih p hterm'
        have hfo : firstOwnerOn h (protoChainF h (fuel + 1) (some o)) name =
            firstOwnerOn h (protoChainF h fuel (some p)) name := by
          rw [protoChain_cons, hproto]
          exact List.find?_cons_of_neg _ hnpos
        show obj_get_property h fuel p name =
          match firstOwnerOn h (protoChainF h (fuel + 1) (some o)) name with
          | some owner => ownValue h owner name
          | none => some (Value.Bool false)
        rw [hrec, hfo]
      | none =>
        have hfo : firstOwnerOn h (protoChainF h (fuel + 1) (some o)) name =
            none := by
          rw [protoChain_cons, hproto]
          show ((o :: protoChainF h fuel none).find? _) = none
          rw [show protoChainF h fuel none = [] from chainF_none _ fuel]
          have h1 : (List.find? (fun x => objHasOwnProperty h x name) [o]) =
              List.find? (fun x => objHasOwnProperty h x name) [] :=
            List.find?_cons_of_neg [] hnpos
          rw [h1]
          rfl
        show some (Value.Bool false) =
          match firstOwnerOn h (protoChainF h (fuel + 1) (some o)) name with
          | some owner => ownValue h owner name
          | none => some (Value.Bool false)
        rw [hfo]

/-- Witness for C5: in `hC5`, object 1 has no own property 5 but its
prototype (object 0) stores `Num 7` there, and `get_property` returns it;
a name owned by nothing on the chain yields `Bool false`. -/
theorem C5_witness :
    runOps h0 opsC5 = some hC5 ∧
    objHasOwnProperty hC5 1 5 = false ∧
    objGetPrototype hC5 1 = some 0 ∧
    obj_get_property hC5 10 1 5 = some (Value.Num 7) ∧
    obj_get_property hC5 10 1 99 = some (Value.Bool false) := by
  refine ⟨by decide, by decide, by decide, ?_, ?_⟩
  · rw [C5_get_property_first_owner hC5 10 1 5 (by decide)]
    decide
  · rw [C5_get_property_first_owner hC5 10 1 99 (by decide)]
    decide

end Protobj

namespace Protobj

/-! ### Claim C9: the proto chain can be cyclic -/

/-- Counterexample to C9: `hC9` is reachable by public operations, yet
objects 0 and 1 are each other's prototype — the chain obtained by
repeatedly applying `get_prototype` is cyclic, not finite, and a
`get_property` traversal for an absent name never completes (here it
exhausts 100 fuel without finishing). -/
theorem C9_counterexample :
    runOps h0 opsC9 = some hC9 ∧
    objGetPrototype hC9 0 = some 1 ∧
    objGetPrototype hC9 1 = some 0 ∧
    obj_get_property hC9 100 0 7 = none := by decide

/-- C9 (amended): `set_prototype` accepts arbitrary objects and
`get_property` performs no cycle detection, so the proto chain of a
reachable object can be cyclic; on a two-cycle whose members lack the
looked-up name, `get_property` never terminates — the fueled traversal
returns `none` (no result) for every fuel. -/
theorem C9_cyclic_get_property_diverges (h : Heap) (a b n fuel : Nat)
    (hA : objGetPrototype h a = some b) (hB : objGetPrototype h b = some a)
    (hna : objHasOwnProperty h a n = false)
    (hnb : objHasOwnProperty h b n = false) :
    obj_get_property h fuel a n = none := by
  have hga : get_own_property h.shypes (getObject h a).shype n = none := by
    unfold objHasOwnProperty has_own_property at hna
    cases hcase : lookup_root_path_addprop h.shypes (getObject h a).shype n with
    | none => exact hcase
    | some pr =>
      rw [hcase] at hna
      cases hna
  have hgb : get_own_property h.shypes (getObject h b).shype n = none := by
    unfold objHasOwnProperty has_own_property at hnb
    cases hcase : lookup_root_path_addprop h.shypes (getObject h b).shype n with
    | none => exact hcase
    | some pr =>
      rw [hcase] at hnb
      cases hnb
  have key : ∀ f : Nat, obj_get_property h f a n = none ∧
      obj_get_property h f b n = none := by
    intro f
    induction f with
    | zero => exact ⟨rfl, rfl⟩
    | succ f ihf =>
      constructor
      · rw [obj_get_property_succ, hga]
        show (match objGetPrototype h a with
          | some p => obj_get_property h f p n
          | none => some (Value.Bool false)) = none
        rw [hA]
        show obj_get_property h f b n = none
        exact ihf.2
      · rw [obj_get_property_succ, hgb]
        show (match objGetPrototype h b with
          | some p => obj_get_property h f p n
          | none => some (Value.Bool false)) = none
        rw [hB]
        show obj_get_property h f a n = none
        exact ihf.1
  exact (key fuel).1

/-- Witness for the amended C9 at the concrete two-cycle. -/
theorem C9_witness :
    objGetPrototype hC9 0 = some 1 ∧ objGetPrototype hC9 1 = some 0 ∧
    objHasOwnProperty hC9 0 7 = false ∧ objHasOwnProperty hC9 1 7 = false ∧
    obj_get_property hC9 1000 0 7 = none :=
  ⟨by decide, by decide, by decide, by decide,
    C9_cyclic_get_property_diverges hC9 0 1 7 1000 (by decide) (by decide)
      (by decide) (by decide)⟩

end Protobj

namespace Protobj

/-! ### Claim C2: the child probe of `set_prototype` stops at the first
`SetPrototype` child -/

/-- Counterexample to C2: in the reachable heap `hC2`, root node 0 has a
`SetPrototype(object 0)` child (node 1) and no `SetPrototype` ancestor, yet
`set_prototype(node 0, object 0)` does not return that child: it returns a
freshly constructed node (index 5 = the arena length, not a child of node 0
beforehand), because the sibling list's first `SetPrototype` child is the
more recently created `SetPrototype(object 1)` node. -/
theorem C2_counterexample :
    runOps h0 opsC2 = some hC2 ∧
    (getS hC2.shypes 1).variant = ShypeVariant.SetPrototype 0 ∧
    1 ∈ children hC2.shypes 0 ∧
    firstSetProtoOn hC2.shypes (root_path hC2.shypes 0) = none ∧
    (shype_set_prototype hC2.shypes 0 0).map (fun t => (t.1, t.2.1)) =
      some (hC2.shypes.length, true) ∧
    ¬ hC2.shypes.length ∈ children hC2.shypes 0 := by decide

/-- C2 (amended): the child probe of `set_prototype` inspects only the
first `SetPrototype` child in the sibling list (the source loop breaks
there).  When the nearest-ancestor check misses and that first
`SetPrototype` child records a different prototype, a fresh node is
constructed and linked — even when a `SetPrototype(proto)` child exists
further along — leaving the node with two distinct `SetPrototype(proto)`
children. -/
theorem C2_first_setproto_child_decides (ss : List Shype)
    (node proto c0 p0 c1 res : Nat) (ch : Bool) (ss' : List Shype)
    (hsd : DecrLink (sibLink ss)) (hfc : FcLt ss)
    (hnode : node < ss.length)
    (hmiss : ∀ a, firstSetProtoOn ss (root_path ss node) ≠ some (a, proto))
    (hfirst : firstSetProtoOn ss (children ss node) = some (c0, p0))
    (hp0 : p0 ≠ proto)
    (hc1 : c1 ∈ children ss node)
    (hvar : (getS ss c1).variant = ShypeVariant.SetPrototype proto)
    (hres : shype_set_prototype ss node proto = some (res, ch, ss')) :
    res = ss.length ∧ ch = true ∧ c1 ≠ res ∧
    c1 ∈ children ss' node ∧ res ∈ children ss' node ∧
    (getS ss' c1).variant = ShypeVariant.SetPrototype proto ∧
    (getS ss' res).variant = ShypeVariant.SetPrototype proto := by
  have hc1lt : c1 < ss.length := children_mem_lt ss node c1 hsd hfc hc1
  have hmissc : ∀ c, firstSetProtoOn ss (children ss node) ≠
      some (c, proto) := by
    intro c hcon
    rw [hfirst] at hcon
    simp only [Option.some.injEq, Prod.mk.injEq] at hcon
    exact hp0 hcon.2
  obtain ⟨ss'0, hlink, hcr⟩ := shype_set_prototype_create_eq ss node proto hnode
  have hcomp : shype_set_prototype ss node proto =
      some (ss.length, true, ss'0) := by
    rw [shype_set_prototype_to_child ss node proto hmiss,
      shype_set_prototype_child_to_create ss node proto hmissc]
    exact hcr
  rw [hcomp] at hres
  simp only [Option.some.injEq, Prod.mk.injEq] at hres
  obtain ⟨hres1, hres2, hres3⟩ := hres
  subst hres1
  subst hres2
  subst hres3
  refine ⟨rfl, rfl, by omega, ?_, ?_, ?_, ?_⟩
  · rw [linkNew_children_p hnode hlink hsd hfc]
    exact List.mem_cons_of_mem _ hc1
  · rw [linkNew_children_p hnode hlink hsd hfc]
    exact List.mem_cons_self _ _
  · rw [linkNew_variant hnode hlink c1, if_neg (by omega)]
    exact hvar
  · rw [linkNew_variant hnode hlink ss.length, if_pos rfl]

/-- Witness for the amended C2 at the concrete heap `hC2`. -/
theorem C2_witness :
    C2out.1 = hC2.shypes.length ∧ C2out.2.1 = true ∧ 1 ≠ C2out.1 ∧
    1 ∈ children C2out.2.2 0 ∧ C2out.1 ∈ children C2out.2.2 0 ∧
    (getS C2out.2.2 1).variant = ShypeVariant.SetPrototype 0 ∧
    (getS C2out.2.2 C2out.1).variant = ShypeVariant.SetPrototype 0 := by
  have wf := reach_wf hC2 ⟨opsC2, by decide⟩
  exact C2_first_setproto_child_decides hC2.shypes 0 0 3 1 1 C2out.1 C2out.2.1
    C2out.2.2 wf.wfs.sib_decr wf.wfs.fc_lt (by decide)
    (fun a hcon => by
      rw [show firstSetProtoOn hC2.shypes (root_path hC2.shypes 0) = none
        from by decide] at hcon
      cases hcon)
    (by decide) (by decide) (by decide) (by decide) (by decide)

end Protobj

namespace Interned

/-! ### Claim C4: promoting a never-registered gensym -/

theorem lookupStr_append_none (l : List (String × Nat)) (c : String) (a : Nat)
    (h : lookupStr l c = none) : lookupStr (l ++ [(c, a)]) c = some a := by
  induction l with
  | nil => simp [lookupStr]
  | cons e t ih =>
      by_cases hc : e.1 = c
      · simp [lookupStr, List.find?_cons, hc] at h
      · simp only [lookupStr, List.cons_append, List.find?_cons,
          decide_eq_false hc] at h ⊢
        exact ih h

/-- Counterexample to C4: promoting a fresh gensym whose content is not yet
registered does register the content — but under a freshly made `Arc`, not
the handle's own — and `really_intern` returns `self`, so `is_interned` on
the returned handle is `false`, not `true`. -/
theorem C4_counterexample :
    starts_with (gensym rs0).1.content "#<gensym" = true ∧
    lookupStr (gensym rs0).2.strings (gensym rs0).1.content = none ∧
    (really_intern (gensym rs0).2 (gensym rs0).1).1 = (gensym rs0).1 ∧
    (really_intern (gensym rs0).2 (gensym rs0).1).2.strings =
      [((gensym rs0).1.content, 1)] ∧
    (gensym rs0).1.arc = 0 ∧
    is_interned (really_intern (gensym rs0).2 (gensym rs0).1).2
      (really_intern (gensym rs0).2 (gensym rs0).1).1 = false := by
  decide

/-- C4 (amended): `really_intern` on a gensym handle whose content has no
registered entry appends a registry entry for that content under a fresh
`Arc` identity (never the handle's own) and returns `self` unchanged;
consequently `is_interned` on the returned handle is `false` and the handle
still reports as a gensym. -/
theorem C4_promote_gensym_not_interned (st : RState) (h : IStr)
    (hg : starts_with h.content "#<gensym" = true)
    (hmiss : lookupStr st.strings h.content = none)
    (hfresh : h.arc ≠ st.next_arc) :
    (really_intern st h).1 = h ∧
    (really_intern st h).2.strings =
      st.strings ++ [(h.content, st.next_arc)] ∧
    lookupStr (really_intern st h).2.strings h.content = some st.next_arc ∧
    is_interned (really_intern st h).2 (really_intern st h).1 = false ∧
    is_gensym (really_intern st h).2 (really_intern st h).1 = true := by
  have hri : really_intern st h =
      (h, { st with strings := st.strings ++ [(h.content, st.next_arc)],
                    next_arc := st.next_arc + 1 }) := by
    rw [really_intern, if_neg (by simp [hg]), hmiss]
  rw [hri]
  have hlook : lookupStr (st.strings ++ [(h.content, st.next_arc)])
      h.content = some st.next_arc := lookupStr_append_none _ _ _ hmiss
  refine ⟨rfl, rfl, hlook, ?_, ?_⟩
  · show is_interned { st with
      strings := st.strings ++ [(h.content, st.next_arc)],
      next_arc := st.next_arc + 1 } h = false
    rw [is_interned, hlook]
    simp [Ne.symm hfresh]
  · show is_gensym { st with
      strings := st.strings ++ [(h.content, st.next_arc)],
      next_arc := st.next_arc + 1 } h = true
    rw [is_gensym, is_interned, hlook]
    simp [Ne.symm hfresh]

/-- Witness for the amended C4 at the first gensym of the empty registry. -/
theorem C4_witness :
    (really_intern (gensym rs0).2 (gensym rs0).1).1 = (gensym rs0).1 ∧
    (really_intern (gensym rs0).2 (gensym rs0).1).2.strings =
      (gensym rs0).2.strings ++
        [((gensym rs0).1.content, (gensym rs0).2.next_arc)] ∧
    lookupStr (really_intern (gensym rs0).2 (gensym rs0).1).2.strings
      (gensym rs0).1.content = some (gensym rs0).2.next_arc ∧
    is_interned (really_intern (gensym rs0).2 (gensym rs0).1).2
      (really_intern (gensym rs0).2 (gensym rs0).1).1 = false ∧
    is_gensym (really_intern (gensym rs0).2 (gensym rs0).1).2
      (really_intern (gensym rs0).2 (gensym rs0).1).1 = true :=
  C4_promote_gensym_not_interned (gensym rs0).2 (gensym rs0).1
    (by decide) (by decide) (by decide)

end Interned

namespace Protobj

/-! ### Claim C6: re-setting an existing own property -/

/-- C6: when `name` is already an own property of the object (an
`AddProperty` node for it lies on the shape's root path, recording `slot`),
`set_property` keeps the whole shype arena and the object's shape reference
unchanged, stores `v` at exactly that slot, and preserves every other slot
and every other object. -/
theorem C6_set_existing_property_frame (h : Heap) (o name : Nat) (v : Value)
    (sh0 slot sh' : Nat) (h' : Heap)
    (wf : Wf h) (ho : o < h.objects.length)
    (hfound : get_own_property h.shypes (getObject h o).shype name =
      some (sh0, slot))
    (hres : obj_set_property h o name v = some (sh', h')) :
    sh' = sh0 ∧
    h'.shypes = h.shypes ∧
    (getObject h' o).shype = (getObject h o).shype ∧
    slot < (getObject h o).prop_slots.length ∧
    (getObject h' o).prop_slots = (getObject h o).prop_slots.set slot v ∧
    (getObject h' o).prop_slots[slot]? = some v ∧
    (∀ j, j ≠ slot → (getObject h' o).prop_slots[j]? =
      (getObject h o).prop_slots[j]?) ∧
    (∀ o', o' ≠ o → getObject h' o' = getObject h o') := by
  have hfound' : lookup_root_path_addprop h.shypes (getObject h o).shype name =
      some (sh0, slot) := hfound
  have heq := obj_set_property_found h o name v sh0 slot wf ho hfound'
  rw [heq] at hres
  simp only [Option.some.injEq, Prod.mk.injEq] at hres
  obtain ⟨hsh, hh⟩ := hres
  subst hsh
  subst hh
  have hS := wf.shype_lt o ho
  have hpair := lookup_addprop_some_pair h.shypes _ name sh0 slot hfound'
  have hslotlt : slot < (getObject h o).prop_slots.length := by
    rw [wf.count_eq o ho]
    exact mem_slot_lt h.shypes _ wf.wfs hS name slot hpair
  refine ⟨rfl, rfl, ?_, hslotlt, ?_, ?_, ?_, ?_⟩
  · rw [getObject_set_self h o _ ho]
  · rw [getObject_set_self h o _ ho]
  · rw [getObject_set_self h o _ ho]
    exact List.getElem?_set_eq_of_lt v hslotlt
  · intro j hj
    rw [getObject_set_self h o _ ho]
    exact List.getElem?_set_ne (Ne.symm hj)
  · intro o' ho'
    exact getObject_set_ne h o o' _ (Ne.symm ho')

/-- Witness for C6 at the concrete heap `hC6` (object 0 already owns
property 5 at slot 0; re-setting it to `Num 2` keeps the shape). -/
theorem C6_witness :
    ((obj_set_property hC6 0 5 (Value.Num 2)).getD (0, h0)).1 = 1 ∧
    hC6'.shypes = hC6.shypes ∧
    (getObject hC6' 0).shype = (getObject hC6 0).shype ∧
    (getObject hC6' 0).prop_slots = [Value.Num 2] ∧
    (getObject hC6' 0).prop_slots[0]? = some (Value.Num 2) := by
  have wf := reach_wf hC6 ⟨opsC6, by decide⟩
  obtain ⟨h1, h2, h3, h4, h5, h6, h7, h8⟩ :=
    C6_set_existing_property_frame hC6 0 5 (Value.Num 2) 1 0
      ((obj_set_property hC6 0 5 (Value.Num 2)).getD (0, h0)).1 hC6'
      wf (by decide) (by decide) (by decide)
  exact ⟨h1, h2, h3, by rw [h5]; decide, h6⟩

end Protobj

namespace Protobj

/-! ### Claim C7: `own_property_names` order -/

/-- C7: adding a brand-new property (no `AddProperty` ancestor and no
reusable `AddProperty` child for the name) allocates the object's new shape
at the end of the arena and prepends the new name to
`own_property_names` — the list is leaf-to-root, most-recently-added
first. -/
theorem C7_own_property_names_most_recent_first (h : Heap) (o name : Nat)
    (v : Value) (sh' : Nat) (h' : Heap) (wf : Wf h)
    (ho : o < h.objects.length)
    (hnone : lookup_root_path_addprop h.shypes (getObject h o).shype name = none)
    (hchild : lookup_child_addprop h.shypes (getObject h o).shype name = none)
    (hres : obj_set_property h o name v = some (sh', h')) :
    sh' = h.shypes.length ∧
    (getObject h' o).shype = h.shypes.length ∧
    objOwnPropertyNames h' o =
      Value.ImmString name :: objOwnPropertyNames h o := by
  obtain ⟨ss2, hlink, heq⟩ := obj_set_property_create h o name v wf ho hnone hchild
  rw [heq] at hres
  simp only [Option.some.injEq, Prod.mk.injEq] at hres
  obtain ⟨hsh, hh⟩ := hres
  subst hsh
  subst hh
  have hS := wf.shype_lt o ho
  have hshype' : (getObject (setObject { h with shypes := ss2 } o
      ⟨h.shypes.length, (getObject h o).prop_slots ++ [v]⟩) o).shype =
      h.shypes.length := by
    rw [getObject_set_self { h with shypes := ss2 } o _ ho]
  refine ⟨rfl, hshype', ?_⟩
  unfold objOwnPropertyNames
  rw [hshype']
  show own_property_names ss2 h.shypes.length =
    Value.ImmString name :: own_property_names h.shypes (getObject h o).shype
  rw [own_property_names_eq, own_property_names_eq,
    linkNew_addpropsLR_new_ap hS hlink wf.wfs.parent_decr]
  rfl

/-- Witness for C7: property 1 ("y") lands in front of property 0 ("x")
for object 0, the opposite order for object 1, the two final name lists are
reversals of each other (equal as sets), and the two shapes differ. -/
theorem C7_witness :
    objOwnPropertyNames hC7b 0 =
      Value.ImmString 1 :: objOwnPropertyNames hC7a 0 ∧
    objOwnPropertyNames hC7 0 = [Value.ImmString 1, Value.ImmString 0] ∧
    objOwnPropertyNames hC7 1 = [Value.ImmString 0, Value.ImmString 1] ∧
    (getObject hC7 0).shype ≠ (getObject hC7 1).shype ∧
    (objOwnPropertyNames hC7 0).contains (Value.ImmString 0) = true ∧
    (objOwnPropertyNames hC7 0).contains (Value.ImmString 1) = true ∧
    (objOwnPropertyNames hC7 1).contains (Value.ImmString 0) = true ∧
    (objOwnPropertyNames hC7 1).contains (Value.ImmString 1) = true := by
  have wf := reach_wf hC7a ⟨opsC7a, by decide⟩
  obtain ⟨h1, h2, h3⟩ := C7_own_property_names_most_recent_first hC7a 0 1
    (Value.Num 2) ((obj_set_property hC7a 0 1 (Value.Num 2)).getD (0, h0)).1
    hC7b wf (by decide) (by decide) (by decide) (by decide)
  exact ⟨h3, by decide, by decide, by decide, by decide, by decide, by decide,
    by decide⟩

end Protobj

namespace Protobj

/-! ### Claim C10: the assertions inside `set_property` -/

/-- C10: shape-level `set_property` demands that the passed object's
current shype be the view's node (any other node trips the entry assert,
modelled as `none`); under that precondition, on a reachable heap, none of
the internal assertions fire: both the shape-level lookup and the
object-level `set_property` always return a result. -/
theorem C10_set_property_asserts_never_fire (h : Heap) (o name : Nat)
    (v : Value) (hr : Reach h) (ho : o < h.objects.length) :
    (shype_set_property h (getObject h o).shype o name).isSome ∧
    (obj_set_property h o name v).isSome ∧
    ∀ node, node ≠ (getObject h o).shype →
      shype_set_property h node o name = none := by
  have wf := reach_wf h hr
  have hS := wf.shype_lt o ho
  have hmain : (shype_set_property h (getObject h o).shype o name).isSome ∧
      (obj_set_property h o name v).isSome := by
    cases hroot : lookup_root_path_addprop h.shypes (getObject h o).shype name with
    | some p =>
        obtain ⟨sh, slot⟩ := p
        constructor
        · rw [shype_set_property_found h o name sh slot hroot]; rfl
        · rw [obj_set_property_found h o name v sh slot wf ho hroot]; rfl
    | none =>
        cases hchild : lookup_child_addprop h.shypes (getObject h o).shype name with
        | some p =>
            obtain ⟨sh, slot⟩ := p
            obtain ⟨heq, hslot, _⟩ :=
              obj_set_property_reuse h o name v sh slot wf ho hroot hchild
            constructor
            · rw [shype_set_property_reuse h o name sh slot hroot hchild hslot]
              rfl
            · rw [heq]; rfl
        | none =>
            obtain ⟨ss2, hlink, heq⟩ :=
              obj_set_property_create h o name v wf ho hroot hchild
            constructor
            · rw [shype_set_property_create h o name hroot hchild hS]; rfl
            · rw [heq]; rfl
  refine ⟨hmain.1, hmain.2, ?_⟩
  intro node hnode
  unfold shype_set_property
  rw [if_pos (Ne.symm hnode)]

/-- Witness for C10 on the reachable heap `hC3`: setting a brand-new
property succeeds at both levels, and a mismatched view node is refused. -/
theorem C10_witness :
    (shype_set_property hC3 (getObject hC3 0).shype 0 7).isSome ∧
    (obj_set_property hC3 0 7 (Value.Num 9)).isSome ∧
    shype_set_property hC3 ((getObject hC3 0).shype + 1) 0 7 = none := by
  obtain ⟨h1, h2, h3⟩ := C10_set_property_asserts_never_fire hC3 0 7
    (Value.Num 9) ⟨opsC3, by decide⟩ (by decide)
  exact ⟨h1, h2, h3 _ (by decide)⟩

end Protobj

namespace Protobj

/-! ### Claim C3: the slot-count / slot-numbering / slot-content invariant -/

/-- C3: in every heap reachable by the public operations, each object's
slot count equals the number of `AddProperty` ancestors on its shape's
root path, those ancestors (root-to-leaf) record slots `0, 1, 2, …`, and
the association of ancestor names to slot contents matches the
spec-modelled property map: slot `k` holds the value most recently stored
for the property introduced by the `k`-th `AddProperty` ancestor from the
root.  The quantification over every operation sequence is exactly
preservation by every operation. -/
theorem C3_slot_invariant (ops : List Op) (h : Heap)
    (hrun : runOps h0 ops = some h) :
    (∀ o, o < h.objects.length →
      (getObject h o).prop_slots.length =
        (addpropsLR h.shypes (getObject h o).shype).length ∧
      (addpropsLR h.shypes (getObject h o).shype).reverse.map Prod.snd =
        List.range (addpropsLR h.shypes (getObject h o).shype).length ∧
      ownAssoc h o = (specRun ops).getD o []) ∧
    h.objects.length = (specRun ops).length := by
  obtain ⟨hlen, hcorr⟩ := reach_corr ops h hrun
  have wf : Wf h := reach_wf h ⟨ops, hrun⟩
  refine ⟨?_, hlen⟩
  intro o ho
  exact ⟨wf.count_eq o ho, wf.wfs.slots_range _ (wf.shype_lt o ho), hcorr o ho⟩

/-- Witness for C3 at `hC3` (property 5 set, property 6 set, property 5
overwritten): slot 0 holds the final value of property 5, slot 1 the value
of property 6. -/
theorem C3_witness :
    (getObject hC3 0).prop_slots.length =
      (addpropsLR hC3.shypes (getObject hC3 0).shype).length ∧
    (addpropsLR hC3.shypes (getObject hC3 0).shype).reverse.map Prod.snd =
      List.range (addpropsLR hC3.shypes (getObject hC3 0).shype).length ∧
    ownAssoc hC3 0 = (specRun opsC3).getD 0 [] ∧
    hC3.objects.length = (specRun opsC3).length ∧
    ownAssoc hC3 0 = [(5, Value.Num 3), (6, Value.Num 2)] := by
  obtain ⟨hall, hlen⟩ := C3_slot_invariant opsC3 hC3 (by decide)
  obtain ⟨h1, h2, h3⟩ := hall 0 (by decide)
  exact ⟨h1, h2, h3, hlen, by decide⟩

end Protobj

namespace Protobj

/-! ### Claim C8: `set_prototype` may move the prototype's shape but not
its observable state -/

/-- C8: `set_prototype(o, proto)` runs `become_prototype_of` on `proto`,
which may reassign `proto`'s shape reference; still, every externally
observable feature of `proto` survives: the object count, `proto`'s slot
values (hence slot count), its `own_property_names`, every
`has_own_property` answer, and its `get_prototype` result. -/
theorem C8_proto_observably_unchanged (h : Heap) (o proto : Nat)
    (wf : Wf h) (ho : o < h.objects.length)
    (hproto : proto < h.objects.length) (hne : o ≠ proto)
    (sp : Nat) (h' : Heap)
    (hres : obj_set_prototype h o proto = some (sp, h')) :
    h'.objects.length = h.objects.length ∧
    (getObject h' proto).prop_slots = (getObject h proto).prop_slots ∧
    objOwnPropertyNames h' proto = objOwnPropertyNames h proto ∧
    (∀ n, objHasOwnProperty h' proto n = objHasOwnProperty h proto n) ∧
    objGetPrototype h' proto = objGetPrototype h proto := by
  obtain ⟨sp0, h'0, hres0, hwf', hlen, hslots, haddp, hgp⟩ :=
    obj_set_prototype_spec h o proto wf ho hproto
  rw [hres0] at hres
  simp only [Option.some.injEq, Prod.mk.injEq] at hres
  obtain ⟨h1, h2⟩ := hres
  subst h1
  subst h2
  have hnames := haddp proto hproto
  refine ⟨hlen, hslots proto hproto, ?_, ?_, hgp hne⟩
  · unfold objOwnPropertyNames
    rw [own_property_names_eq, own_property_names_eq, hnames]
  · intro n
    have e := lookup_addprop_eq_none_iff h.shypes n
      (root_path h.shypes (getObject h proto).shype)
    have e' := lookup_addprop_eq_none_iff h'0.shypes n
      (root_path h'0.shypes (getObject h'0 proto).shype)
    cases hcase : lookup_root_path_addprop h.shypes
        (getObject h proto).shype n with
    | none =>
        have hm : n ∉ (addpropsLR h.shypes
            (getObject h proto).shype).map Prod.fst := e.mp hcase
        have hnone : lookup_root_path_addprop h'0.shypes
            (getObject h'0 proto).shype n = none :=
          e'.mpr (by
            show n ∉ (addpropsLR h'0.shypes
              (getObject h'0 proto).shype).map Prod.fst
            rw [hnames]
            exact hm)
        show (lookup_root_path_addprop h'0.shypes
            (getObject h'0 proto).shype n).isSome =
          (lookup_root_path_addprop h.shypes
            (getObject h proto).shype n).isSome
        rw [hnone, hcase]
    | some q =>
        have hm : n ∈ (addpropsLR h.shypes
            (getObject h proto).shype).map Prod.fst := by
          by_contra hcon
          have hx : lookup_root_path_addprop h.shypes
              (getObject h proto).shype n = none := e.mpr hcon
          rw [hx] at hcase
          cases hcase
        have h'mem : n ∈ (addpropsLR h'0.shypes
            (getObject h'0 proto).shype).map Prod.fst := by
          rw [hnames]
          exact hm
        have h'ne : lookup_root_path_addprop h'0.shypes
            (getObject h'0 proto).shype n ≠ none :=
          fun hc => (e'.mp hc) h'mem
        show (lookup_root_path_addprop h'0.shypes
            (getObject h'0 proto).shype n).isSome =
          (lookup_root_path_addprop h.shypes
            (getObject h proto).shype n).isSome
        rw [hcase]
        cases hl' : lookup_root_path_addprop h'0.shypes
            (getObject h'0 proto).shype n with
        | none => exact absurd hl' h'ne
        | some r => rfl

/-- Witness for C8 at `hC8`: `set_prototype(object 1, object 0)` moves
object 0's shape reference, yet object 0's observable state is intact. -/
theorem C8_witness :
    (getObject hC8' 0).shype ≠ (getObject hC8 0).shype ∧
    hC8'.objects.length = hC8.objects.length ∧
    (getObject hC8' 0).prop_slots = (getObject hC8 0).prop_slots ∧
    objOwnPropertyNames hC8' 0 = objOwnPropertyNames hC8 0 ∧
    objHasOwnProperty hC8' 0 5 = objHasOwnProperty hC8 0 5 ∧
    objGetPrototype hC8' 0 = objGetPrototype hC8 0 := by
  have wf := reach_wf hC8 ⟨opsC8, by decide⟩
  obtain ⟨g1, g2, g3, g4, g5⟩ := C8_proto_observably_unchanged hC8 1 0 wf
    (by decide) (by decide) (by decide)
    ((obj_set_prototype hC8 1 0).getD (0, h0)).1 hC8' (by decide)
  exact ⟨by decide, g1, g2, g3, g4 5, g5⟩

end Protobj

namespace Protobj

/-! ### Lockstep machinery for the shape-convergence claim -/

theorem become_noop (h : Heap) (p a t : Nat)
    (hfb : firstBecomeOn h.shypes (root_path h.shypes (getObject h p).shype) =
      some (a, t)) :
    obj_become_prototype_of h p t = some (a, h) := by
  have hsb := shype_become_found h.shypes _ t a hfb
  have hmem := (firstBecomeOn_some_mem h.shypes _ a t hfb).1
  unfold obj_become_prototype_of
  rw [hsb]
  show (if has_ancestor_shype h.shypes (getObject h p).shype a = true then
    some (a, ({ h with shypes := h.shypes } : Heap)) else none) = some (a, h)
  rw [if_pos (has_ancestor_of_mem h.shypes _ a hmem)]

theorem applyOp_setProp_eq (h : Heap) (o n : Nat) (v : Value) (sh : Nat)
    (h' : Heap) (ho : o < h.objects.length)
    (hres : obj_set_property h o n v = some (sh, h')) :
    applyOp h (Op.setProp o n v) = some h' := by
  show (if o < h.objects.length then (obj_set_property h o n v).map (·.2)
    else none) = some h'
  rw [if_pos ho, hres]
  rfl

theorem applyOp_setProto_eq (h : Heap) (o p sp : Nat) (h' : Heap)
    (ho : o < h.objects.length) (hp : p < h.objects.length)
    (hres : obj_set_prototype h o p = some (sp, h')) :
    applyOp h (Op.setProto o p) = some h' := by
  show (if o < h.objects.length ∧ p < h.objects.length then
    (obj_set_prototype h o p).map (·.2) else none) = some h'
  rw [if_pos ⟨ho, hp⟩, hres]
  rfl

theorem protoEvo_firstSetProtoOn_root (h : Heap) (p : Nat) (h' : Heap)
    (hevo : ProtoEvo h p h') (wf : Wf h) (k : Nat)
    (hk : k < h.shypes.length) :
    firstSetProtoOn h'.shypes (root_path h'.shypes k) =
      firstSetProtoOn h.shypes (root_path h.shypes k) := by
  rw [hevo.roots k hk]
  apply firstSetProtoOn_congr
  intro a ha
  have hale : a ≤ k := root_path_mem_le h.shypes k a wf.wfs.parent_decr ha
  exact hevo.variants a (by omega)

theorem firstSetProtoOn_children_pres (h h' : Heap) (wf : Wf h)
    (hvar : ∀ k, k < h.shypes.length →
      (getS h'.shypes k).variant = (getS h.shypes k).variant)
    (k : Nat) (_hk : k < h.shypes.length)
    (hce : children h'.shypes k = children h.shypes k ∨
      ∃ b t, h.shypes.length ≤ b ∧
        (getS h'.shypes b).variant = ShypeVariant.BecomePrototype t ∧
        children h'.shypes k = b :: children h.shypes k) :
    firstSetProtoOn h'.shypes (children h'.shypes k) =
      firstSetProtoOn h.shypes (children h.shypes k) := by
  have hcongr : firstSetProtoOn h'.shypes (children h.shypes k) =
      firstSetProtoOn h.shypes (children h.shypes k) := by
    apply firstSetProtoOn_congr
    intro a ha
    have halt : a < h.shypes.length :=
      children_mem_lt h.shypes k a wf.wfs.sib_decr wf.wfs.fc_lt ha
    exact hvar a halt
  rcases hce with hsame | ⟨b, t, hble, hbvar, hcons⟩
  · rw [hsame, hcongr]
  · rw [hcons, firstSetProtoOn_cons_skip h'.shypes b _
      (by rw [hbvar]; exact notSp_bp t), hcongr]

theorem obj_set_prototype_anc (h : Heap) (o proto a shb : Nat) (hb : Heap)
    (han : firstSetProtoOn h.shypes
      (root_path h.shypes (getObject h o).shype) = some (a, proto))
    (hbec : obj_become_prototype_of h proto (getObject h o).shype =
      some (shb, hb)) :
    obj_set_prototype h o proto = some (a, hb) := by
  unfold obj_set_prototype
  rw [shype_set_prototype_found h.shypes _ proto a han]
  simp [hbec]

theorem obj_set_prototype_child_run (h : Heap) (o proto c shb : Nat)
    (hb : Heap)
    (hsp : shype_set_prototype h.shypes (getObject h o).shype proto =
      some (c, true, h.shypes))
    (hbec : obj_become_prototype_of h proto c = some (shb, hb)) :
    obj_set_prototype h o proto =
      some (c, setObject hb o { getObject hb o with shype := c }) := by
  unfold obj_set_prototype
  rw [hsp]
  simp only [hbec, if_pos]

theorem obj_set_prototype_create_run (h : Heap) (o proto shb : Nat)
    (ss2 : List Shype) (hb : Heap)
    (hsp : shype_set_prototype h.shypes (getObject h o).shype proto =
      some (h.shypes.length, true, ss2))
    (hbec : obj_become_prototype_of { h with shypes := ss2 } proto
      h.shypes.length = some (shb, hb)) :
    obj_set_prototype h o proto =
      some (h.shypes.length,
        setObject hb o { getObject hb o with shype := h.shypes.length }) := by
  unfold obj_set_prototype
  rw [hsp]
  simp only [hbec, if_pos]

theorem prop_step_found (h : Heap) (o n : Nat) (v : Value) (sh0 slot : Nat)
    (wf : Wf h) (ho : o < h.objects.length)
    (hroot : lookup_root_path_addprop h.shypes (getObject h o).shype n =
      some (sh0, slot)) :
    ∃ h', obj_set_property h o n v = some (sh0, h') ∧ Wf h' ∧
      h'.shypes = h.shypes ∧
      h'.objects.length = h.objects.length ∧
      (getObject h' o).shype = (getObject h o).shype ∧
      (getObject h' o).prop_slots.length = (getObject h o).prop_slots.length ∧
      (∀ o', o' ≠ o → getObject h' o' = getObject h o') := by
  have heq := obj_set_property_found h o n v sh0 slot wf ho hroot
  refine ⟨_, heq, wf_obj_set_property h o n v sh0 _ wf ho heq, rfl,
    length_setObject h o _, ?_, ?_, ?_⟩
  · rw [getObject_set_self h o _ ho]
  · rw [getObject_set_self h o _ ho]
    exact List.length_set _ _ _
  · intro o' ho'
    exact getObject_set_ne h o o' _ (Ne.symm ho')

theorem prop_step_reuse (h : Heap) (o n : Nat) (v : Value) (sh0 slot : Nat)
    (wf : Wf h) (ho : o < h.objects.length)
    (hroot : lookup_root_path_addprop h.shypes (getObject h o).shype n = none)
    (hchild : lookup_child_addprop h.shypes (getObject h o).shype n =
      some (sh0, slot)) :
    ∃ h', obj_set_property h o n v = some (sh0, h') ∧ Wf h' ∧
      h'.shypes = h.shypes ∧
      h'.objects.length = h.objects.length ∧
      (getObject h' o).shype = sh0 ∧
      (getObject h' o).prop_slots.length =
        (getObject h o).prop_slots.length + 1 ∧
      (∀ o', o' ≠ o → getObject h' o' = getObject h o') := by
  obtain ⟨heq, hslot, hmem, hvar, hshlt⟩ :=
    obj_set_property_reuse h o n v sh0 slot wf ho hroot hchild
  refine ⟨_, heq, wf_obj_set_property h o n v sh0 _ wf ho heq, rfl,
    length_setObject h o _, ?_, ?_, ?_⟩
  · rw [getObject_set_self h o _ ho]
  · rw [getObject_set_self h o _ ho]
    exact List.length_append _ _
  · intro o' ho'
    exact getObject_set_ne h o o' _ (Ne.symm ho')

theorem prop_step_create (h : Heap) (o n : Nat) (v : Value)
    (wf : Wf h) (ho : o < h.objects.length)
    (hroot : lookup_root_path_addprop h.shypes (getObject h o).shype n = none)
    (hchild : lookup_child_addprop h.shypes (getObject h o).shype n = none) :
    ∃ ss2 h', linkNew h.shypes (getObject h o).shype
        (ShypeVariant.AddProperty n (num_slots h o)) =
        some (h.shypes.length, ss2) ∧
      obj_set_property h o n v = some (h.shypes.length, h') ∧ Wf h' ∧
      h'.shypes = ss2 ∧
      h'.objects.length = h.objects.length ∧
      (getObject h' o).shype = h.shypes.length ∧
      (getObject h' o).prop_slots.length =
        (getObject h o).prop_slots.length + 1 ∧
      (∀ o', o' ≠ o → getObject h' o' = getObject h o') := by
  obtain ⟨ss2, hlink, heq⟩ := obj_set_property_create h o n v wf ho hroot hchild
  refine ⟨ss2, _, hlink, heq,
    wf_obj_set_property h o n v h.shypes.length _ wf ho heq, rfl,
    length_setObject _ o _, ?_, ?_, ?_⟩
  · rw [getObject_set_self { h with shypes := ss2 } o _ ho]
  · rw [getObject_set_self { h with shypes := ss2 } o _ ho]
    exact List.length_append _ _
  · intro o' ho'
    rw [getObject_set_ne { h with shypes := ss2 } o o' _ (Ne.symm ho')]
    rfl

end Protobj

namespace Protobj

/-- One lockstep `set_property` round: the call succeeds on both objects
and they end with the same shype again. -/
theorem lock_prop_step (h : Heap) (o1 o2 n : Nat) (v1 v2 : Value)
    (inv : LockInv h o1 o2) (hne : o1 ≠ o2) :
    ∃ h1 h2, applyOp h (Op.setProp o1 n v1) = some h1 ∧
      applyOp h1 (Op.setProp o2 n v2) = some h2 ∧
      LockInv h2 o1 o2 ∧ h2.objects.length = h.objects.length := by
  obtain ⟨wf, ho1, ho2, hsh, hcnt⟩ := inv
  have hS := wf.shype_lt o1 ho1
  cases hroot : lookup_root_path_addprop h.shypes (getObject h o1).shype n with
  | some pr =>
    obtain ⟨sh0, slot⟩ := pr
    obtain ⟨h1, heq1, hwf1, hss1, hlen1, hshype1, hcnt1, hothers1⟩ :=
      prop_step_found h o1 n v1 sh0 slot wf ho1 hroot
    have hsh12 : (getObject h1 o2).shype = (getObject h o1).shype := by
      rw [hothers1 o2 (Ne.symm hne), ← hsh]
    have hroot2 : lookup_root_path_addprop h1.shypes (getObject h1 o2).shype n =
        some (sh0, slot) := by
      rw [hss1, hsh12]
      exact hroot
    obtain ⟨h2, heq2, hwf2, hss2, hlen2, hshype2, hcnt2, hothers2⟩ :=
      prop_step_found h1 o2 n v2 sh0 slot hwf1 (by rw [hlen1]; exact ho2) hroot2
    refine ⟨h1, h2, applyOp_setProp_eq h o1 n v1 sh0 h1 ho1 heq1,
      applyOp_setProp_eq h1 o2 n v2 sh0 h2 (by rw [hlen1]; exact ho2) heq2,
      ⟨hwf2, by rw [hlen2, hlen1]; exact ho1,
        by rw [hlen2, hlen1]; exact ho2, ?_, ?_⟩, by rw [hlen2, hlen1]⟩
    · rw [hothers2 o1 hne, hshype1, hshype2, hsh12]
    · rw [hothers2 o1 hne, hcnt1, hcnt2, hothers1 o2 (Ne.symm hne)]
      exact hcnt
  | none =>
    cases hchild : lookup_child_addprop h.shypes (getObject h o1).shype n with
    | some pr =>
      obtain ⟨sh0, slot⟩ := pr
      obtain ⟨h1, heq1, hwf1, hss1, hlen1, hshype1, hcnt1, hothers1⟩ :=
        prop_step_reuse h o1 n v1 sh0 slot wf ho1 hroot hchild
      have hsh12 : (getObject h1 o2).shype = (getObject h o1).shype := by
        rw [hothers1 o2 (Ne.symm hne), ← hsh]
      have hroot2 : lookup_root_path_addprop h1.shypes
          (getObject h1 o2).shype n = none := by
        rw [hss1, hsh12]
        exact hroot
      have hchild2 : lookup_child_addprop h1.shypes
          (getObject h1 o2).shype n = some (sh0, slot) := by
        rw [hss1, hsh12]
        exact hchild
      obtain ⟨h2, heq2, hwf2, hss2, hlen2, hshype2, hcnt2, hothers2⟩ :=
        prop_step_reuse h1 o2 n v2 sh0 slot hwf1 (by rw [hlen1]; exact ho2)
          hroot2 hchild2
      refine ⟨h1, h2, applyOp_setProp_eq h o1 n v1 sh0 h1 ho1 heq1,
        applyOp_setProp_eq h1 o2 n v2 sh0 h2 (by rw [hlen1]; exact ho2) heq2,
        ⟨hwf2, by rw [hlen2, hlen1]; exact ho1,
          by rw [hlen2, hlen1]; exact ho2, ?_, ?_⟩, by rw [hlen2, hlen1]⟩
      · rw [hothers2 o1 hne, hshype1, hshype2]
      · rw [hothers2 o1 hne, hcnt1, hcnt2, hothers1 o2 (Ne.symm hne)]
        omega
    | none =>
      obtain ⟨ss2, h1, hlink, heq1, hwf1, hss1, hlen1, hshype1, hcnt1,
        hothers1⟩ := prop_step_create h o1 n v1 wf ho1 hroot hchild
      have hsh12 : (getObject h1 o2).shype = (getObject h o1).shype := by
        rw [hothers1 o2 (Ne.symm hne), ← hsh]
      have hroot2 : lookup_root_path_addprop h1.shypes
          (getObject h1 o2).shype n = none := by
        apply (lookup_addprop_eq_none_iff h1.shypes n _).mpr
        have hnotin := (lookup_addprop_eq_none_iff h.shypes n _).mp hroot
        show n ∉ (addpropsLR h1.shypes (getObject h1 o2).shype).map Prod.fst
        rw [show addpropsLR h1.shypes (getObject h1 o2).shype =
            addpropsLR h.shypes (getObject h o1).shype from by
          rw [hss1, hsh12]
          exact linkNew_addpropsLR_old hS hlink wf.wfs.parent_decr _ hS]
        exact hnotin
      have hchild2 : lookup_child_addprop h1.shypes
          (getObject h1 o2).shype n =
          some (h.shypes.length, num_slots h o1) := by
        show lookup_addprop h1.shypes
          (children h1.shypes (getObject h1 o2).shype) n = _
        rw [hss1, hsh12,
          linkNew_children_p hS hlink wf.wfs.sib_decr wf.wfs.fc_lt,
          lookup_addprop_cons_ap ss2 _ _ n n (num_slots h o1)
            (by rw [linkNew_getS_new hS hlink]), if_pos rfl]
      obtain ⟨h2, heq2, hwf2, hss2, hlen2, hshype2, hcnt2, hothers2⟩ :=
        prop_step_reuse h1 o2 n v2 h.shypes.length (num_slots h o1) hwf1
          (by rw [hlen1]; exact ho2) hroot2 hchild2
      refine ⟨h1, h2,
        applyOp_setProp_eq h o1 n v1 h.shypes.length h1 ho1 heq1,
        applyOp_setProp_eq h1 o2 n v2 h.shypes.length h2
          (by rw [hlen1]; exact ho2) heq2,
        ⟨hwf2, by rw [hlen2, hlen1]; exact ho1,
          by rw [hlen2, hlen1]; exact ho2, ?_, ?_⟩, by rw [hlen2, hlen1]⟩
      · rw [hothers2 o1 hne, hshype1, hshype2]
      · rw [hothers2 o1 hne, hcnt1, hcnt2, hothers1 o2 (Ne.symm hne)]
        omega

end Protobj

namespace Protobj

/-- One lockstep `set_prototype` round: whichever of the three search
branches the first call takes, the second call lands on the very same
`SetPrototype` node, so the two objects share their shype again. -/
theorem lock_proto_step (h : Heap) (o1 o2 p : Nat)
    (inv : LockInv h o1 o2) (hne : o1 ≠ o2)
    (hp1 : p ≠ o1) (hp2 : p ≠ o2) (hplt : p < h.objects.length) :
    ∃ h1 h2, applyOp h (Op.setProto o1 p) = some h1 ∧
      applyOp h1 (Op.setProto o2 p) = some h2 ∧
      LockInv h2 o1 o2 ∧ h2.objects.length = h.objects.length := by
  obtain ⟨wf, ho1, ho2, hsh, hcnt⟩ := inv
  have hS := wf.shype_lt o1 ho1
  by_cases hanc : ∃ a, firstSetProtoOn h.shypes
      (root_path h.shypes (getObject h o1).shype) = some (a, p)
  · -- ancestor hit: both calls leave both objects' shypes alone
    obtain ⟨a, han⟩ := hanc
    obtain ⟨shb, hb, hbec, hevo, hbf, hce⟩ :=
      obj_become_spec h p (getObject h o1).shype wf hplt
    have heq1 : obj_set_prototype h o1 p = some (a, hb) :=
      obj_set_prototype_anc h o1 p a shb hb han hbec
    have hob2 : getObject hb o2 = getObject h o2 :=
      hevo.others o2 ho2 (Ne.symm hp2)
    have hob1 : getObject hb o1 = getObject h o1 :=
      hevo.others o1 ho1 (Ne.symm hp1)
    have hsho2 : (getObject hb o2).shype = (getObject h o1).shype := by
      rw [hob2, ← hsh]
    have han2 : firstSetProtoOn hb.shypes
        (root_path hb.shypes (getObject hb o2).shype) = some (a, p) := by
      rw [hsho2, protoEvo_firstSetProtoOn_root h p hb hevo wf _ hS]
      exact han
    have hbec2 : obj_become_prototype_of hb p (getObject hb o2).shype =
        some (shb, hb) := by
      rw [hsho2]
      exact become_noop hb p shb (getObject h o1).shype hbf
    have heq2 : obj_set_prototype hb o2 p = some (a, hb) :=
      obj_set_prototype_anc hb o2 p a shb hb han2 hbec2
    have hlenb : hb.objects.length = h.objects.length := hevo.obj_len
    refine ⟨hb, hb, applyOp_setProto_eq h o1 p a hb ho1 hplt heq1,
      applyOp_setProto_eq hb o2 p a hb (by rw [hlenb]; exact ho2)
        (by rw [hlenb]; exact hplt) heq2,
      ⟨hevo.wf', by rw [hlenb]; exact ho1, by rw [hlenb]; exact ho2,
        ?_, ?_⟩, hlenb⟩
    · rw [hob1, hob2]
      exact hsh
    · rw [hob1, hob2]
      exact hcnt
  · have hmiss : ∀ a, firstSetProtoOn h.shypes
        (root_path h.shypes (getObject h o1).shype) ≠ some (a, p) :=
      fun a hcon => hanc ⟨a, hcon⟩
    by_cases hchild : ∃ c, firstSetProtoOn h.shypes
        (children h.shypes (getObject h o1).shype) = some (c, p)
    · -- reuse branch: both calls adopt the existing first SetPrototype child
      obtain ⟨c, hch⟩ := hchild
      have hsp1 : shype_set_prototype h.shypes (getObject h o1).shype p =
          some (c, true, h.shypes) := by
        rw [shype_set_prototype_to_child h.shypes _ p hmiss]
        exact shype_set_prototype_child_reuse h.shypes _ p c hch
      obtain ⟨shb, hb, hbec, hevo, hbf, hce⟩ := obj_become_spec h p c wf hplt
      have heq1 : obj_set_prototype h o1 p =
          some (c, setObject hb o1 { getObject hb o1 with shype := c }) :=
        obj_set_prototype_child_run h o1 p c shb hb hsp1 hbec
      have hlenb : hb.objects.length = h.objects.length := hevo.obj_len
      have ho1b : o1 < hb.objects.length := by rw [hlenb]; exact ho1
      have ho2b : o2 < hb.objects.length := by rw [hlenb]; exact ho2
      have hplb : p < hb.objects.length := by rw [hlenb]; exact hplt
      have hob2 : getObject hb o2 = getObject h o2 :=
        hevo.others o2 ho2 (Ne.symm hp2)
      have hH1o2 : getObject (setObject hb o1
          { getObject hb o1 with shype := c }) o2 = getObject h o2 := by
        rw [getObject_set_ne hb o1 o2 _ hne]
        exact hob2
      have hmiss2 : ∀ a, firstSetProtoOn hb.shypes
          (root_path hb.shypes (getObject h o1).shype) ≠ some (a, p) := by
        intro a hcon
        rw [protoEvo_firstSetProtoOn_root h p hb hevo wf _ hS] at hcon
        exact hmiss a hcon
      have hch2 : firstSetProtoOn hb.shypes
          (children hb.shypes (getObject h o1).shype) = some (c, p) := by
        rw [firstSetProtoOn_children_pres h hb wf hevo.variants _ hS
          (hce _ hS)]
        exact hch
      have hsp2 : shype_set_prototype (setObject hb o1
          { getObject hb o1 with shype := c }).shypes
          (getObject (setObject hb o1
            { getObject hb o1 with shype := c }) o2).shype p =
          some (c, true, (setObject hb o1
            { getObject hb o1 with shype := c }).shypes) := by
        show shype_set_prototype hb.shypes
          (getObject (setObject hb o1
            { getObject hb o1 with shype := c }) o2).shype p =
          some (c, true, hb.shypes)
        rw [hH1o2, ← hsh, shype_set_prototype_to_child hb.shypes _ p hmiss2]
        exact shype_set_prototype_child_reuse hb.shypes _ p c hch2
      have hbec2 : obj_become_prototype_of (setObject hb o1
          { getObject hb o1 with shype := c }) p c =
          some (shb, setObject hb o1 { getObject hb o1 with shype := c }) := by
        apply become_noop
        show firstBecomeOn hb.shypes (root_path hb.shypes
          (getObject (setObject hb o1
            { getObject hb o1 with shype := c }) p).shype) = some (shb, c)
        rw [getObject_set_ne hb o1 p _ (Ne.symm hp1)]
        exact hbf
      have heq2 := obj_set_prototype_child_run
        (setObject hb o1 { getObject hb o1 with shype := c }) o2 p c shb
        (setObject hb o1 { getObject hb o1 with shype := c }) hsp2 hbec2
      have happ1 : applyOp h (Op.setProto o1 p) =
          some (setObject hb o1 { getObject hb o1 with shype := c }) :=
        applyOp_setProto_eq h o1 p c _ ho1 hplt heq1
      have happ2 : applyOp (setObject hb o1
          { getObject hb o1 with shype := c }) (Op.setProto o2 p) =
          some (setObject (setObject hb o1
            { getObject hb o1 with shype := c }) o2
            { getObject (setObject hb o1
                { getObject hb o1 with shype := c }) o2 with shype := c }) :=
        applyOp_setProto_eq _ o2 p c _
          (by rw [length_setObject]; exact ho2b)
          (by rw [length_setObject]; exact hplb) heq2
      refine ⟨_, _, happ1, happ2,
        ⟨wf_applyOp _ _ (Op.setProto o2 p)
            (wf_applyOp _ _ (Op.setProto o1 p) wf happ1) happ2,
          by rw [length_setObject, length_setObject]; exact ho1b,
          by rw [length_setObject, length_setObject]; exact ho2b,
          ?_, ?_⟩,
        by rw [length_setObject, length_setObject, hlenb]⟩
      · rw [getObject_set_ne _ o2 o1 _ (Ne.symm hne),
          getObject_set_self hb o1 _ ho1b,
          getObject_set_self _ o2 _ (by rw [length_setObject]; exact ho2b)]
      · rw [getObject_set_ne _ o2 o1 _ (Ne.symm hne),
          getObject_set_self hb o1 _ ho1b,
          getObject_set_self _ o2 _ (by rw [length_setObject]; exact ho2b)]
        show (getObject hb o1).prop_slots.length =
          (getObject (setObject hb o1
            { getObject hb o1 with shype := c }) o2).prop_slots.length
        rw [hH1o2, hevo.slots_all o1 ho1]
        exact hcnt
    · -- create branch: the first call builds the node, the second reuses it
      have hmissc : ∀ c, firstSetProtoOn h.shypes
          (children h.shypes (getObject h o1).shype) ≠ some (c, p) :=
        fun c hcon => hchild ⟨c, hcon⟩
      obtain ⟨ss2, hlink, hcr⟩ :=
        shype_set_prototype_create_eq h.shypes (getObject h o1).shype p hS
      have hsp1 : shype_set_prototype h.shypes (getObject h o1).shype p =
          some (h.shypes.length, true, ss2) := by
        rw [shype_set_prototype_to_child h.shypes _ p hmiss,
          shype_set_prototype_child_to_create h.shypes _ p hmissc]
        exact hcr
      have hwfs2 : WfS ss2 :=
        wfS_linkNew wf.wfs hS hlink (fun hcon => by cases hcon)
          (Or.inl (notAp_sp p))
      have hwfA : Wf { h with shypes := ss2 } :=
        wf_linkNew_heap h _ _ _ ss2 wf hS hlink hwfs2
      have hSss2 : (getObject h o1).shype < ss2.length := by
        have := linkNew_length hS hlink
        omega
      obtain ⟨shb, hb, hbec, hevo, hbf, hce⟩ :=
        obj_become_spec { h with shypes := ss2 } p h.shypes.length hwfA hplt
      have heq1 : obj_set_prototype h o1 p =
          some (h.shypes.length, setObject hb o1
            { getObject hb o1 with shype := h.shypes.length }) :=
        obj_set_prototype_create_run h o1 p shb ss2 hb hsp1 hbec
      have hlenb : hb.objects.length = h.objects.length := hevo.obj_len
      have ho1b : o1 < hb.objects.length := by rw [hlenb]; exact ho1
      have ho2b : o2 < hb.objects.length := by rw [hlenb]; exact ho2
      have hplb : p < hb.objects.length := by rw [hlenb]; exact hplt
      have hob2 : getObject hb o2 = getObject h o2 :=
        hevo.others o2 ho2 (Ne.symm hp2)
      have hH1o2 : getObject (setObject hb o1
          { getObject hb o1 with shype := h.shypes.length }) o2 =
          getObject h o2 := by
        rw [getObject_set_ne hb o1 o2 _ hne]
        exact hob2
      have hrootpres : firstSetProtoOn hb.shypes
          (root_path hb.shypes (getObject h o1).shype) =
          firstSetProtoOn h.shypes
            (root_path h.shypes (getObject h o1).shype) := by
        have e1 : firstSetProtoOn hb.shypes
            (root_path hb.shypes (getObject h o1).shype) =
            firstSetProtoOn ss2 (root_path ss2 (getObject h o1).shype) :=
          protoEvo_firstSetProtoOn_root { h with shypes := ss2 } p hb hevo
            hwfA _ hSss2
        rw [e1, linkNew_root_path_old hS hlink wf.wfs.parent_decr _ hS]
        apply firstSetProtoOn_congr
        intro x hx
        have hxle : x ≤ (getObject h o1).shype :=
          root_path_mem_le h.shypes _ x wf.wfs.parent_decr hx
        rw [linkNew_variant hS hlink x, if_neg (by omega)]
      have hmiss2 : ∀ a, firstSetProtoOn hb.shypes
          (root_path hb.shypes (getObject h o1).shype) ≠ some (a, p) := by
        intro a hcon
        rw [hrootpres] at hcon
        exact hmiss a hcon
      have hchpres : firstSetProtoOn hb.shypes
          (children hb.shypes (getObject h o1).shype) =
          some (h.shypes.length, p) := by
        have e1 : firstSetProtoOn hb.shypes
            (children hb.shypes (getObject h o1).shype) =
            firstSetProtoOn ss2 (children ss2 (getObject h o1).shype) :=
          firstSetProtoOn_children_pres { h with shypes := ss2 } hb hwfA
            hevo.variants _ hSss2 (hce _ hSss2)
        rw [e1, linkNew_children_p hS hlink wf.wfs.sib_decr wf.wfs.fc_lt,
          firstSetProtoOn_cons_sp ss2 h.shypes.length _ p
            (by rw [linkNew_getS_new hS hlink])]
      have hsp2 : shype_set_prototype (setObject hb o1
          { getObject hb o1 with shype := h.shypes.length }).shypes
          (getObject (setObject hb o1
            { getObject hb o1 with shype := h.shypes.length }) o2).shype p =
          some (h.shypes.length, true, (setObject hb o1
            { getObject hb o1 with shype := h.shypes.length }).shypes) := by
        show shype_set_prototype hb.shypes
          (getObject (setObject hb o1
            { getObject hb o1 with shype := h.shypes.length }) o2).shype p =
          some (h.shypes.length, true, hb.shypes)
        rw [hH1o2, ← hsh, shype_set_prototype_to_child hb.shypes _ p hmiss2]
        exact shype_set_prototype_child_reuse hb.shypes _ p _ hchpres
      have hbec2 : obj_become_prototype_of (setObject hb o1
          { getObject hb o1 with shype := h.shypes.length }) p
          h.shypes.length =
          some (shb, setObject hb o1
            { getObject hb o1 with shype := h.shypes.length }) := by
        apply become_noop
        show firstBecomeOn hb.shypes (root_path hb.shypes
          (getObject (setObject hb o1
            { getObject hb o1 with shype := h.shypes.length }) p).shype) =
          some (shb, h.shypes.length)
        rw [getObject_set_ne hb o1 p _ (Ne.symm hp1)]
        exact hbf
      have heq2 := obj_set_prototype_child_run
        (setObject hb o1 { getObject hb o1 with shype := h.shypes.length })
        o2 p h.shypes.length shb
        (setObject hb o1 { getObject hb o1 with shype := h.shypes.length })
        hsp2 hbec2
      have happ1 : applyOp h (Op.setProto o1 p) =
          some (setObject hb o1
            { getObject hb o1 with shype := h.shypes.length }) :=
        applyOp_setProto_eq h o1 p h.shypes.length _ ho1 hplt heq1
      have happ2 : applyOp (setObject hb o1
          { getObject hb o1 with shype := h.shypes.length })
          (Op.setProto o2 p) =
          some (setObject (setObject hb o1
            { getObject hb o1 with shype := h.shypes.length }) o2
            { getObject (setObject hb o1
                { getObject hb o1 with shype := h.shypes.length }) o2 with
              shype := h.shypes.length }) :=
        applyOp_setProto_eq _ o2 p h.shypes.length _
          (by rw [length_setObject]; exact ho2b)
          (by rw [length_setObject]; exact hplb) heq2
      refine ⟨_, _, happ1, happ2,
        ⟨wf_applyOp _ _ (Op.setProto o2 p)
            (wf_applyOp _ _ (Op.setProto o1 p) wf happ1) happ2,
          by rw [length_setObject, length_setObject]; exact ho1b,
          by rw [length_setObject, length_setObject]; exact ho2b,
          ?_, ?_⟩,
        by rw [length_setObject, length_setObject, hlenb]⟩
      · rw [getObject_set_ne _ o2 o1 _ (Ne.symm hne),
          getObject_set_self hb o1 _ ho1b,
          getObject_set_self _ o2 _ (by rw [length_setObject]; exact ho2b)]
      · rw [getObject_set_ne _ o2 o1 _ (Ne.symm hne),
          getObject_set_self hb o1 _ ho1b,
          getObject_set_self _ o2 _ (by rw [length_setObject]; exact ho2b)]
        show (getObject hb o1).prop_slots.length =
          (getObject (setObject hb o1
            { getObject hb o1 with shype := h.shypes.length })
            o2).prop_slots.length
        rw [hH1o2, hevo.slots_all o1 ho1]
        exact hcnt

end Protobj

namespace Protobj

/-- Lockstep execution always succeeds and preserves the invariant: both
objects stay live and share shype and slot count after every round. -/
theorem runLock_inv (o1 o2 : Nat) (hne : o1 ≠ o2) :
    ∀ (cs : List Call) (h : Heap), LockInv h o1 o2 →
    (∀ q, Call.proto q ∈ cs → q ≠ o1 ∧ q ≠ o2 ∧ q < h.objects.length) →
    ∃ h', runLock h o1 o2 cs = some h' ∧ LockInv h' o1 o2 ∧
      h'.objects.length = h.objects.length := by
  intro cs
  induction cs with
  | nil =>
    intro h inv hq
    exact ⟨h, rfl, inv, rfl⟩
  | cons c cs ih =>
    intro h inv hq
    cases c with
    | prop n v1 v2 =>
      obtain ⟨h1, h2, happ1, happ2, inv2, hlen2⟩ :=
        lock_prop_step h o1 o2 n v1 v2 inv hne
      obtain ⟨h', hrun, inv', hlen'⟩ := ih h2 inv2 (fun q hq' => by
        obtain ⟨hq1, hq2, hqlt⟩ := hq q (List.mem_cons_of_mem _ hq')
        exact ⟨hq1, hq2, by rw [hlen2]; exact hqlt⟩)
      refine ⟨h', ?_, inv', by rw [hlen', hlen2]⟩
      show (match applyOp h (Op.setProp o1 n v1) with
        | none => none
        | some hx =>
          match applyOp hx (Op.setProp o2 n v2) with
          | none => none
          | some hy => runLock hy o1 o2 cs) = some h'
      rw [happ1]
      show (match applyOp h1 (Op.setProp o2 n v2) with
        | none => none
        | some hy => runLock hy o1 o2 cs) = some h'
      rw [happ2]
      exact hrun
    | proto q =>
      obtain ⟨hq1, hq2, hqlt⟩ := hq q (List.mem_cons_self _ _)
      obtain ⟨h1, h2, happ1, happ2, inv2, hlen2⟩ :=
        lock_proto_step h o1 o2 q inv hne hq1 hq2 hqlt
      obtain ⟨h', hrun, inv', hlen'⟩ := ih h2 inv2 (fun r hr' => by
        obtain ⟨hr1, hr2, hrlt⟩ := hq r (List.mem_cons_of_mem _ hr')
        exact ⟨hr1, hr2, by rw [hlen2]; exact hrlt⟩)
      refine ⟨h', ?_, inv', by rw [hlen', hlen2]⟩
      show (match applyOp h (Op.setProto o1 q) with
        | none => none
        | some hx =>
          match applyOp hx (Op.setProto o2 q) with
          | none => none
          | some hy => runLock hy o1 o2 cs) = some h'
      rw [happ1]
      show (match applyOp h1 (Op.setProto o2 q) with
        | none => none
        | some hy => runLock hy o1 o2 cs) = some h'
      rw [happ2]
      exact hrun

end Protobj

namespace Protobj

/-! ### Claim C1: shape convergence -/

/-- Counterexample to C1: in `hC1cx`, objects 2 and 4 receive exactly the
same ordered call sequence (`set_prototype(object 0)` once each), yet end
with different shype nodes — object 3's interleaved
`set_prototype(object 1)` reshapes the root's child list between the two
calls, and the child probe only ever inspects the first `SetPrototype`
child. -/
theorem C1_counterexample :
    runOps h0 opsC1cx = some hC1cx ∧
    callsOf 2 opsC1cx = callsOf 4 opsC1cx ∧
    callsOf 2 opsC1cx = [CallSig.proto 0] ∧
    (getObject hC1cx 2).shype ≠ (getObject hC1cx 4).shype := by decide

/-- C1 (amended): shape convergence holds for lockstep application — the
identical ordered calls go to the two objects with no other mutation
interleaved.  Starting from any two live objects sharing shype and slot
count (in particular two fresh allocations at the same root), every
lockstep sequence of `set_property` (same names, possibly different
values) and `set_prototype` (same prototype object, distinct from the
pair) succeeds and leaves both objects with the very same shype node and
equal slot counts. -/
theorem C1_lockstep_shape_convergence (h : Heap) (o1 o2 : Nat)
    (cs : List Call) (inv : LockInv h o1 o2) (hne : o1 ≠ o2)
    (hq : ∀ q, Call.proto q ∈ cs → q ≠ o1 ∧ q ≠ o2 ∧
      q < h.objects.length) :
    (runLock h o1 o2 cs).isSome ∧
    ∀ h', runLock h o1 o2 cs = some h' →
      (getObject h' o1).shype = (getObject h' o2).shype ∧
      (getObject h' o1).prop_slots.length =
        (getObject h' o2).prop_slots.length := by
  obtain ⟨h2, hrun, inv2, hlen⟩ := runLock_inv o1 o2 hne cs h inv hq
  refine ⟨by rw [hrun]; rfl, ?_⟩
  intro h' hrun'
  rw [hrun] at hrun'
  simp only [Option.some.injEq] at hrun'
  subst hrun'
  exact ⟨inv2.hsh, inv2.hcnt⟩

/-- Witness for the amended C1: two fresh objects driven in lockstep
through a property write, a shared `set_prototype`, and another property
write converge to the same shype with equal slot counts but different
slot contents. -/
theorem C1_witness :
    (runLock hTriple 0 1 csC1).isSome ∧
    (getObject hC1lock 0).shype = (getObject hC1lock 1).shype ∧
    (getObject hC1lock 0).prop_slots.length =
      (getObject hC1lock 1).prop_slots.length ∧
    (getObject hC1lock 0).prop_slots ≠ (getObject hC1lock 1).prop_slots := by
  have inv : LockInv hTriple 0 1 :=
    ⟨reach_wf hTriple ⟨opsTriple, by decide⟩,
      by decide, by decide, by decide, by decide⟩
  obtain ⟨hs, hall⟩ := C1_lockstep_shape_convergence hTriple 0 1 csC1 inv
    (by decide)
    (fun q hqmem => by
      simp only [csC1, List.mem_cons, List.not_mem_nil, or_false] at hqmem
      rcases hqmem with h1 | h2 | h3
      · cases h1
      · cases h2
        exact ⟨by decide, by decide, by decide⟩
      · cases h3)
  obtain ⟨e1, e2⟩ := hall hC1lock (by decide)
  exact ⟨hs, e1, e2, by decide⟩

end Protobj
